import Mathlib

/-!
# URL shortener: short codes, aliases, redirect resolution

A shallow embedding of `backend/utils/generateShortUrl.js`,
`backend/models/Url.js` and `backend/controllers/urlController.js`.

JavaScript strings are modelled by `String`; where the source reads
`s.length` the model counts UTF-16 code units (`jsLength`).  The random source
`crypto.randomInt` is a stream `Nat → Nat` of successive outputs, read at an
explicit position.  Instants are natural numbers (milliseconds).  The counter
`clicks` is a natural number that a JavaScript Number holds, and `jsIncrement`
is `+ 1` on Numbers.

The collection is a list of documents in insertion order.  A query is answered
from the list (`findOne` returns the first match).  A write can be refused by
the store: every handler takes the store's verdict on its write as an input,
and a refused write leaves the list as it was and is answered with 500 by the
handler's `catch`.  The `save()` of a loaded document sends the changes made to
it (`applyUpdate`), which the store applies to the document it holds.  The
unique indexes that the schema declares are `uniqueIndexesAdmit`; a run whose
verdicts respect them is `runAdmitted`.  A `req.params.id` is `some` ObjectId,
or `none` when the text is not an ObjectId and the query cannot be built.
Handlers return the response, the collection afterwards and the list of store
calls they made.  Two `redirectUrl` requests in flight at once are a schedule
of their store calls (`runEvents`).
-/

namespace UrlShortener

/-! ## `utils/generateShortUrl.js` -/

/-- Number of UTF-16 code units of one character (what `String.prototype.length` counts). -/
def utf16Units (c : Char) : Nat := if c.toNat < 65536 then 1 else 2

/-- The value of `s.length` in JavaScript: the number of UTF-16 code units. -/
def jsLength (s : String) : Nat := (s.data.map utf16Units).sum

/-- The literal `chars` of `generateShortCode`. -/
def chars : String := "abcdefghijklmnopqrstuvwxyzABCDEFGHIJKLMNOPQRSTUVWXYZ0123456789"

/-- The expression `chars[k]` used as the right operand of `+=`: the character at index `k`, and
the text `undefined` when `k` is out of range. -/
def charAt (s : String) (k : Nat) : String :=
  match s.data.get? k with
  | some c => String.singleton c
  | none => "undefined"

/-- The `for` loop of `generateShortCode`: `n` iterations remain, the next call of
`crypto.randomInt(0, chars.length)` returns `rnd pos`. -/
def generateShortCodeLoop (rnd : Nat → Nat) : Nat → Nat → String → String
  | 0, _, result => result
  | n + 1, pos, result => generateShortCodeLoop rnd n (pos + 1) (result ++ charAt chars (rnd pos))

/-- The function `generateShortCode(length = 6)`; `none` is the omitted argument. -/
def generateShortCode (length : Option Nat) (rnd : Nat → Nat) (pos : Nat) : String :=
  generateShortCodeLoop rnd (length.getD 6) pos ""

/-- The function `generateShortUrl(baseUrl, code)`, a template literal. -/
def generateShortUrl (baseUrl code : String) : String := baseUrl ++ "/" ++ code

/-- The character class `[a-zA-Z0-9_-]`. -/
def aliasClass (c : Char) : Bool :=
  (97 ≤ c.toNat && c.toNat ≤ 122) || (65 ≤ c.toNat && c.toNat ≤ 90) ||
  (48 ≤ c.toNat && c.toNat ≤ 57) || c.toNat == 95 || c.toNat == 45

/-- The test `/^[a-zA-Z0-9_-]+$/.test(alias)`: one or more characters, all of the class, from the
start of the input to its end. -/
def patternTest (s : String) : Bool :=
  !s.data.isEmpty && s.data.all aliasClass

/-- The function `isValidCustomAlias(alias)`. -/
def isValidCustomAlias (a : String) : Bool :=
  patternTest a && decide (jsLength a ≥ 3) && decide (jsLength a ≤ 20)

/-- The 64 characters the alias policy allows, listed one by one. -/
def aliasAlphabet : List Char :=
  "abcdefghijklmnopqrstuvwxyzABCDEFGHIJKLMNOPQRSTUVWXYZ0123456789_-".data

/-! ## `models/Url.js` -/

/-- One element of `clickHistory`. Instants are milliseconds since the epoch. -/
structure ClickEvent where
  timestamp : Nat
  ip : String
  userAgent : String
  referrer : String
deriving DecidableEq

/-- A document of the `Url` model. `id` is `_id`; `createdAt` and `updatedAt` are the two fields
added by the schema option `timestamps: true`; `version` is the version key `__v` that mongoose
keeps in every document; `none` is `null`. -/
structure UrlDoc where
  id : Nat
  originalUrl : String
  shortUrl : String
  urlCode : String
  userId : Nat
  clicks : Nat
  clickHistory : List ClickEvent
  expiresAt : Option Nat
  isActive : Bool
  customAlias : Option String
  createdAt : Nat
  updatedAt : Nat
  version : Nat
deriving DecidableEq

/-- The collection, in natural (insertion) order. -/
abbrev Store := List UrlDoc

/-- Line terminators, which `.` of a regular expression does not match. -/
def isLineTerminator (c : Char) : Bool :=
  c.toNat == 10 || c.toNat == 13 || c.toNat == 8232 || c.toNat == 8233

/-- The validator of `originalUrl`: `/^https?:\/\/.+/.test(v)`. -/
def validOriginalUrl (v : String) : Bool :=
  let rest : Option (List Char) :=
    if "https://".data.isPrefixOf v.data then some (v.data.drop 8)
    else if "http://".data.isPrefixOf v.data then some (v.data.drop 7)
    else none
  match rest with
  | some (c :: _) => !isLineTerminator c
  | _ => false

/-- Schema validation run by `save()` on a new document: the `originalUrl` validator and the
`required` string paths (`userId` is always supplied by the authenticated request). -/
def schemaValid (d : UrlDoc) : Bool :=
  validOriginalUrl d.originalUrl && d.shortUrl != "" && d.urlCode != ""

/-- The method `isExpired()`, with `now` the value of `new Date()`. -/
def isExpired (url : UrlDoc) (now : Nat) : Bool :=
  match url.expiresAt with
  | none => false
  | some e => decide (now > e)

/-- The argument `clickData` of `addClick`; `none` is `undefined`. -/
structure ClickData where
  ip : Option String
  userAgent : Option String
  referrer : Option String

/-- The expression `a || b` on optional strings: `a` when it is truthy (present and non-empty). -/
def jsOr (a b : Option String) : Option String :=
  match a with
  | some s => if s = "" then b else some s
  | none => b

/-- The expression `v || d` with a string literal `d`. -/
def orDefault (v : Option String) (d : String) : String :=
  match v with
  | some s => if s = "" then d else s
  | none => d

/-- The expression `n + 1` on a JavaScript Number holding the natural number `n`: exact below
2^53; from there on the sum is rounded to the nearest Number, to the even one on a tie, which
leaves 2^53 itself unchanged. -/
def jsIncrement (n : Nat) : Nat :=
  if n < 9007199254740992 then n + 1
  else if n < 18014398509481984 ∧ (n / 2) % 2 = 1 then n + 2
  else n

/-- The largest length of a JavaScript array, 2^32 - 1; `push` on an array of that length
throws. -/
def maxArrayLength : Nat := 4294967295

/-- The object literal that `addClick` pushes; `now` is `new Date()`. -/
def clickEvent (clickData : ClickData) (now : Nat) : ClickEvent :=
  { timestamp := now
    ip := orDefault clickData.ip "unknown"
    userAgent := orDefault clickData.userAgent "unknown"
    referrer := orDefault clickData.referrer "direct" }

/-- The two assignments of `addClick` on the in-memory document: `this.clicks += 1` and the
`push` onto `this.clickHistory`. -/
def applyClick (url : UrlDoc) (clickData : ClickData) (now : Nat) : UrlDoc :=
  { url with
    clicks := jsIncrement url.clicks
    clickHistory := url.clickHistory ++ [clickEvent clickData now] }

/-- The update that `save()` sends for a document `doc` changed by `addClick`, applied to the
stored document `d`: `$set` of `clicks` to the in-memory value and of `updatedAt` to the time of
the save, `$push` of the new entry onto the stored `clickHistory`, `$inc` of the version key. -/
def applyUpdate (doc : UrlDoc) (pushed : ClickEvent) (nowSave : Nat) (d : UrlDoc) : UrlDoc :=
  { d with
    clicks := doc.clicks
    clickHistory := d.clickHistory ++ [pushed]
    updatedAt := nowSave
    version := d.version + 1 }

/-- The write `updateOne({ _id: id }, update)`: the update is applied to the first stored
document with that `_id`. -/
def updateOne : Store → Nat → (UrlDoc → UrlDoc) → Store
  | [], _, _ => []
  | d :: rest, id, f => if d.id = id then f d :: rest else d :: updateOne rest id f

/-- The call `this.save()` on a loaded document after the assignments of `addClick`, `pushed`
being the entry they pushed: `nowSave` is the instant the timestamps hook writes to `updatedAt`,
`ok` the verdict of the store on the write. The result is the document as it then stands in
memory and the new collection, or `none` when the promise rejects. -/
def save (store : Store) (doc : UrlDoc) (pushed : ClickEvent) (nowSave : Nat) (ok : Bool) :
    Option (UrlDoc × Store) :=
  if ok then
    some ({ doc with updatedAt := nowSave, version := doc.version + 1 },
      updateOne store doc.id (applyUpdate doc pushed nowSave))
  else none

/-- The method `addClick(clickData)`: mutate, then `return this.save()`. When `clickHistory` is
already of the largest array length the `push` throws and nothing is saved. -/
def addClick (store : Store) (url : UrlDoc) (clickData : ClickData) (nowClick nowSave : Nat)
    (ok : Bool) : Option (UrlDoc × Store) :=
  if url.clickHistory.length < maxArrayLength then
    save store (applyClick url clickData nowClick) (clickEvent clickData nowClick) nowSave ok
  else none

/-! ## `controllers/urlController.js` -/

/-- The query documents the controller passes to the store. -/
inductive Filter where
  | codeOrAlias (customAlias : String)
  | code (urlCode : String)
  | activeCodeOrAlias (code : String)
  | idOwner (id userId : Nat)
deriving DecidableEq

/-- Whether a document satisfies a query: `{ $or: [{ urlCode }, { customAlias }] }`,
`{ urlCode }`, the same `$or` with `isActive: true`, and `{ _id, userId }`. -/
def Filter.matches : Filter → UrlDoc → Bool
  | .codeOrAlias a, d => d.urlCode == a || d.customAlias == some a
  | .code c, d => d.urlCode == c
  | .activeCodeOrAlias k, d => (d.urlCode == k || d.customAlias == some k) && d.isActive
  | .idOwner id userId, d => d.id == id && d.userId == userId

/-- The call `Url.findOne(filter)`: the first matching document, or `none` for `null`. -/
def findOne (store : Store) (f : Filter) : Option UrlDoc :=
  store.find? f.matches

/-- The calls made to the store during one request, in order. -/
inductive StoreOp where
  | findOne (f : Filter)
  | insert (doc : UrlDoc)
  | update (doc : UrlDoc)
  | findOneAndDelete (f : Filter)
deriving DecidableEq

/-- The object `analytics` built by `getUrlAnalytics`; `lastClicked = none` is `null`. -/
structure Analytics where
  totalClicks : Nat
  clickHistory : List ClickEvent
  createdAt : Nat
  lastClicked : Option Nat
deriving DecidableEq

/-- What a handler sends: `res.status(s).json({ message })`, the 400 answer carrying the
validator's error list, the 201 answer carrying the new document, `res.redirect(location)`, or
`res.json({ analytics })`. -/
inductive Response where
  | json (status : Nat) (message : String)
  | validationFailed (errors : List String)
  | created (url : UrlDoc)
  | redirect (location : String)
  | analytics (a : Analytics)
deriving DecidableEq

/-- The HTTP status of a response. -/
def Response.status : Response → Nat
  | .json s _ => s
  | .validationFailed _ => 400
  | .created _ => 201
  | .redirect _ => 302
  | .analytics _ => 200

/-- A finished request: the response, the collection afterwards, and the store calls made. -/
structure Outcome where
  response : Response
  store : Store
  ops : List StoreOp
deriving DecidableEq

/-- The body of a shorten request together with `validationResult(req)` and `req.user.id`.
`customAlias = none` is an absent or `null` alias; `expiresAt` is the instant
`new Date(expiresAt)` of a supplied value. -/
structure ShortenReq where
  validationErrors : List String
  originalUrl : String
  customAlias : Option String
  expiresAt : Option Nat
  userId : Nat

/-- What a shorten request reads from its surroundings: `process.env.BASE_URL`, the outputs of
`crypto.randomInt(0, 62)` in call order, the `_id` given to the new document, the clock, and the
verdict of the store on the insert (its index constraints and availability). -/
structure ShortenEnv where
  baseUrl : String
  rnd : Nat → Nat
  newId : Nat
  now : Nat
  storeAccepts : Bool

/-- The loop `while (!isUnique)` of `shortenUrl`. The source loop has no bound; `fuel` counts the
iterations the model may run and `none` means they did not suffice. The result is the accepted
`urlCode` and the queries made. -/
def uniqueCodeLoop (store : Store) (rnd : Nat → Nat) : Nat → Nat → Option (String × List StoreOp)
  | 0, _ => none
  | fuel + 1, pos =>
    let urlCode := generateShortCode none rnd pos
    match findOne store (.code urlCode) with
    | none => some (urlCode, [.findOne (.code urlCode)])
    | some _ =>
      (uniqueCodeLoop store rnd fuel (pos + 6)).map
        (fun r => (r.1, StoreOp.findOne (.code urlCode) :: r.2))

/-- The document built by `new Url({...})` in `shortenUrl`, with the schema defaults. -/
def newUrlDoc (req : ShortenReq) (env : ShortenEnv) (urlCode : String) : UrlDoc :=
  { id := env.newId
    originalUrl := req.originalUrl
    shortUrl := generateShortUrl env.baseUrl urlCode
    urlCode := urlCode
    userId := req.userId
    clicks := 0
    clickHistory := []
    expiresAt := req.expiresAt
    isActive := true
    customAlias := jsOr req.customAlias none
    createdAt := env.now
    updatedAt := env.now
    version := 0 }

/-- The tail of `shortenUrl` from `generateShortUrl` on: build the document and `save()` it.
Schema validation fails before the store is contacted; the store refuses a second document with
the same `_id` and otherwise answers as `env.storeAccepts` says. Any failure is caught and
answered with 500. -/
def createUrl (store : Store) (req : ShortenReq) (env : ShortenEnv) (urlCode : String)
    (ops : List StoreOp) : Outcome :=
  let urlDoc := newUrlDoc req env urlCode
  if !schemaValid urlDoc then
    ⟨.json 500 "Server error creating short URL", store, ops⟩
  else if store.any (fun d => d.id == urlDoc.id) || !env.storeAccepts then
    ⟨.json 500 "Server error creating short URL", store, ops ++ [.insert urlDoc]⟩
  else
    ⟨.created urlDoc, store ++ [urlDoc], ops ++ [.insert urlDoc]⟩

/-- The handler `shortenUrl`. `none` only when the generation loop was given too little fuel. -/
def shortenUrl (fuel : Nat) (store : Store) (req : ShortenReq) (env : ShortenEnv) :
    Option Outcome :=
  if !req.validationErrors.isEmpty then
    some ⟨.validationFailed req.validationErrors, store, []⟩
  else
    match jsOr req.customAlias none with
    | some customAlias =>
      if !isValidCustomAlias customAlias then
        some ⟨.json 400 "Custom alias must be 3-20 characters and contain only letters, numbers, hyphens, and underscores", store, []⟩
      else
        match findOne store (.codeOrAlias customAlias) with
        | some _ =>
          some ⟨.json 400 "Custom alias already exists", store, [.findOne (.codeOrAlias customAlias)]⟩
        | none =>
          some (createUrl store req env customAlias [.findOne (.codeOrAlias customAlias)])
    | none =>
      match uniqueCodeLoop store env.rnd fuel 0 with
      | none => none
      | some (urlCode, ops) => some (createUrl store req env urlCode ops)

/-- The parts of a redirect request the handler reads. -/
structure RedirectReq where
  code : String
  ip : Option String
  remoteAddress : Option String
  userAgent : Option String
  referrer : Option String

/-- The clock reads of a redirect request (in `isExpired`, in `addClick`, and by the timestamps
hook of `save`) and the verdict of the store on the write. -/
structure RedirectEnv where
  nowExpiry : Nat
  nowClick : Nat
  nowSave : Nat
  saveOk : Bool

/-- The object literal `clickData` of `redirectUrl`. -/
def clickDataOf (req : RedirectReq) : ClickData :=
  { ip := jsOr req.ip req.remoteAddress
    userAgent := req.userAgent
    referrer := req.referrer }

/-- The handler `redirectUrl`. -/
def redirectUrl (store : Store) (req : RedirectReq) (env : RedirectEnv) : Outcome :=
  let q := Filter.activeCodeOrAlias req.code
  match findOne store q with
  | none => ⟨.json 404 "URL not found", store, [.findOne q]⟩
  | some url =>
    if isExpired url env.nowExpiry then
      ⟨.json 410 "URL has expired", store, [.findOne q]⟩
    else
      match addClick store url (clickDataOf req) env.nowClick env.nowSave env.saveOk with
      | some (saved, store') =>
        ⟨.redirect saved.originalUrl, store', [.findOne q, .update saved]⟩
      | none =>
        ⟨.json 500 "Server error during redirect", store,
          if url.clickHistory.length < maxArrayLength then
            [.findOne q, .update (applyClick url (clickDataOf req) env.nowClick)]
          else [.findOne q]⟩

/-- The handler `deleteUrl`: `findOneAndDelete({ _id, userId })` removes the first match. When
`req.params.id` is not an ObjectId the query cannot be built and the `catch` answers 500. -/
def deleteUrl (store : Store) (id : Option Nat) (userId : Nat) : Outcome :=
  match id with
  | none => ⟨.json 500 "Server error deleting URL", store, []⟩
  | some id =>
    let q := Filter.idOwner id userId
    match findOne store q with
    | none => ⟨.json 404 "URL not found", store, [.findOneAndDelete q]⟩
    | some _ =>
      ⟨.json 200 "URL deleted successfully", store.eraseP q.matches, [.findOneAndDelete q]⟩

/-- The expression `h.length > 0 ? h[h.length - 1].timestamp : null` of `getUrlAnalytics`. -/
def lastClicked (h : List ClickEvent) : Option Nat :=
  if h.length > 0 then (h.get? (h.length - 1)).map (fun e => e.timestamp) else none

/-- The handler `getUrlAnalytics`: a lookup by `_id` and owner, then the analytics object read
off the document. When `req.params.id` is not an ObjectId the query cannot be built and the
`catch` answers 500. -/
def getUrlAnalytics (store : Store) (id : Option Nat) (userId : Nat) : Outcome :=
  match id with
  | none => ⟨.json 500 "Server error fetching analytics", store, []⟩
  | some id =>
    let q := Filter.idOwner id userId
    match findOne store q with
    | none => ⟨.json 404 "URL not found", store, [.findOne q]⟩
    | some url =>
      ⟨.analytics
          { totalClicks := url.clicks
            clickHistory := url.clickHistory
            createdAt := url.createdAt
            lastClicked := lastClicked url.clickHistory },
        store, [.findOne q]⟩

/-- A request to one of the three handlers that write to the collection. -/
inductive Request where
  | shorten (fuel : Nat) (req : ShortenReq) (env : ShortenEnv)
  | redirect (req : RedirectReq) (env : RedirectEnv)
  | delete (id : Option Nat) (userId : Nat)

/-- The collection after one request; a shorten request whose loop has not finished has written
nothing. -/
def step (store : Store) : Request → Store
  | .shorten fuel req env =>
    match shortenUrl fuel store req env with
    | some o => o.store
    | none => store
  | .redirect req env => (redirectUrl store req env).store
  | .delete id userId => (deleteUrl store id userId).store

/-- The collection after a sequence of requests handled one after the other. -/
def run (store : Store) (reqs : List Request) : Store :=
  reqs.foldl step store

/-- The clock values read by `addClick` in a sequence of requests, in order: one per redirect
request. -/
def clickTimes : List Request → List Nat
  | [] => []
  | .redirect _ env :: rest => env.nowClick :: clickTimes rest
  | _ :: rest => clickTimes rest

/-- What holds of a collection built by the handlers: the `_id`s are pairwise distinct, the
`urlCode`s are pairwise distinct, and a record that has a `customAlias` has it as its `urlCode`. -/
def StoreInv (store : Store) : Prop :=
  (store.map (fun d => d.id)).Nodup ∧
  (store.map (fun d => d.urlCode)).Nodup ∧
  ∀ d ∈ store, ∀ a, d.customAlias = some a → d.urlCode = a

/-- The timestamps of a record's `clickHistory`, in order. -/
def timestamps (d : UrlDoc) : List Nat :=
  d.clickHistory.map (fun e => e.timestamp)

/-- The document as it stands in memory, and in a collection with distinct `_id`s also in the
store, after `addClick` on the loaded document `url` and a successful save. -/
def savedDoc (url : UrlDoc) (clickData : ClickData) (nowClick nowSave : Nat) : UrlDoc :=
  { applyClick url clickData nowClick with updatedAt := nowSave, version := url.version + 1 }

/-- The verdict of the unique indexes that the schema declares, on the insert of `doc`: `shortUrl`
unique, `urlCode` unique, `customAlias` unique and sparse. A sparse index leaves out only the
documents that lack the field; the documents built by `shortenUrl` always carry `customAlias`, a
string or an explicit `null`, so all of them are in the index and a second `null` is a
duplicate. -/
def uniqueIndexesAdmit (store : Store) (doc : UrlDoc) : Bool :=
  store.all (fun d =>
    d.shortUrl != doc.shortUrl && d.urlCode != doc.urlCode && d.customAlias != doc.customAlias)

/-- Whether the store's verdict on the request `r`, handled on `store`, respects the unique
indexes of the schema: an insert that was accepted is one the indexes admit. -/
def admitted (store : Store) : Request → Bool
  | .shorten fuel req env =>
    match shortenUrl fuel store req env with
    | some o =>
      (match o.response with
       | .created doc => uniqueIndexesAdmit store doc
       | _ => true)
    | none => true
  | _ => true

/-- Whether every request of a run, handled one after the other from `store`, is `admitted`. -/
def runAdmitted : Store → List Request → Bool
  | _, [] => true
  | store, r :: rest => admitted store r && runAdmitted (step store r) rest

/-- The fields of a record other than `clicks`, `clickHistory`, `updatedAt` and `version`. -/
def frameFields (d : UrlDoc) :
    Nat × String × Option String × String × String × Nat × Option Nat × Bool × Nat :=
  (d.id, d.urlCode, d.customAlias, d.shortUrl, d.originalUrl, d.userId, d.expiresAt,
    d.isActive, d.createdAt)

/-- The outputs of the random source that hands out the indices `idx 0, ..., idx (n - 1)` in
this order (and 0 afterwards). -/
def indexStream (n : Nat) (idx : Fin n → Fin 62) : Nat → Nat :=
  fun i => if h : i < n then (idx ⟨i, h⟩).val else 0

/-- The code `generateShortCode(n)` returns when the random source hands out the indices
`idx`. -/
def codeOfIndices (n : Nat) (idx : Fin n → Fin 62) : String :=
  generateShortCode (some n) (indexStream n idx) 0

/-- The text after the last `/` of a string (the whole string when it has none). -/
def afterLastSlash (s : String) : String :=
  ⟨(s.data.reverse.takeWhile (fun c => c != '/')).reverse⟩

/-! ## Two `redirectUrl` requests in flight

`redirectUrl` gives up control at its two `await`s: the lookup `Url.findOne` and the write in
`addClick`. With two requests A and B in flight, the store sees the lookup and the write of
each, in some order. -/

/-- The store calls of two `redirectUrl` requests A and B. -/
inductive Event where
  | readA
  | writeA
  | readB
  | writeB
  deriving DecidableEq

/-- The collection, and the document each request has loaded and not yet written back. -/
structure InFlight where
  store : Store
  loadedA : Option UrlDoc
  loadedB : Option UrlDoc
  deriving DecidableEq

/-- The part of `redirectUrl` up to `addClick`: the lookup, then the `isExpired` check. `none`
when the request ends here, with 404 or 410. -/
def lookupLive (store : Store) (req : RedirectReq) (env : RedirectEnv) : Option UrlDoc :=
  match findOne store (.activeCodeOrAlias req.code) with
  | none => none
  | some url => if isExpired url env.nowExpiry then none else some url

/-- One store call of request A or B. `none` when the request does not succeed (or has no
document loaded). -/
def stepEvent (reqA : RedirectReq) (envA : RedirectEnv) (reqB : RedirectReq)
    (envB : RedirectEnv) (s : InFlight) : Event → Option InFlight
  | .readA => (lookupLive s.store reqA envA).map (fun url => { s with loadedA := some url })
  | .readB => (lookupLive s.store reqB envB).map (fun url => { s with loadedB := some url })
  | .writeA =>
    match s.loadedA with
    | none => none
    | some url =>
      (addClick s.store url (clickDataOf reqA) envA.nowClick envA.nowSave envA.saveOk).map
        (fun r => { s with store := r.2, loadedA := none })
  | .writeB =>
    match s.loadedB with
    | none => none
    | some url =>
      (addClick s.store url (clickDataOf reqB) envB.nowClick envB.nowSave envB.saveOk).map
        (fun r => { s with store := r.2, loadedB := none })

/-- The store calls of a schedule, applied in order; the collection at the end when both
requests succeed. -/
def runEvents (reqA : RedirectReq) (envA : RedirectEnv) (reqB : RedirectReq)
    (envB : RedirectEnv) : InFlight → List Event → Option Store
  | s, [] => some s.store
  | s, e :: rest =>
    match stepEvent reqA envA reqB envB s e with
    | none => none
    | some s' => runEvents reqA envA reqB envB s' rest

/-! ## Names used in the statements about the generation loop -/

/-- The code produced by the `k`-th call (from 0) of `generateShortCode()` in one request: each
call makes six draws. -/
def candidate (rnd : Nat → Nat) (k : Nat) : String :=
  generateShortCode none rnd (6 * k)

/-- The lookups `Url.findOne({ urlCode })` for candidates `0, ..., k`, in order. -/
def lookups (rnd : Nat → Nat) (k : Nat) : List StoreOp :=
  (List.range (k + 1)).map (fun j => StoreOp.findOne (.code (candidate rnd j)))

/-! ## Sample data -/

/-- A stored link with two recorded clicks, expiring at instant 5000. -/
def sampleUrl : UrlDoc :=
  { id := 1
    originalUrl := "https://example.com/page"
    shortUrl := "http://sho.rt/abc123"
    urlCode := "abc123"
    userId := 7
    clicks := 2
    clickHistory :=
      [{ timestamp := 200, ip := "10.0.0.9", userAgent := "curl", referrer := "direct" },
       { timestamp := 300, ip := "unknown", userAgent := "unknown", referrer := "direct" }]
    expiresAt := some 5000
    isActive := true
    customAlias := none
    createdAt := 100
    updatedAt := 300
    version := 2 }

/-- A visit of `/abc123` with an address, no user agent and an empty referrer. -/
def sampleVisit : RedirectReq :=
  { code := "abc123"
    ip := some "10.0.0.1"
    remoteAddress := none
    userAgent := none
    referrer := some "" }

/-- A visit handled around instant 1000 whose write the store accepts. -/
def sampleClock : RedirectEnv :=
  { nowExpiry := 1000, nowClick := 1001, nowSave := 1002, saveOk := true }

/-- A visit handled around instant 6000, after `sampleUrl` has expired. -/
def lateClock : RedirectEnv :=
  { nowExpiry := 6000, nowClick := 6001, nowSave := 6002, saveOk := true }

/-- A link created with the alias `promo`. -/
def promoUrl : UrlDoc :=
  { id := 2
    originalUrl := "https://example.com/sale"
    shortUrl := "http://sho.rt/promo"
    urlCode := "promo"
    userId := 7
    clicks := 0
    clickHistory := []
    expiresAt := none
    isActive := true
    customAlias := some "promo"
    createdAt := 150
    updatedAt := 150
    version := 0 }

/-- A shorten request for `https://example.com/page` without alias or expiry. -/
def plainShorten : ShortenReq :=
  { validationErrors := []
    originalUrl := "https://example.com/page"
    customAlias := none
    expiresAt := none
    userId := 7 }

/-- Surroundings in which the random source first spells `abc123` and then only `h`. -/
def sampleEnv : ShortenEnv :=
  { baseUrl := "http://sho.rt"
    rnd := fun i => [0, 1, 2, 53, 54, 55].getD i 7
    newId := 3
    now := 400
    storeAccepts := true }

/-- A shorten request with the taken alias `promo` that did not pass validation. -/
def rejectedPromo : ShortenReq :=
  { validationErrors := ["Please enter a valid URL starting with http:// or https://"]
    originalUrl := "example"
    customAlias := some "promo"
    expiresAt := none
    userId := 7 }

/-- The document `shortenUrl` creates for `plainShorten` in `sampleEnv` when `abc123` is free. -/
def createdUrl : UrlDoc :=
  { id := 3
    originalUrl := "https://example.com/page"
    shortUrl := "http://sho.rt/abc123"
    urlCode := "abc123"
    userId := 7
    clicks := 0
    clickHistory := []
    expiresAt := none
    isActive := true
    customAlias := none
    createdAt := 400
    updatedAt := 400
    version := 0 }

/-- A stored record whose `customAlias` is `abc123` while its `urlCode` is something else. -/
def squatter : UrlDoc :=
  { id := 9
    originalUrl := "https://other.example/"
    shortUrl := "http://sho.rt/zzz999"
    urlCode := "zzz999"
    userId := 8
    clicks := 0
    clickHistory := []
    expiresAt := none
    isActive := true
    customAlias := some "abc123"
    createdAt := 50
    updatedAt := 50
    version := 0 }

/-- A visit handled around instant 1000 whose write the store rejects. -/
def downClock : RedirectEnv :=
  { nowExpiry := 1000, nowClick := 1001, nowSave := 1002, saveOk := false }

/-- A session on the empty collection: one link is created, visited twice, a deletion of an
unknown id is attempted, and a second link is created with the alias `promo`. -/
def sampleSession : List Request :=
  [.shorten 1 plainShorten sampleEnv,
   .redirect sampleVisit sampleClock,
   .redirect sampleVisit sampleClock,
   .delete (some 99) 7,
   .shorten 0 { plainShorten with customAlias := some "promo" } { sampleEnv with newId := 4 }]

/-- The first link of `sampleSession` after its two visits. -/
def visitedUrl : UrlDoc :=
  { createdUrl with
    clicks := 2
    clickHistory :=
      [{ timestamp := 1001, ip := "10.0.0.1", userAgent := "unknown", referrer := "direct" },
       { timestamp := 1001, ip := "10.0.0.1", userAgent := "unknown", referrer := "direct" }]
    updatedAt := 1002
    version := 2 }

/-- Three shorten requests without alias, whose random sources spell `aaaaaa`, `bbbbbb` and
`cccccc`, all accepted by the store. -/
def plainSession : List Request :=
  [.shorten 1 plainShorten { sampleEnv with rnd := fun _ => 0, newId := 1 },
   .shorten 1 plainShorten { sampleEnv with rnd := fun _ => 1, newId := 2 },
   .shorten 1 plainShorten { sampleEnv with rnd := fun _ => 2, newId := 3 }]

/-- The record that the first request of `plainSession` creates. -/
def firstPlain : UrlDoc :=
  newUrlDoc plainShorten { sampleEnv with rnd := fun _ => 0, newId := 1 } "aaaaaa"

/-- The document that the second request of `plainSession` builds and sends to the store. -/
def secondPlain : UrlDoc :=
  newUrlDoc plainShorten { sampleEnv with rnd := fun _ => 1, newId := 2 } "bbbbbb"

/-- The surroundings of the second request of `plainSession`, with the verdict that the unique
indexes give on its insert once `firstPlain` is stored. -/
def indexedEnv : ShortenEnv :=
  { sampleEnv with
    rnd := fun _ => 1
    newId := 2
    storeAccepts := uniqueIndexesAdmit [firstPlain] secondPlain }

/-- A shorten request for `https://example.com/page` with the alias `promo`. -/
def promoShorten : ShortenReq :=
  { plainShorten with customAlias := some "promo" }

/-- The surroundings `sampleEnv` with a store that refuses the insert. -/
def refusingEnv : ShortenEnv :=
  { sampleEnv with storeAccepts := false }

/-- A stored link whose `urlCode` is `hhhhhh`. -/
def stuckUrl : UrlDoc :=
  { sampleUrl with id := 5, urlCode := "hhhhhh", shortUrl := "http://sho.rt/hhhhhh" }

/-- Surroundings in which the random source returns 7 (the letter `h`) forever. -/
def stuckEnv : ShortenEnv :=
  { sampleEnv with rnd := fun _ => 7 }

/-- Surroundings in which the random source returns 7 for the first eleven codes and 0 (the
letter `a`) from then on. -/
def slowEnv : ShortenEnv :=
  { sampleEnv with rnd := fun i => if i < 66 then 7 else 0 }

/-- A visit of `sampleUrl` handled exactly at its expiry instant 5000. -/
def edgeClock : RedirectEnv :=
  { nowExpiry := 5000, nowClick := 5000, nowSave := 5001, saveOk := true }

/-- A session on the empty collection that creates one link, expiring at instant 5000. -/
def expiringSession : List Request :=
  [.shorten 1 { plainShorten with expiresAt := some 5000 } sampleEnv]

/-- The link that `expiringSession` creates. -/
def expiringUrl : UrlDoc :=
  { createdUrl with expiresAt := some 5000 }

/-- The link `sampleUrl` with its counter at 2^53. -/
def bigUrl : UrlDoc :=
  { sampleUrl with clicks := 9007199254740992 }

end UrlShortener

namespace UrlShortener

/-! ## Alias validation -/

theorem aliasClass_of_mem : ∀ c ∈ aliasAlphabet, aliasClass c = true := by decide

theorem mem_of_aliasClass (c : Char) (h : aliasClass c = true) : c ∈ aliasAlphabet := by
  have hc : c = Char.ofNat c.toNat := (Char.ofNat_toNat c).symm
  unfold aliasClass at h
  simp only [Bool.or_eq_true, Bool.and_eq_true, decide_eq_true_eq, beq_iff_eq] at h
  generalize c.toNat = n at hc h
  subst hc
  rcases h with (((⟨h1, h2⟩ | ⟨h1, h2⟩) | ⟨h1, h2⟩) | h) | h
  · interval_cases n <;> decide
  · interval_cases n <;> decide
  · interval_cases n <;> decide
  · subst h; decide
  · subst h; decide

theorem aliasClass_iff_mem (c : Char) : aliasClass c = true ↔ c ∈ aliasAlphabet :=
  ⟨mem_of_aliasClass c, aliasClass_of_mem c⟩

theorem utf16Units_of_aliasClass (c : Char) (h : aliasClass c = true) : utf16Units c = 1 := by
  unfold aliasClass at h
  simp only [Bool.or_eq_true, Bool.and_eq_true, decide_eq_true_eq, beq_iff_eq] at h
  unfold utf16Units
  rw [if_pos]
  omega

theorem sum_utf16Units_of_all (l : List Char) (h : ∀ c ∈ l, aliasClass c = true) :
    (l.map utf16Units).sum = l.length := by
  induction l with
  | nil => rfl
  | cons c t ih =>
    have hc := utf16Units_of_aliasClass c (h c (List.mem_cons_self c t))
    have ht := ih (fun d hd => h d (List.mem_cons_of_mem c hd))
    simp only [List.map_cons, List.sum_cons, List.length_cons, hc, ht]
    omega

theorem jsLength_of_all (a : String) (h : ∀ c ∈ a.data, aliasClass c = true) :
    jsLength a = a.length :=
  sum_utf16Units_of_all a.data h

theorem isValidCustomAlias_eq_true_iff (a : String) :
    isValidCustomAlias a = true ↔
      3 ≤ a.length ∧ a.length ≤ 20 ∧ ∀ c ∈ a.data, c ∈ aliasAlphabet := by
  unfold isValidCustomAlias patternTest
  simp only [Bool.and_eq_true, Bool.not_eq_true', List.all_eq_true, decide_eq_true_eq, ge_iff_le]
  constructor
  · rintro ⟨⟨⟨_, hall⟩, h3⟩, h20⟩
    rw [jsLength_of_all a hall] at h3 h20
    exact ⟨h3, h20, fun c hc => mem_of_aliasClass c (hall c hc)⟩
  · rintro ⟨h3, h20, hall⟩
    have hall2 : ∀ c ∈ a.data, aliasClass c = true := fun c hc => aliasClass_of_mem c (hall c hc)
    rw [jsLength_of_all a hall2]
    refine ⟨⟨⟨?_, hall2⟩, h3⟩, h20⟩
    cases hd : a.data with
    | nil =>
      have : a.length = 0 := by simp [String.length, hd]
      omega
    | cons c t => rfl

/-- C1: `isValidCustomAlias(alias)` is true exactly when the alias has between 3 and 20 characters
and each of them is one of the 64 characters of `[a-zA-Z0-9_-]`; the empty string, a string of 2
characters, a string of 21 characters, and strings holding a space, a slash, a dot, a newline or a
non-ASCII letter are rejected. -/
theorem C1_isValidCustomAlias_spec :
    (∀ a : String, isValidCustomAlias a = true ↔
      (3 ≤ a.length ∧ a.length ≤ 20 ∧ ∀ c ∈ a.data, c ∈ aliasAlphabet)) ∧
    isValidCustomAlias "" = false ∧
    isValidCustomAlias "ab" = false ∧
    isValidCustomAlias "abcdefghijklmnopqrstu" = false ∧
    isValidCustomAlias "abcdefghijklmnopqrst" = true ∧
    isValidCustomAlias "my link" = false ∧
    isValidCustomAlias "my/link" = false ∧
    isValidCustomAlias "my.link" = false ∧
    isValidCustomAlias "mylink\n" = false ∧
    isValidCustomAlias "caf\u00e9" = false :=
  ⟨isValidCustomAlias_eq_true_iff, by decide, by decide, by decide, by decide, by decide,
    by decide, by decide, by decide, by decide⟩

/-! ## Code generation -/

theorem charAt_chars_of_lt (k : Nat) (hk : k < 62) :
    ∃ c, c ∈ chars.data ∧ charAt chars k = String.singleton c := by
  have hlen : k < chars.data.length := by
    have : chars.data.length = 62 := by decide
    omega
  refine ⟨chars.data[k], List.getElem_mem hlen, ?_⟩
  unfold charAt
  rw [List.get?_eq_getElem? , List.getElem?_eq_getElem hlen]

theorem generateShortCodeLoop_spec (rnd : Nat → Nat) (h : ∀ i, rnd i < 62) (n : Nat) :
    ∀ (pos : Nat) (result : String),
      (generateShortCodeLoop rnd n pos result).length = result.length + n ∧
      ∀ c ∈ (generateShortCodeLoop rnd n pos result).data, c ∈ result.data ∨ c ∈ chars.data := by
  induction n with
  | zero =>
    intro pos result
    exact ⟨rfl, fun c hc => Or.inl hc⟩
  | succ n ih =>
    intro pos result
    obtain ⟨d, hd, hEq⟩ := charAt_chars_of_lt (rnd pos) (h pos)
    obtain ⟨hlen, hmem⟩ := ih (pos + 1) (result ++ charAt chars (rnd pos))
    unfold generateShortCodeLoop
    refine ⟨?_, ?_⟩
    · rw [hlen, hEq, String.length_append, String.length_singleton]
      omega
    · intro c hc
      rcases hmem c hc with h1 | h1
      · rw [hEq, String.data_append, List.mem_append] at h1
        rcases h1 with h2 | h2
        · exact Or.inl h2
        · have : c = d := by simpa [String.singleton] using h2
          exact Or.inr (this ▸ hd)
      · exact Or.inr h1

/-- C2: when every value returned by the random source lies in [0, 62), `generateShortCode(length)`
returns a string of exactly `length` characters, each taken from the 62-character alphabet, and
with the argument omitted the result has exactly 6 characters of that alphabet. -/
theorem C2_generateShortCode_length_alphabet (length : Nat) (rnd : Nat → Nat) (pos : Nat)
    (h : ∀ i, rnd i < 62) :
    (generateShortCode (some length) rnd pos).length = length ∧
    (∀ c ∈ (generateShortCode (some length) rnd pos).data, c ∈ chars.data) ∧
    (generateShortCode none rnd pos).length = 6 ∧
    (∀ c ∈ (generateShortCode none rnd pos).data, c ∈ chars.data) ∧
    chars.length = 62 := by
  obtain ⟨h1, h2⟩ := generateShortCodeLoop_spec rnd h length pos ""
  obtain ⟨h3, h4⟩ := generateShortCodeLoop_spec rnd h 6 pos ""
  refine ⟨?_, ?_, ?_, ?_, by decide⟩
  · simpa [generateShortCode] using h1
  · intro c hc
    rcases h2 c hc with h5 | h5
    · simp at h5
    · exact h5
  · simpa [generateShortCode] using h3
  · intro c hc
    rcases h4 c hc with h5 | h5
    · simp at h5
    · exact h5

theorem C2_generateShortCode_witness :
    (∀ i, (fun i => (7 * i + 3) % 62) i < 62) ∧
    (generateShortCode (some 4) (fun i => (7 * i + 3) % 62) 0).length = 4 ∧
    generateShortCode none (fun i => (7 * i + 3) % 62) 0 = "dkryFM" :=
  ⟨fun i => Nat.mod_lt _ (by decide),
   (C2_generateShortCode_length_alphabet 4 (fun i => (7 * i + 3) % 62) 0
      (fun i => Nat.mod_lt _ (by decide))).1,
   by decide⟩

/-! ## Redirect resolution -/

theorem findOne_some (store : Store) (f : Filter) (url : UrlDoc)
    (h : findOne store f = some url) : url ∈ store ∧ f.matches url = true :=
  ⟨List.mem_of_find?_eq_some h, List.find?_some h⟩

theorem findOne_none (store : Store) (f : Filter) (h : findOne store f = none) :
    ∀ d ∈ store, f.matches d = false := by
  intro d hd
  have := List.find?_eq_none.mp h d hd
  simpa using this

theorem jsIncrement_of_lt (n : Nat) (h : n < 9007199254740992) : jsIncrement n = n + 1 := by
  unfold jsIncrement
  rw [if_pos h]

theorem le_jsIncrement (n : Nat) : n ≤ jsIncrement n := by
  unfold jsIncrement
  split_ifs <;> omega

theorem length_updateOne (id : Nat) (f : UrlDoc → UrlDoc) : ∀ store : Store,
    (updateOne store id f).length = store.length := by
  intro store
  induction store with
  | nil => rfl
  | cons x rest ih =>
    unfold updateOne
    by_cases hx : x.id = id
    · simp [hx]
    · simp [hx, ih]

theorem mem_updateOne (id : Nat) (f : UrlDoc → UrlDoc) : ∀ (store : Store) (d : UrlDoc),
    d ∈ updateOne store id f → (∃ d0 ∈ store, d0.id = id ∧ d = f d0) ∨ d ∈ store := by
  intro store
  induction store with
  | nil => intro d hd; cases hd
  | cons x rest ih =>
    intro d hd
    unfold updateOne at hd
    by_cases hx : x.id = id
    · rw [if_pos hx] at hd
      rcases List.mem_cons.mp hd with h | h
      · exact Or.inl ⟨x, List.mem_cons_self x rest, hx, h⟩
      · exact Or.inr (List.mem_cons_of_mem x h)
    · rw [if_neg hx] at hd
      rcases List.mem_cons.mp hd with h | h
      · exact Or.inr (h ▸ List.mem_cons_self x rest)
      · rcases ih d h with ⟨d0, hd0, h1, h2⟩ | h1
        · exact Or.inl ⟨d0, List.mem_cons_of_mem x hd0, h1, h2⟩
        · exact Or.inr (List.mem_cons_of_mem x h1)

theorem updateOne_split (url : UrlDoc) (f : UrlDoc → UrlDoc) :
    ∀ store : Store, (store.map (fun d => d.id)).Nodup → url ∈ store →
      ∃ l1 l2, store = l1 ++ url :: l2 ∧ updateOne store url.id f = l1 ++ f url :: l2 := by
  intro store
  induction store with
  | nil => intro _ h; cases h
  | cons x rest ih =>
    intro hnd hmem
    rw [List.map_cons, List.nodup_cons] at hnd
    obtain ⟨hx, hrest⟩ := hnd
    by_cases hxu : x = url
    · subst hxu
      refine ⟨[], rest, rfl, ?_⟩
      unfold updateOne
      rw [if_pos rfl]
      rfl
    · have hmem' : url ∈ rest := by
        rcases List.mem_cons.mp hmem with h | h
        · exact absurd h.symm hxu
        · exact h
      have hne : x.id ≠ url.id := by
        intro h
        apply hx
        rw [h]
        exact List.mem_map.mpr ⟨url, hmem', rfl⟩
      obtain ⟨l1, l2, h1, h2⟩ := ih hrest hmem'
      refine ⟨x :: l1, l2, by rw [h1]; rfl, ?_⟩
      unfold updateOne
      rw [if_neg hne, h2]
      rfl

theorem updateOne_append_fresh (store : Store) (doc : UrlDoc) (f : UrlDoc → UrlDoc)
    (hfresh : ∀ d ∈ store, d.id ≠ doc.id) :
    updateOne (store ++ [doc]) doc.id f = store ++ [f doc] := by
  induction store with
  | nil =>
    show updateOne [doc] doc.id f = [f doc]
    unfold updateOne
    rw [if_pos rfl]
  | cons x rest ih =>
    have hx : x.id ≠ doc.id := hfresh x (List.mem_cons_self x rest)
    show updateOne (x :: (rest ++ [doc])) doc.id f = x :: (rest ++ [f doc])
    unfold updateOne
    rw [if_neg hx, ih (fun d hd => hfresh d (List.mem_cons_of_mem x hd))]

theorem find_id_split (l1 l2 : Store) (doc : UrlDoc)
    (hids : ((l1 ++ doc :: l2).map (fun d => d.id)).Nodup) :
    (l1 ++ doc :: l2).find? (fun d => d.id == doc.id) = some doc := by
  rw [List.find?_append]
  have h1 : l1.find? (fun d => d.id == doc.id) = none := by
    rw [List.find?_eq_none]
    intro d hd hm
    have hdd : d.id = doc.id := by simpa using hm
    have hmem1 : d ∈ l1 ++ doc :: l2 := List.mem_append_left _ hd
    have hmem2 : doc ∈ l1 ++ doc :: l2 := List.mem_append_right _ (List.mem_cons_self _ _)
    have heq : d = doc := List.inj_on_of_nodup_map hids hmem1 hmem2 hdd
    rw [List.map_append, List.map_cons] at hids
    have hdis := (List.nodup_append.mp hids).2.2
    exact hdis (List.mem_map.mpr ⟨d, hd, rfl⟩) (by rw [hdd]; exact List.mem_cons_self _ _)
  rw [h1]
  simp

theorem applyUpdate_self (url : UrlDoc) (clickData : ClickData) (t1 t2 : Nat) :
    applyUpdate (applyClick url clickData t1) (clickEvent clickData t1) t2 url
      = savedDoc url clickData t1 t2 := rfl

theorem addClick_isSome (store : Store) (url : UrlDoc) (clickData : ClickData) (t1 t2 : Nat)
    (ok : Bool) (r : UrlDoc × Store) (h : addClick store url clickData t1 t2 ok = some r) :
    url.clickHistory.length < maxArrayLength ∧ ok = true := by
  unfold addClick save at h
  by_cases hroom : url.clickHistory.length < maxArrayLength
  · refine ⟨hroom, ?_⟩
    cases ok with
    | true => rfl
    | false => simp [hroom] at h
  · simp [hroom] at h

theorem redirectUrl_of_found (store : Store) (req : RedirectReq) (env : RedirectEnv)
    (url : UrlDoc)
    (hfind : findOne store (.activeCodeOrAlias req.code) = some url)
    (hexp : isExpired url env.nowExpiry = false)
    (hroom : url.clickHistory.length < maxArrayLength)
    (hsave : env.saveOk = true) :
    redirectUrl store req env =
      ⟨.redirect url.originalUrl,
        updateOne store url.id
          (applyUpdate (applyClick url (clickDataOf req) env.nowClick)
            (clickEvent (clickDataOf req) env.nowClick) env.nowSave),
        [.findOne (.activeCodeOrAlias req.code),
          .update (savedDoc url (clickDataOf req) env.nowClick env.nowSave)]⟩ := by
  unfold redirectUrl
  simp only [hfind, hexp, addClick, save, hsave, hroom]
  simp [applyClick, savedDoc]

theorem redirectUrl_of_rejected (store : Store) (req : RedirectReq) (env : RedirectEnv)
    (url : UrlDoc)
    (hfind : findOne store (.activeCodeOrAlias req.code) = some url)
    (hexp : isExpired url env.nowExpiry = false)
    (hrej : url.clickHistory.length < maxArrayLength → env.saveOk = false) :
    (redirectUrl store req env).response = .json 500 "Server error during redirect" ∧
    (redirectUrl store req env).store = store := by
  have hnone : addClick store url (clickDataOf req) env.nowClick env.nowSave env.saveOk
      = none := by
    unfold addClick save
    by_cases hroom : url.clickHistory.length < maxArrayLength
    · simp [hroom, hrej hroom]
    · simp [hroom]
  unfold redirectUrl
  simp only [hfind, hexp, hnone]
  exact ⟨rfl, rfl⟩

theorem redirectUrl_frame (store : Store) (req : RedirectReq) (env : RedirectEnv)
    (hids : (store.map (fun d => d.id)).Nodup) :
    (redirectUrl store req env).store = store ∨
    ∃ l1 url l2, store = l1 ++ url :: l2 ∧
      findOne store (.activeCodeOrAlias req.code) = some url ∧
      isExpired url env.nowExpiry = false ∧ env.saveOk = true ∧
      url.clickHistory.length < maxArrayLength ∧
      (redirectUrl store req env).store
        = l1 ++ savedDoc url (clickDataOf req) env.nowClick env.nowSave :: l2 := by
  cases hfind : findOne store (.activeCodeOrAlias req.code) with
  | none =>
    left
    unfold redirectUrl
    simp only [hfind]
  | some url =>
    cases hexp : isExpired url env.nowExpiry with
    | true =>
      left
      unfold redirectUrl
      simp only [hfind, hexp]
      rfl
    | false =>
      by_cases hok : url.clickHistory.length < maxArrayLength ∧ env.saveOk = true
      · right
        obtain ⟨hroom, hsave⟩ := hok
        obtain ⟨l1, l2, h1, h2⟩ := updateOne_split url
          (applyUpdate (applyClick url (clickDataOf req) env.nowClick)
            (clickEvent (clickDataOf req) env.nowClick) env.nowSave)
          store hids (findOne_some store _ url hfind).1
        refine ⟨l1, url, l2, h1, rfl, hexp, hsave, hroom, ?_⟩
        rw [redirectUrl_of_found store req env url hfind hexp hroom hsave]
        show updateOne store url.id _ = _
        rw [h2, applyUpdate_self]
      · left
        refine (redirectUrl_of_rejected store req env url hfind hexp ?_).2
        intro hroom
        cases hs : env.saveOk with
        | false => rfl
        | true => exact absurd ⟨hroom, hs⟩ hok

theorem redirectUrl_keeps {β : Type} (f : UrlDoc → β)
    (hf : ∀ (url : UrlDoc) (clickData : ClickData) (t1 t2 : Nat),
      f (savedDoc url clickData t1 t2) = f url)
    (store : Store) (req : RedirectReq) (env : RedirectEnv)
    (hids : (store.map (fun d => d.id)).Nodup) :
    (redirectUrl store req env).store.map f = store.map f := by
  rcases redirectUrl_frame store req env hids with h | ⟨l1, url, l2, h1, _, _, _, _, h2⟩
  · rw [h]
  · rw [h2, List.map_append, List.map_cons, hf]
    conv_rhs => rw [h1, List.map_append, List.map_cons]

theorem redirectUrl_mem (store : Store) (req : RedirectReq) (env : RedirectEnv)
    (hids : (store.map (fun d => d.id)).Nodup) (d : UrlDoc)
    (hd : d ∈ (redirectUrl store req env).store) :
    d ∈ store ∨ ∃ url ∈ store, url.clickHistory.length < maxArrayLength ∧
      d = savedDoc url (clickDataOf req) env.nowClick env.nowSave := by
  rcases redirectUrl_frame store req env hids with h | ⟨l1, url, l2, h1, _, _, _, hroom, h2⟩
  · rw [h] at hd
    exact Or.inl hd
  · rw [h2] at hd
    rcases List.mem_append.mp hd with h | h
    · left
      rw [h1]
      exact List.mem_append_left _ h
    · rcases List.mem_cons.mp h with h | h
      · right
        refine ⟨url, ?_, hroom, h⟩
        rw [h1]
        exact List.mem_append_right _ (List.mem_cons_self _ _)
      · left
        rw [h1]
        exact List.mem_append_right _ (List.mem_cons_of_mem _ h)

/-- C3, as amended: in a collection with distinct `_id`s, when the lookup of `redirectUrl`
returns a record `url` that is not expired and `addClick` resolves (its save succeeds), the
response is a redirect to `url.originalUrl` and the stored record is replaced, in place, by `url`
with exactly one entry appended to `clickHistory`: its timestamp is the clock value read by
`addClick`, and its `ip`, `userAgent` and `referrer` are the request's values, with `unknown`,
`unknown` and `direct` standing in for a value that is missing (undefined or empty). The stored
`clicks` is the Number `url.clicks + 1`, which is exactly one more when `url.clicks` is below
2^53. -/
theorem C3_redirect_records_click (store : Store) (req : RedirectReq) (env : RedirectEnv)
    (url : UrlDoc)
    (hids : (store.map (fun d => d.id)).Nodup)
    (hfind : findOne store (.activeCodeOrAlias req.code) = some url)
    (hexp : isExpired url env.nowExpiry = false)
    (hsaved : ∃ r, addClick store url (clickDataOf req) env.nowClick env.nowSave env.saveOk
      = some r) :
    let entry : ClickEvent :=
      { timestamp := env.nowClick
        ip := match req.ip with
          | some s => if s = "" then
              (match req.remoteAddress with
               | some r => if r = "" then "unknown" else r
               | none => "unknown")
            else s
          | none =>
              (match req.remoteAddress with
               | some r => if r = "" then "unknown" else r
               | none => "unknown")
        userAgent := match req.userAgent with
          | some s => if s = "" then "unknown" else s
          | none => "unknown"
        referrer := match req.referrer with
          | some s => if s = "" then "direct" else s
          | none => "direct" }
    let url' : UrlDoc :=
      { url with
        clicks := jsIncrement url.clicks
        clickHistory := url.clickHistory ++ [entry]
        updatedAt := env.nowSave
        version := url.version + 1 }
    (redirectUrl store req env).response = .redirect url.originalUrl ∧
    (∃ l1 l2, store = l1 ++ url :: l2 ∧ (redirectUrl store req env).store = l1 ++ url' :: l2) ∧
    (redirectUrl store req env).store.find? (fun d => d.id == url.id) = some url' ∧
    (redirectUrl store req env).store.length = store.length ∧
    (url.clicks < 9007199254740992 → url'.clicks = url.clicks + 1) := by
  intro entry url'
  obtain ⟨r, hr⟩ := hsaved
  obtain ⟨hroom, hsave⟩ := addClick_isSome store url _ _ _ _ r hr
  have hmem := (findOne_some store _ url hfind).1
  have hsavedDoc : savedDoc url (clickDataOf req) env.nowClick env.nowSave = url' := by
    simp only [savedDoc, applyClick, clickEvent, clickDataOf, orDefault, jsOr, url', entry]
    cases req.ip <;> cases req.remoteAddress <;> cases req.userAgent <;> cases req.referrer <;>
      simp <;> split_ifs <;> simp_all
  obtain ⟨l1, l2, h1, h2⟩ := updateOne_split url
    (applyUpdate (applyClick url (clickDataOf req) env.nowClick)
      (clickEvent (clickDataOf req) env.nowClick) env.nowSave) store hids hmem
  rw [applyUpdate_self, hsavedDoc] at h2
  have hout : redirectUrl store req env
      = ⟨.redirect url.originalUrl, l1 ++ url' :: l2,
          [.findOne (.activeCodeOrAlias req.code),
            .update (savedDoc url (clickDataOf req) env.nowClick env.nowSave)]⟩ := by
    rw [redirectUrl_of_found store req env url hfind hexp hroom hsave, ← h2]
  rw [hout]
  refine ⟨rfl, ⟨l1, l2, h1, rfl⟩, ?_, ?_, ?_⟩
  · have hids' : ((l1 ++ url' :: l2).map (fun d => d.id)).Nodup := by
      have := hids
      rw [h1] at this
      simpa [url'] using this
    exact find_id_split l1 l2 url' hids'
  · rw [h1]
    simp
  · intro hsafe
    exact jsIncrement_of_lt url.clicks hsafe

theorem C3_redirect_records_click_witness :
    ([promoUrl, sampleUrl].map (fun d => d.id)).Nodup ∧
    findOne [promoUrl, sampleUrl] (.activeCodeOrAlias sampleVisit.code) = some sampleUrl ∧
    isExpired sampleUrl sampleClock.nowExpiry = false ∧
    (redirectUrl [promoUrl, sampleUrl] sampleVisit sampleClock).response
      = .redirect "https://example.com/page" ∧
    (redirectUrl [promoUrl, sampleUrl] sampleVisit sampleClock).store =
      [promoUrl,
       { sampleUrl with
         clicks := 3
         clickHistory := sampleUrl.clickHistory ++
           [{ timestamp := 1001, ip := "10.0.0.1", userAgent := "unknown", referrer := "direct" }]
         updatedAt := 1002
         version := 3 }] :=
  ⟨by decide, by decide, by decide,
   (C3_redirect_records_click [promoUrl, sampleUrl] sampleVisit sampleClock sampleUrl
      (by decide) (by decide) (by decide) ⟨_, rfl⟩).1,
   by decide⟩

/-- C3 as stated fails: the stored counter of `bigUrl` is 2^53, and after a visit that is
redirected and whose entry is recorded it is still 2^53, not one more. -/
theorem C3_counterexample :
    findOne [bigUrl] (.activeCodeOrAlias sampleVisit.code) = some bigUrl ∧
    isExpired bigUrl sampleClock.nowExpiry = false ∧
    (redirectUrl [bigUrl] sampleVisit sampleClock).response
      = .redirect "https://example.com/page" ∧
    bigUrl.clicks = 9007199254740992 ∧
    (redirectUrl [bigUrl] sampleVisit sampleClock).store.map (fun d => d.clicks)
      = [9007199254740992] ∧
    (redirectUrl [bigUrl] sampleVisit sampleClock).store.map (fun d => d.clickHistory.length)
      = [3] := by
  decide

theorem findOne_of_first (l1 l2 : Store) (url : UrlDoc) (f : Filter)
    (hurl : f.matches url = true) (hfirst : ∀ d ∈ l1, f.matches d = false) :
    findOne (l1 ++ url :: l2) f = some url := by
  unfold findOne
  rw [List.find?_append]
  have h1 : l1.find? f.matches = none := by
    rw [List.find?_eq_none]
    intro d hd
    simp [hfirst d hd]
  rw [h1]
  simp [List.find?, hurl]

theorem redirectUrl_expired (store : Store) (req : RedirectReq) (env : RedirectEnv)
    (url : UrlDoc)
    (hfind : findOne store (.activeCodeOrAlias req.code) = some url)
    (hexp : isExpired url env.nowExpiry = true) :
    redirectUrl store req env
      = ⟨.json 410 "URL has expired", store, [.findOne (.activeCodeOrAlias req.code)]⟩ := by
  unfold redirectUrl
  simp only [hfind, hexp]
  simp

/-- C5: when no record with `isActive = true` has `urlCode` or `customAlias` equal to the key
(so also when the only records with that key are inactive, expired or not), `redirectUrl` answers
404 `URL not found`, sends no redirect, makes no store call but the lookup, and leaves the
collection unchanged. -/
theorem C5_redirect_not_found (store : Store) (req : RedirectReq) (env : RedirectEnv)
    (hnone : ∀ d ∈ store, d.isActive = true →
      d.urlCode ≠ req.code ∧ d.customAlias ≠ some req.code) :
    (redirectUrl store req env).response = .json 404 "URL not found" ∧
    (redirectUrl store req env).response.status = 404 ∧
    (∀ location, (redirectUrl store req env).response ≠ .redirect location) ∧
    (redirectUrl store req env).store = store ∧
    (redirectUrl store req env).ops = [.findOne (.activeCodeOrAlias req.code)] := by
  have hfind : findOne store (.activeCodeOrAlias req.code) = none := by
    unfold findOne
    rw [List.find?_eq_none]
    intro d hd hmatch
    simp only [Filter.matches, Bool.and_eq_true, Bool.or_eq_true, beq_iff_eq] at hmatch
    obtain ⟨hkey, hact⟩ := hmatch
    obtain ⟨h1, h2⟩ := hnone d hd hact
    rcases hkey with h | h
    · exact h1 h
    · exact h2 h
  have hout : redirectUrl store req env
      = ⟨.json 404 "URL not found", store, [.findOne (.activeCodeOrAlias req.code)]⟩ := by
    unfold redirectUrl
    simp only [hfind]
  rw [hout]
  refine ⟨rfl, rfl, ?_, rfl, rfl⟩
  intro location h
  cases h

theorem C5_redirect_not_found_witness :
    (∀ d ∈ [{ sampleUrl with isActive := false }], d.isActive = true →
      d.urlCode ≠ sampleVisit.code ∧ d.customAlias ≠ some sampleVisit.code) ∧
    (redirectUrl [{ sampleUrl with isActive := false }] sampleVisit lateClock).response
      = .json 404 "URL not found" :=
  ⟨by decide,
   (C5_redirect_not_found [{ sampleUrl with isActive := false }] sampleVisit lateClock
      (by decide)).1⟩

/-! ## Code assignment -/

theorem findOne_code_eq_none_iff (store : Store) (c : String) :
    findOne store (.code c) = none ↔ ∀ d ∈ store, d.urlCode ≠ c := by
  unfold findOne
  rw [List.find?_eq_none]
  simp [Filter.matches]

theorem findOne_codeOrAlias_ne_none (store : Store) (a : String)
    (h : ∃ d ∈ store, d.urlCode = a ∨ d.customAlias = some a) :
    ∃ url, findOne store (.codeOrAlias a) = some url := by
  cases hf : findOne store (.codeOrAlias a) with
  | some url => exact ⟨url, rfl⟩
  | none =>
    obtain ⟨d, hd, hda⟩ := h
    have := findOne_none store _ hf d hd
    simp only [Filter.matches, Bool.or_eq_false_iff, beq_eq_false_iff_ne, ne_eq] at this
    rcases hda with h1 | h1
    · exact absurd h1 this.1
    · exact absurd h1 this.2

theorem ne_empty_of_isValidCustomAlias (a : String) (h : isValidCustomAlias a = true) :
    a ≠ "" := by
  intro ha
  subst ha
  revert h
  decide

theorem uniqueCodeLoop_sound (store : Store) (rnd : Nat → Nat) :
    ∀ (fuel pos : Nat) (r : String × List StoreOp),
      uniqueCodeLoop store rnd fuel pos = some r →
      ∃ k, k < fuel ∧
        r.1 = generateShortCode none rnd (pos + 6 * k) ∧
        findOne store (.code (generateShortCode none rnd (pos + 6 * k))) = none ∧
        (∀ j, j < k →
          findOne store (.code (generateShortCode none rnd (pos + 6 * j))) ≠ none) ∧
        r.2 = (List.range (k + 1)).map
          (fun j => StoreOp.findOne (.code (generateShortCode none rnd (pos + 6 * j)))) := by
  intro fuel
  induction fuel with
  | zero =>
    intro pos r h
    simp [uniqueCodeLoop] at h
  | succ fuel ih =>
    intro pos r h
    unfold uniqueCodeLoop at h
    cases hf : findOne store (.code (generateShortCode none rnd pos)) with
    | none =>
      simp only [hf] at h
      cases h
      have hr1 : List.range 1 = [0] := rfl
      exact ⟨0, Nat.succ_pos _, rfl, by simpa using hf, fun j hj => absurd hj (Nat.not_lt_zero j),
        by simp [hr1]⟩
    | some url =>
      simp only [hf, Option.map_eq_some'] at h
      obtain ⟨r', hr', hr⟩ := h
      obtain ⟨k, hk, h1, h2, h3, h4⟩ := ih (pos + 6) r' hr'
      have hshift : ∀ j, pos + 6 + 6 * j = pos + 6 * (j + 1) := fun j => by omega
      refine ⟨k + 1, Nat.succ_lt_succ hk, ?_, ?_, ?_, ?_⟩
      · rw [← hr, ← hshift]; exact h1
      · rw [← hshift]; exact h2
      · intro j hj
        cases j with
        | zero => simp [hf]
        | succ j => rw [← hshift]; exact h3 j (Nat.lt_of_succ_lt_succ hj)
      · rw [← hr, List.range_succ_eq_map, List.map_cons, List.map_map, h4]
        simp only [Nat.mul_zero, Nat.add_zero, List.cons.injEq, true_and]
        apply List.map_congr_left
        intro j _
        simp [hshift]

theorem uniqueCodeLoop_complete (store : Store) (rnd : Nat → Nat) :
    ∀ (k pos : Nat),
      findOne store (.code (generateShortCode none rnd (pos + 6 * k))) = none →
      (∀ j, j < k →
        findOne store (.code (generateShortCode none rnd (pos + 6 * j))) ≠ none) →
      ∀ fuel, k < fuel →
        uniqueCodeLoop store rnd fuel pos =
          some (generateShortCode none rnd (pos + 6 * k),
            (List.range (k + 1)).map
              (fun j => StoreOp.findOne (.code (generateShortCode none rnd (pos + 6 * j))))) := by
  intro k
  induction k with
  | zero =>
    intro pos hfree _ fuel hfuel
    obtain ⟨f, rfl⟩ : ∃ f, fuel = f + 1 := ⟨fuel - 1, by omega⟩
    unfold uniqueCodeLoop
    simp only [Nat.mul_zero, Nat.add_zero] at hfree
    have hr1 : List.range 1 = [0] := rfl
    simp [hfree, hr1]
  | succ k ih =>
    intro pos hfree htaken fuel hfuel
    obtain ⟨f, rfl⟩ : ∃ f, fuel = f + 1 := ⟨fuel - 1, by omega⟩
    have hshift : ∀ j, pos + 6 + 6 * j = pos + 6 * (j + 1) := fun j => by omega
    have h0 := htaken 0 (Nat.succ_pos k)
    simp only [Nat.mul_zero, Nat.add_zero] at h0
    obtain ⟨url, hurl⟩ := Option.ne_none_iff_exists'.mp h0
    have hrec := ih (pos + 6) (by rw [hshift]; exact hfree)
      (fun j hj => by rw [hshift]; exact htaken (j + 1) (Nat.succ_lt_succ hj)) f
      (Nat.lt_of_succ_lt_succ hfuel)
    unfold uniqueCodeLoop
    simp only [hurl, hrec, Option.map_some', hshift]
    rw [List.range_succ_eq_map (k + 1), List.map_cons, List.map_map]
    simp only [Nat.mul_zero, Nat.add_zero]
    rfl

/-- C6, as amended: when the alias of the request is valid and some stored record has it as
`urlCode` or as `customAlias`, `shortenUrl` answers with status 400, writes nothing and leaves
the collection unchanged; when the request has passed validation the answer is
`Custom alias already exists` after the single lookup, and otherwise it is the validation
failure, sent before any lookup. -/
theorem C6_alias_taken (fuel : Nat) (store : Store) (req : ShortenReq) (env : ShortenEnv)
    (a : String)
    (ha : req.customAlias = some a)
    (hvalid : isValidCustomAlias a = true)
    (hex : ∃ d ∈ store, d.urlCode = a ∨ d.customAlias = some a) :
    ∃ o, shortenUrl fuel store req env = some o ∧
      o.response.status = 400 ∧
      o.store = store ∧
      (∀ doc, StoreOp.insert doc ∉ o.ops) ∧
      (req.validationErrors = [] →
        o.response = .json 400 "Custom alias already exists" ∧
        o.ops = [.findOne (.codeOrAlias a)]) ∧
      (req.validationErrors ≠ [] →
        o.response = .validationFailed req.validationErrors ∧ o.ops = []) := by
  have hne := ne_empty_of_isValidCustomAlias a hvalid
  obtain ⟨url, hurl⟩ := findOne_codeOrAlias_ne_none store a hex
  by_cases hval : req.validationErrors = []
  · refine ⟨⟨.json 400 "Custom alias already exists", store, [.findOne (.codeOrAlias a)]⟩,
      ?_, rfl, rfl, ?_, fun _ => ⟨rfl, rfl⟩, fun h => absurd hval h⟩
    · unfold shortenUrl
      simp [hval, ha, jsOr, hne, hvalid, hurl]
    · intro doc hmem
      simp at hmem
  · refine ⟨⟨.validationFailed req.validationErrors, store, []⟩,
      ?_, rfl, rfl, ?_, fun h => absurd h hval, fun _ => ⟨rfl, rfl⟩⟩
    · unfold shortenUrl
      simp [hval]
    · intro doc hmem
      simp at hmem

theorem C6_alias_taken_witness :
    isValidCustomAlias "promo" = true ∧
    (∃ d ∈ [sampleUrl, promoUrl], d.urlCode = "promo" ∨ d.customAlias = some "promo") ∧
    ∃ o, shortenUrl 0 [sampleUrl, promoUrl] { plainShorten with customAlias := some "promo" }
        sampleEnv = some o ∧
      o.response.status = 400 ∧ o.store = [sampleUrl, promoUrl] :=
  ⟨by decide, ⟨promoUrl, by decide, Or.inl rfl⟩,
   (C6_alias_taken 0 [sampleUrl, promoUrl] { plainShorten with customAlias := some "promo" }
      sampleEnv "promo" rfl (by decide) ⟨promoUrl, by decide, Or.inl rfl⟩).imp
     (fun _ h => ⟨h.1, h.2.1, h.2.2.1⟩)⟩

/-- C6 as stated fails: a request whose alias `promo` is valid and taken, but which did not pass
validation, is answered with the validation failure and not with `Custom alias already exists`. -/
theorem C6_counterexample :
    isValidCustomAlias "promo" = true ∧
    rejectedPromo.customAlias = some "promo" ∧
    (∃ d ∈ [promoUrl], d.urlCode = "promo" ∨ d.customAlias = some "promo") ∧
    shortenUrl 0 [promoUrl] rejectedPromo sampleEnv
      = some ⟨.validationFailed rejectedPromo.validationErrors, [promoUrl], []⟩ ∧
    ¬ ∃ o, shortenUrl 0 [promoUrl] rejectedPromo sampleEnv = some o ∧
        o.response = .json 400 "Custom alias already exists" := by
  refine ⟨by decide, rfl, ⟨promoUrl, by decide, Or.inl rfl⟩, by decide, ?_⟩
  rintro ⟨o, ho, hr⟩
  have h : shortenUrl 0 [promoUrl] rejectedPromo sampleEnv
      = some ⟨.validationFailed rejectedPromo.validationErrors, [promoUrl], []⟩ := by decide
  rw [h] at ho
  cases ho
  cases hr

/-- C7: when the request carries a non-empty custom alias that fails `isValidCustomAlias`,
`shortenUrl` answers with status 400 without making any store call, neither a query nor a write,
and the collection is unchanged; when the request has passed validation the answer is the
invalid-alias message. -/
theorem C7_invalid_alias (fuel : Nat) (store : Store) (req : ShortenReq) (env : ShortenEnv)
    (a : String)
    (ha : req.customAlias = some a)
    (hne : a ≠ "")
    (hbad : isValidCustomAlias a = false) :
    ∃ o, shortenUrl fuel store req env = some o ∧
      o.response.status = 400 ∧
      o.store = store ∧
      o.ops = [] ∧
      (req.validationErrors = [] →
        o.response = .json 400 "Custom alias must be 3-20 characters and contain only letters, numbers, hyphens, and underscores") := by
  by_cases hval : req.validationErrors = []
  · refine ⟨⟨.json 400 "Custom alias must be 3-20 characters and contain only letters, numbers, hyphens, and underscores", store, []⟩,
      ?_, rfl, rfl, rfl, fun _ => rfl⟩
    unfold shortenUrl
    simp [hval, ha, jsOr, hne, hbad]
  · refine ⟨⟨.validationFailed req.validationErrors, store, []⟩,
      ?_, rfl, rfl, rfl, fun h => absurd h hval⟩
    unfold shortenUrl
    simp [hval]

theorem C7_invalid_alias_witness :
    "my link" ≠ "" ∧ isValidCustomAlias "my link" = false ∧
    ∃ o, shortenUrl 0 [sampleUrl] { plainShorten with customAlias := some "my link" }
        sampleEnv = some o ∧
      o.response.status = 400 ∧ o.store = [sampleUrl] ∧ o.ops = [] :=
  ⟨by decide, by decide,
   (C7_invalid_alias 0 [sampleUrl] { plainShorten with customAlias := some "my link" }
      sampleEnv "my link" rfl (by decide) (by decide)).imp
     (fun _ h => ⟨h.1, h.2.1, h.2.2.1, h.2.2.2.1⟩)⟩

theorem shortenUrl_generated_shape (store : Store) (req : ShortenReq) (env : ShortenEnv)
    (hval : req.validationErrors = [])
    (halias : req.customAlias = none ∨ req.customAlias = some "") (fuel : Nat) :
    shortenUrl fuel store req env =
      match uniqueCodeLoop store env.rnd fuel 0 with
      | none => none
      | some (urlCode, ops) => some (createUrl store req env urlCode ops) := by
  have hor : jsOr req.customAlias none = none := by
    rcases halias with h | h <;> simp [h, jsOr]
  unfold shortenUrl
  simp [hval, hor]

theorem findOne_code_ne_none_iff (store : Store) (c : String) :
    findOne store (.code c) ≠ none ↔ ∃ d ∈ store, d.urlCode = c := by
  rw [Ne, findOne_code_eq_none_iff]
  push_neg
  rfl

theorem createUrl_created (store : Store) (req : ShortenReq) (env : ShortenEnv) (code : String)
    (ops : List StoreOp) (doc : UrlDoc)
    (h : (createUrl store req env code ops).response = .created doc) :
    doc = newUrlDoc req env code ∧
    (createUrl store req env code ops).store = store ++ [doc] := by
  unfold createUrl at h ⊢
  simp only at h ⊢
  split_ifs at h ⊢
  cases h
  exact ⟨rfl, rfl⟩

theorem createUrl_created_fresh (store : Store) (req : ShortenReq) (env : ShortenEnv)
    (code : String) (ops : List StoreOp) (doc : UrlDoc)
    (h : (createUrl store req env code ops).response = .created doc) :
    ∀ d ∈ store, d.id ≠ doc.id := by
  unfold createUrl at h
  simp only at h
  split_ifs at h with h1 h2
  cases h
  intro d hd hid
  apply h2
  simp only [Bool.or_eq_true, List.any_eq_true]
  exact Or.inl ⟨d, hd, by simpa using hid⟩

theorem shortenUrl_generated_sound (store : Store) (req : ShortenReq) (env : ShortenEnv)
    (hval : req.validationErrors = [])
    (halias : req.customAlias = none ∨ req.customAlias = some "")
    (fuel : Nat) (o : Outcome) (ho : shortenUrl fuel store req env = some o) :
    ∃ k, k < fuel ∧
      (∀ d ∈ store, d.urlCode ≠ candidate env.rnd k) ∧
      (∀ j, j < k → ∃ d ∈ store, d.urlCode = candidate env.rnd j) ∧
      o = createUrl store req env (candidate env.rnd k) (lookups env.rnd k) := by
  rw [shortenUrl_generated_shape store req env hval halias] at ho
  cases hloop : uniqueCodeLoop store env.rnd fuel 0 with
  | none => simp [hloop] at ho
  | some r =>
    obtain ⟨k, hk, h1, h2, h3, h4⟩ := uniqueCodeLoop_sound store env.rnd fuel 0 r hloop
    simp only [Nat.zero_add] at h1 h2 h3 h4
    obtain ⟨code, ops⟩ := r
    simp only at h1 h4
    simp only [hloop, Option.some.injEq] at ho
    subst h1 h4
    exact ⟨k, hk, (findOne_code_eq_none_iff store _).mp h2,
      fun j hj => (findOne_code_ne_none_iff store _).mp (h3 j hj), ho.symm⟩

/-- C8: on the path without alias (validation passed, alias absent or empty), whenever
`shortenUrl` returns, the code it passes on to the new document is a generated candidate that is
the `urlCode` of no stored record, while every earlier candidate is the `urlCode` of some stored
record; and conversely, as soon as the loop may run past the first such candidate, `shortenUrl`
returns with exactly that code, having made one lookup per candidate tried. -/
theorem C8_generated_code_first_free (store : Store) (req : ShortenReq) (env : ShortenEnv)
    (hval : req.validationErrors = [])
    (halias : req.customAlias = none ∨ req.customAlias = some "") :
    (∀ fuel o, shortenUrl fuel store req env = some o →
      ∃ k, k < fuel ∧
        (∀ d ∈ store, d.urlCode ≠ candidate env.rnd k) ∧
        (∀ j, j < k → ∃ d ∈ store, d.urlCode = candidate env.rnd j) ∧
        o = createUrl store req env (candidate env.rnd k) (lookups env.rnd k) ∧
        (∀ doc, o.response = .created doc → doc.urlCode = candidate env.rnd k)) ∧
    (∀ k, (∀ d ∈ store, d.urlCode ≠ candidate env.rnd k) →
      (∀ j, j < k → ∃ d ∈ store, d.urlCode = candidate env.rnd j) →
      ∀ fuel, k < fuel →
        shortenUrl fuel store req env
          = some (createUrl store req env (candidate env.rnd k) (lookups env.rnd k))) := by
  constructor
  · intro fuel o ho
    obtain ⟨k, hk, hfree, hprev, ho'⟩ :=
      shortenUrl_generated_sound store req env hval halias fuel o ho
    refine ⟨k, hk, hfree, hprev, ho', ?_⟩
    intro doc hdoc
    rw [ho'] at hdoc
    rw [(createUrl_created store req env _ _ doc hdoc).1]
    rfl
  · intro k hfree hprev fuel hfuel
    rw [shortenUrl_generated_shape store req env hval halias]
    have := uniqueCodeLoop_complete store env.rnd k 0
      (by simpa using (findOne_code_eq_none_iff store _).mpr hfree)
      (fun j hj => by simpa using (findOne_code_ne_none_iff store _).mpr (hprev j hj)) fuel hfuel
    simp only [Nat.zero_add] at this
    rw [this]
    rfl

theorem C8_generated_code_first_free_witness :
    plainShorten.validationErrors = [] ∧
    candidate sampleEnv.rnd 0 = "abc123" ∧
    candidate sampleEnv.rnd 1 = "hhhhhh" ∧
    (∀ d ∈ [sampleUrl], d.urlCode ≠ candidate sampleEnv.rnd 1) ∧
    shortenUrl 2 [sampleUrl] plainShorten sampleEnv
      = some (createUrl [sampleUrl] plainShorten sampleEnv "hhhhhh" (lookups sampleEnv.rnd 1)) :=
  ⟨rfl, by decide, by decide, by decide,
   (C8_generated_code_first_free [sampleUrl] plainShorten sampleEnv rfl (Or.inl rfl)).2 1
     (by decide) (by decide) 2 (by decide)⟩

/-! ## Round trip -/

theorem shortenUrl_created_valid (fuel : Nat) (store : Store) (req : ShortenReq)
    (env : ShortenEnv) (o : Outcome) (doc : UrlDoc)
    (hshort : shortenUrl fuel store req env = some o)
    (hcreated : o.response = .created doc) : req.validationErrors = [] := by
  by_contra hval
  unfold shortenUrl at hshort
  simp [hval] at hshort
  rw [← hshort] at hcreated
  cases hcreated

theorem findOne_append_singleton (store : Store) (f : Filter) (doc : UrlDoc)
    (hnone : ∀ d ∈ store, f.matches d = false) (hdoc : f.matches doc = true) :
    findOne (store ++ [doc]) f = some doc := by
  unfold findOne
  rw [List.find?_append]
  have h1 : List.find? f.matches store = none := by
    rw [List.find?_eq_none]
    intro d hd
    simp [hnone d hd]
  rw [h1]
  simp [List.find?, hdoc]

/-- C9, as amended: if `shortenUrl` succeeds on a request without alias and creates a record with
code `X`, no active stored record has `X` as its `customAlias`, the record has no expiry or one
not yet passed when the visit is handled, and the store accepts the click write, then the
following `redirectUrl(X)` redirects to exactly the request's `originalUrl`, and the stored new
record then has `clicks` 1 and a `clickHistory` of length 1. -/
theorem C9_round_trip (fuel : Nat) (store : Store) (req : ShortenReq) (env : ShortenEnv)
    (o : Outcome) (doc : UrlDoc) (visit : RedirectReq) (clock : RedirectEnv)
    (hshort : shortenUrl fuel store req env = some o)
    (hcreated : o.response = .created doc)
    (halias : req.customAlias = none ∨ req.customAlias = some "")
    (hfuture : ∀ e, req.expiresAt = some e → clock.nowExpiry ≤ e)
    (hfree : ∀ d ∈ store, d.isActive = true → d.customAlias ≠ some doc.urlCode)
    (hkey : visit.code = doc.urlCode)
    (hsave : clock.saveOk = true) :
    doc.clicks = 0 ∧ doc.clickHistory = [] ∧
    (redirectUrl o.store visit clock).response = .redirect req.originalUrl ∧
    ∃ doc', (redirectUrl o.store visit clock).store.find? (fun d => d.id == doc.id) = some doc' ∧
      doc'.urlCode = doc.urlCode ∧ doc'.originalUrl = req.originalUrl ∧
      doc'.clicks = 1 ∧ doc'.clickHistory.length = 1 := by
  have hval := shortenUrl_created_valid fuel store req env o doc hshort hcreated
  obtain ⟨k, _, hcode, _, ho⟩ :=
    shortenUrl_generated_sound store req env hval halias fuel o hshort
  subst ho
  obtain ⟨hdoc, hstore⟩ := createUrl_created store req env _ _ doc hcreated
  have hX : doc.urlCode = candidate env.rnd k := by rw [hdoc]; rfl
  have hfind : findOne (store ++ [doc]) (.activeCodeOrAlias visit.code) = some doc := by
    apply findOne_append_singleton
    · intro d hd
      have h1 : d.urlCode ≠ visit.code := by rw [hkey, hX]; exact hcode d hd
      have h2 := hfree d hd
      rw [← hkey] at h2
      cases hact : d.isActive with
      | false => simp [Filter.matches, hact]
      | true => simp [Filter.matches, h1, h2 hact]
    · have hact : doc.isActive = true := by rw [hdoc]; rfl
      simp [Filter.matches, hkey, hact]
  have hexp : isExpired doc clock.nowExpiry = false := by
    have he : doc.expiresAt = req.expiresAt := by rw [hdoc]; rfl
    unfold isExpired
    rw [he]
    cases hreq : req.expiresAt with
    | none => rfl
    | some e => simpa using hfuture e hreq
  have hclicks : doc.clicks = 0 := by rw [hdoc]; rfl
  have hhist : doc.clickHistory = [] := by rw [hdoc]; rfl
  have horig : doc.originalUrl = req.originalUrl := by rw [hdoc]; rfl
  have hroom : doc.clickHistory.length < maxArrayLength := by
    rw [hhist]
    decide
  have hfresh := createUrl_created_fresh store req env _ _ doc hcreated
  rw [hstore, redirectUrl_of_found (store ++ [doc]) visit clock doc hfind hexp hroom hsave]
  show doc.clicks = 0 ∧ doc.clickHistory = [] ∧ Response.redirect doc.originalUrl = _ ∧
    ∃ doc', (updateOne (store ++ [doc]) doc.id _).find? (fun d => d.id == doc.id) = some doc' ∧ _
  rw [updateOne_append_fresh store doc _ hfresh, applyUpdate_self]
  refine ⟨hclicks, hhist, by rw [horig],
    savedDoc doc (clickDataOf visit) clock.nowClick clock.nowSave, ?_, rfl, ?_, ?_, ?_⟩
  · rw [List.find?_append]
    have h1 : store.find? (fun d => d.id == doc.id) = none := by
      rw [List.find?_eq_none]
      intro d hd
      simpa using hfresh d hd
    rw [h1]
    simp [List.find?, savedDoc, applyClick]
  · simpa [savedDoc, applyClick] using horig
  · simp [savedDoc, applyClick, hclicks, jsIncrement]
  · simp [savedDoc, applyClick, hhist]

theorem C9_round_trip_witness :
    shortenUrl 1 [promoUrl] plainShorten sampleEnv
      = some ⟨.created createdUrl, [promoUrl, createdUrl],
          [.findOne (.code "abc123"), .insert createdUrl]⟩ ∧
    (∀ d ∈ [promoUrl], d.isActive = true → d.customAlias ≠ some createdUrl.urlCode) ∧
    (redirectUrl [promoUrl, createdUrl] sampleVisit sampleClock).response
      = .redirect "https://example.com/page" ∧
    (redirectUrl [promoUrl, createdUrl] sampleVisit sampleClock).store =
      [promoUrl,
       { createdUrl with
         clicks := 1
         clickHistory :=
           [{ timestamp := 1001, ip := "10.0.0.1", userAgent := "unknown", referrer := "direct" }]
         updatedAt := 1002
         version := 1 }] :=
  ⟨by decide, by decide,
   (C9_round_trip 1 [promoUrl] plainShorten sampleEnv
      ⟨.created createdUrl, [promoUrl, createdUrl],
        [.findOne (.code "abc123"), .insert createdUrl]⟩
      createdUrl sampleVisit sampleClock (by decide) rfl (Or.inl rfl)
      (fun e h => nomatch h) (by decide) rfl rfl).2.2.1,
   by decide⟩

/-- C9 as stated fails in two ways. After `shortenUrl` has created the record with code
`abc123` in the empty store, a visit whose click write the store rejects is answered with 500 and
the record keeps `clicks` 0. And when a stored active record already has `abc123` as its
`customAlias`, `shortenUrl` still creates the record with code `abc123`, and the visit is
redirected to that other record's URL while the new record keeps `clicks` 0. -/
theorem C9_counterexample :
    (shortenUrl 1 [] plainShorten sampleEnv
      = some ⟨.created createdUrl, [createdUrl],
          [.findOne (.code "abc123"), .insert createdUrl]⟩ ∧
     (redirectUrl [createdUrl] sampleVisit downClock).response
      = .json 500 "Server error during redirect" ∧
     (redirectUrl [createdUrl] sampleVisit downClock).store = [createdUrl]) ∧
    (shortenUrl 1 [squatter] plainShorten sampleEnv
      = some ⟨.created createdUrl, [squatter, createdUrl],
          [.findOne (.code "abc123"), .insert createdUrl]⟩ ∧
     (redirectUrl [squatter, createdUrl] sampleVisit sampleClock).response
      = .redirect "https://other.example/" ∧
     createdUrl ∈ (redirectUrl [squatter, createdUrl] sampleVisit sampleClock).store ∧
     createdUrl.clicks = 0) ∧
    createdUrl.originalUrl = plainShorten.originalUrl ∧
    Response.redirect plainShorten.originalUrl ≠ .json 500 "Server error during redirect" ∧
    Response.redirect plainShorten.originalUrl ≠ .redirect "https://other.example/" := by
  decide

/-! ## Collections with distinct `_id`s -/

theorem createUrl_store_fresh (store : Store) (req : ShortenReq) (env : ShortenEnv)
    (code : String) (ops : List StoreOp) :
    (createUrl store req env code ops).store = store ∨
    ((createUrl store req env code ops).store = store ++ [newUrlDoc req env code] ∧
      ∀ d ∈ store, d.id ≠ env.newId) := by
  unfold createUrl
  simp only
  split_ifs with h1 h2
  · exact Or.inl rfl
  · exact Or.inl rfl
  · right
    refine ⟨rfl, ?_⟩
    intro d hd hid
    apply h2
    simp only [Bool.or_eq_true, List.any_eq_true, beq_iff_eq]
    exact Or.inl ⟨d, hd, hid⟩

theorem shortenUrl_store_fresh (fuel : Nat) (store : Store) (req : ShortenReq)
    (env : ShortenEnv) (o : Outcome) (h : shortenUrl fuel store req env = some o) :
    o.store = store ∨
    ∃ code, o.store = store ++ [newUrlDoc req env code] ∧
      (∀ d ∈ store, d.urlCode ≠ code) ∧
      (∀ d ∈ store, d.id ≠ env.newId) ∧
      (jsOr req.customAlias none = none ∨ jsOr req.customAlias none = some code) := by
  unfold shortenUrl at h
  split_ifs at h with hval
  · cases h; exact Or.inl rfl
  · cases halias : jsOr req.customAlias none with
    | some a =>
      simp only [halias] at h
      split_ifs at h with hvalid
      · cases h; exact Or.inl rfl
      · cases hf : findOne store (.codeOrAlias a) with
        | some url =>
          simp only [hf] at h
          cases h; exact Or.inl rfl
        | none =>
          simp only [hf, Option.some.injEq] at h
          subst h
          rcases createUrl_store_fresh store req env a [.findOne (.codeOrAlias a)] with h1 | h1
          · exact Or.inl h1
          · refine Or.inr ⟨a, h1.1, ?_, h1.2, Or.inr rfl⟩
            intro d hd
            have := findOne_none store _ hf d hd
            simp only [Filter.matches, Bool.or_eq_false_iff, beq_eq_false_iff_ne, ne_eq] at this
            exact this.1
    | none =>
      simp only [halias] at h
      cases hloop : uniqueCodeLoop store env.rnd fuel 0 with
      | none => simp [hloop] at h
      | some r =>
        obtain ⟨k, _, h1, h2, _, _⟩ := uniqueCodeLoop_sound store env.rnd fuel 0 r hloop
        obtain ⟨code, ops⟩ := r
        simp only [hloop, Option.some.injEq] at h
        subst h
        simp only at h1
        rcases createUrl_store_fresh store req env code ops with h3 | h3
        · exact Or.inl h3
        · refine Or.inr ⟨code, h3.1, ?_, h3.2, Or.inl rfl⟩
          rw [h1]
          exact (findOne_code_eq_none_iff store _).mp h2

theorem storeInv_append (store : Store) (doc : UrlDoc) (h : StoreInv store)
    (hid : ∀ d ∈ store, d.id ≠ doc.id) (hcode : ∀ d ∈ store, d.urlCode ≠ doc.urlCode)
    (halias : ∀ a, doc.customAlias = some a → doc.urlCode = a) :
    StoreInv (store ++ [doc]) := by
  obtain ⟨h1, h2, h3⟩ := h
  refine ⟨?_, ?_, ?_⟩
  · rw [List.map_append, List.nodup_append]
    refine ⟨h1, List.nodup_singleton _, ?_⟩
    intro x hx hx'
    obtain ⟨d, hd, rfl⟩ := List.mem_map.mp hx
    simp only [List.map_cons, List.map_nil, List.mem_singleton] at hx'
    exact hid d hd hx'
  · rw [List.map_append, List.nodup_append]
    refine ⟨h2, List.nodup_singleton _, ?_⟩
    intro x hx hx'
    obtain ⟨d, hd, rfl⟩ := List.mem_map.mp hx
    simp only [List.map_cons, List.map_nil, List.mem_singleton] at hx'
    exact hcode d hd hx'
  · intro d hd a ha
    rcases List.mem_append.mp hd with h | h
    · exact h3 d h a ha
    · rw [List.mem_singleton.mp h] at ha ⊢
      exact halias a ha

theorem storeInv_replace (l1 l2 : Store) (url saved : UrlDoc)
    (h : StoreInv (l1 ++ url :: l2)) (hid : saved.id = url.id)
    (hcode : saved.urlCode = url.urlCode) (halias : saved.customAlias = url.customAlias) :
    StoreInv (l1 ++ saved :: l2) := by
  obtain ⟨h1, h2, h3⟩ := h
  refine ⟨?_, ?_, ?_⟩
  · simpa [hid] using h1
  · simpa [hcode] using h2
  · intro d hd a ha
    rcases List.mem_append.mp hd with h | h
    · exact h3 d (List.mem_append_left _ h) a ha
    · rcases List.mem_cons.mp h with h | h
      · rw [h] at ha ⊢
        rw [hcode]
        rw [halias] at ha
        exact h3 url (List.mem_append_right _ (List.mem_cons_self _ _)) a ha
      · exact h3 d (List.mem_append_right _ (List.mem_cons_of_mem _ h)) a ha

theorem storeInv_sublist (store sub : Store) (hsub : sub.Sublist store) (h : StoreInv store) :
    StoreInv sub := by
  obtain ⟨h1, h2, h3⟩ := h
  exact ⟨h1.sublist (hsub.map _), h2.sublist (hsub.map _),
    fun d hd a ha => h3 d (hsub.subset hd) a ha⟩

theorem deleteUrl_sublist (store : Store) (id : Option Nat) (userId : Nat) :
    (deleteUrl store id userId).store.Sublist store := by
  cases id with
  | none => exact List.Sublist.refl store
  | some i =>
    unfold deleteUrl
    cases hfind : findOne store (.idOwner i userId) with
    | none => simp only [hfind]; exact List.Sublist.refl store
    | some url => simp only [hfind]; exact List.eraseP_sublist store

theorem deleteUrl_store (store : Store) (id : Option Nat) (userId : Nat) :
    ∀ d ∈ (deleteUrl store id userId).store, d ∈ store :=
  fun _ hd => (deleteUrl_sublist store id userId).subset hd

theorem step_storeInv (store : Store) (h : StoreInv store) (r : Request) :
    StoreInv (step store r) := by
  cases r with
  | shorten fuel req env =>
    change StoreInv (match shortenUrl fuel store req env with
      | some o => o.store
      | none => store)
    cases hs : shortenUrl fuel store req env with
    | none => exact h
    | some o =>
      simp only
      rcases shortenUrl_store_fresh fuel store req env o hs with h1 | ⟨code, h1, h2, h3, h4⟩
      · rw [h1]; exact h
      · rw [h1]
        apply storeInv_append store _ h h3 h2
        intro a ha
        simp only [newUrlDoc] at ha ⊢
        rcases h4 with h5 | h5
        · rw [h5] at ha; cases ha
        · rw [h5] at ha; cases ha; rfl
  | redirect req env =>
    change StoreInv (redirectUrl store req env).store
    rcases redirectUrl_frame store req env h.1 with h1 | ⟨l1, url, l2, h1, _, _, _, _, h2⟩
    · rw [h1]; exact h
    · rw [h2]
      rw [h1] at h
      exact storeInv_replace l1 l2 url _ h rfl rfl rfl
  | delete id userId =>
    change StoreInv (deleteUrl store id userId).store
    exact storeInv_sublist store _ (deleteUrl_sublist store id userId) h

theorem run_storeInv (reqs : List Request) :
    ∀ store : Store, StoreInv store → StoreInv (run store reqs) := by
  induction reqs with
  | nil => intro store h; exact h
  | cons r rest ih => intro store h; exact ih (step store r) (step_storeInv store h r)

theorem storeInv_nil : StoreInv [] :=
  ⟨List.nodup_nil, List.nodup_nil, fun d hd => by cases hd⟩

/-! ## Invariants of the collection -/

theorem createUrl_store (store : Store) (req : ShortenReq) (env : ShortenEnv) (code : String)
    (ops : List StoreOp) :
    (createUrl store req env code ops).store = store ∨
    (createUrl store req env code ops).store = store ++ [newUrlDoc req env code] := by
  unfold createUrl
  simp only
  split_ifs
  · exact Or.inl rfl
  · exact Or.inl rfl
  · exact Or.inr rfl

theorem shortenUrl_store (fuel : Nat) (store : Store) (req : ShortenReq) (env : ShortenEnv)
    (o : Outcome) (h : shortenUrl fuel store req env = some o) :
    o.store = store ∨
    ∃ code, o.store = store ++ [newUrlDoc req env code] ∧
      (jsOr req.customAlias none = none ∨ jsOr req.customAlias none = some code) := by
  unfold shortenUrl at h
  split_ifs at h with hval
  · cases h; exact Or.inl rfl
  · cases halias : jsOr req.customAlias none with
    | some a =>
      simp only [halias] at h
      split_ifs at h with hvalid
      · cases h; exact Or.inl rfl
      · cases hf : findOne store (.codeOrAlias a) with
        | some url =>
          simp only [hf] at h
          cases h; exact Or.inl rfl
        | none =>
          simp only [hf, Option.some.injEq] at h
          subst h
          rcases createUrl_store store req env a [.findOne (.codeOrAlias a)] with h1 | h1
          · exact Or.inl h1
          · exact Or.inr ⟨a, h1, Or.inr rfl⟩
    | none =>
      simp only [halias] at h
      cases hloop : uniqueCodeLoop store env.rnd fuel 0 with
      | none => simp [hloop] at h
      | some r =>
        obtain ⟨code, ops⟩ := r
        simp only [hloop, Option.some.injEq] at h
        subst h
        rcases createUrl_store store req env code ops with h1 | h1
        · exact Or.inl h1
        · exact Or.inr ⟨code, h1, Or.inl rfl⟩

theorem step_preserves (P : UrlDoc → Prop)
    (hnew : ∀ req env code,
      (jsOr req.customAlias none = none ∨ jsOr req.customAlias none = some code) →
      P (newUrlDoc req env code))
    (hclick : ∀ url clickData t1 t2, P url → url.clickHistory.length < maxArrayLength →
      P (savedDoc url clickData t1 t2))
    (store : Store) (hids : (store.map (fun d => d.id)).Nodup)
    (hstore : ∀ d ∈ store, P d) (r : Request) :
    ∀ d ∈ step store r, P d := by
  intro d hd
  cases r with
  | shorten fuel req env =>
    change d ∈ (match shortenUrl fuel store req env with
      | some o => o.store
      | none => store) at hd
    cases hs : shortenUrl fuel store req env with
    | none =>
      simp only [hs] at hd
      exact hstore d hd
    | some o =>
      simp only [hs] at hd
      rcases shortenUrl_store fuel store req env o hs with h | ⟨code, h, hcode⟩
      · rw [h] at hd; exact hstore d hd
      · rw [h] at hd
        rcases List.mem_append.mp hd with h1 | h1
        · exact hstore d h1
        · rw [List.mem_singleton.mp h1]
          exact hnew req env code hcode
  | redirect req env =>
    change d ∈ (redirectUrl store req env).store at hd
    rcases redirectUrl_mem store req env hids d hd with h | ⟨url, hurl, hroom, h⟩
    · exact hstore d h
    · rw [h]
      exact hclick url (clickDataOf req) env.nowClick env.nowSave (hstore url hurl) hroom
  | delete id userId =>
    change d ∈ (deleteUrl store id userId).store at hd
    exact hstore d (deleteUrl_store store id userId d hd)

theorem run_preserves (P : UrlDoc → Prop)
    (hnew : ∀ req env code,
      (jsOr req.customAlias none = none ∨ jsOr req.customAlias none = some code) →
      P (newUrlDoc req env code))
    (hclick : ∀ url clickData t1 t2, P url → url.clickHistory.length < maxArrayLength →
      P (savedDoc url clickData t1 t2))
    (reqs : List Request) :
    ∀ store : Store, StoreInv store → (∀ d ∈ store, P d) → ∀ d ∈ run store reqs, P d := by
  induction reqs with
  | nil => intro store _ hstore d hd; exact hstore d hd
  | cons r rest ih =>
    intro store hinv hstore d hd
    exact ih (step store r) (step_storeInv store hinv r)
      (step_preserves P hnew hclick store hinv.1 hstore r) d hd

/-- In every collection built from the empty one by the handlers, a record that has a
`customAlias` has it as its `urlCode` too. -/
theorem run_customAlias_eq_urlCode (reqs : List Request) :
    ∀ d ∈ run [] reqs, ∀ a, d.customAlias = some a → d.urlCode = a := by
  apply run_preserves (fun d => ∀ a, d.customAlias = some a → d.urlCode = a)
  · intro req env code hcode a ha
    simp only [newUrlDoc] at ha ⊢
    rcases hcode with h | h
    · rw [h] at ha; cases ha
    · rw [h] at ha; cases ha; rfl
  · intro url clickData t1 t2 h _ a ha
    exact h a ha
  · exact storeInv_nil
  · intro d hd
    cases hd

/-- C10: in every collection reached from the empty one by any sequence of `shortenUrl`,
`redirectUrl` and `deleteUrl` requests, every record has `clicks` equal to the length of its
`clickHistory`. -/
theorem C10_clicks_eq_history_length (reqs : List Request) (d : UrlDoc)
    (hd : d ∈ run [] reqs) : d.clicks = d.clickHistory.length := by
  refine run_preserves (fun d => d.clicks = d.clickHistory.length) ?_ ?_ reqs []
    storeInv_nil ?_ d hd
  · intro req env code _
    rfl
  · intro url clickData t1 t2 h hroom
    have hsafe : url.clicks < 9007199254740992 := by
      rw [h]
      unfold maxArrayLength at hroom
      omega
    simp only [savedDoc, applyClick, List.length_append, List.length_singleton,
      jsIncrement_of_lt url.clicks hsafe]
    rw [h]
  · intro d hd
    cases hd

theorem C10_clicks_eq_history_length_witness :
    visitedUrl ∈ run [] sampleSession ∧ (run [] sampleSession).length = 2 ∧
    visitedUrl.clicks = visitedUrl.clickHistory.length :=
  ⟨by decide, by decide, C10_clicks_eq_history_length sampleSession visitedUrl (by decide)⟩

/-! ## Lookup keys -/

theorem filter_key_length_le_one (key : String) :
    ∀ l : Store, (l.map (fun d => d.urlCode)).Nodup →
      (∀ d ∈ l, ∀ a, d.customAlias = some a → d.urlCode = a) →
      (l.filter (fun d => d.urlCode == key || d.customAlias == some key)).length ≤ 1 := by
  intro l
  induction l with
  | nil => intro _ _; simp
  | cons x t ih =>
    intro hnd halias
    rw [List.map_cons, List.nodup_cons] at hnd
    obtain ⟨hx, ht⟩ := hnd
    have hkey : ∀ d ∈ x :: t,
        (d.urlCode == key || d.customAlias == some key) = true → d.urlCode = key := by
      intro d hd hm
      simp only [Bool.or_eq_true, beq_iff_eq] at hm
      rcases hm with h | h
      · exact h
      · exact halias d hd key h
    have iht := ih ht (fun d hd => halias d (List.mem_cons_of_mem x hd))
    by_cases hm : (x.urlCode == key || x.customAlias == some key) = true
    · have hxk := hkey x (List.mem_cons_self x t) hm
      have hnone : t.filter (fun d => d.urlCode == key || d.customAlias == some key) = [] := by
        rw [List.filter_eq_nil_iff]
        intro d hd hdm
        apply hx
        rw [hxk, ← hkey d (List.mem_cons_of_mem x hd) hdm]
        exact List.mem_map.mpr ⟨d, hd, rfl⟩
      simp only [List.filter_cons, hm, hnone, ↓reduceIte, List.length_singleton, le_refl]
    · simp only [List.filter_cons, hm, ↓reduceIte, Bool.false_eq_true]
      exact iht

theorem createUrl_store_created (store : Store) (req : ShortenReq) (env : ShortenEnv)
    (code : String) (ops : List StoreOp) :
    (createUrl store req env code ops).store = store ∨
    ((createUrl store req env code ops).response = .created (newUrlDoc req env code) ∧
      (createUrl store req env code ops).store = store ++ [newUrlDoc req env code]) := by
  unfold createUrl
  simp only
  split_ifs
  · exact Or.inl rfl
  · exact Or.inl rfl
  · exact Or.inr ⟨rfl, rfl⟩

theorem shortenUrl_store_created (fuel : Nat) (store : Store) (req : ShortenReq)
    (env : ShortenEnv) (o : Outcome) (h : shortenUrl fuel store req env = some o) :
    o.store = store ∨ ∃ doc, o.response = .created doc ∧ o.store = store ++ [doc] := by
  unfold shortenUrl at h
  split_ifs at h with hval
  · cases h; exact Or.inl rfl
  · cases halias : jsOr req.customAlias none with
    | some a =>
      simp only [halias] at h
      split_ifs at h with hvalid
      · cases h; exact Or.inl rfl
      · cases hf : findOne store (.codeOrAlias a) with
        | some url =>
          simp only [hf] at h
          cases h; exact Or.inl rfl
        | none =>
          simp only [hf, Option.some.injEq] at h
          subst h
          rcases createUrl_store_created store req env a [.findOne (.codeOrAlias a)] with h1 | h1
          · exact Or.inl h1
          · exact Or.inr ⟨_, h1⟩
    | none =>
      simp only [halias] at h
      cases hloop : uniqueCodeLoop store env.rnd fuel 0 with
      | none => simp [hloop] at h
      | some r =>
        obtain ⟨code, ops⟩ := r
        simp only [hloop, Option.some.injEq] at h
        subst h
        rcases createUrl_store_created store req env code ops with h1 | h1
        · exact Or.inl h1
        · exact Or.inr ⟨_, h1⟩

theorem uniqueIndexesAdmit_alias (store : Store) (doc : UrlDoc)
    (h : uniqueIndexesAdmit store doc = true) : ∀ d ∈ store, d.customAlias ≠ doc.customAlias := by
  intro d hd
  unfold uniqueIndexesAdmit at h
  have := List.all_eq_true.mp h d hd
  simp only [Bool.and_eq_true, bne_iff_ne, ne_eq] at this
  exact this.2

theorem step_alias_nodup (store : Store) (r : Request)
    (hids : (store.map (fun d => d.id)).Nodup)
    (hal : (store.map (fun d => d.customAlias)).Nodup)
    (hadm : admitted store r = true) :
    ((step store r).map (fun d => d.customAlias)).Nodup := by
  cases r with
  | shorten fuel req env =>
    change (List.map (fun d : UrlDoc => d.customAlias) (match shortenUrl fuel store req env with
      | some o => o.store
      | none => store)).Nodup
    cases hs : shortenUrl fuel store req env with
    | none => exact hal
    | some o =>
      simp only
      rcases shortenUrl_store_created fuel store req env o hs with h1 | ⟨doc, hresp, h1⟩
      · rw [h1]; exact hal
      · have hidx : uniqueIndexesAdmit store doc = true := by
          simpa only [admitted, hs, hresp] using hadm
        rw [h1, List.map_append, List.nodup_append]
        refine ⟨hal, List.nodup_singleton _, ?_⟩
        intro x hx hx'
        obtain ⟨d, hd, rfl⟩ := List.mem_map.mp hx
        simp only [List.map_cons, List.map_nil, List.mem_singleton] at hx'
        exact uniqueIndexesAdmit_alias store doc hidx d hd hx'
  | redirect req env =>
    change ((redirectUrl store req env).store.map (fun d => d.customAlias)).Nodup
    rw [redirectUrl_keeps (fun d => d.customAlias) (fun _ _ _ _ => rfl) store req env hids]
    exact hal
  | delete id userId =>
    change ((deleteUrl store id userId).store.map (fun d => d.customAlias)).Nodup
    exact hal.sublist ((deleteUrl_sublist store id userId).map _)

theorem run_alias_nodup (reqs : List Request) :
    ∀ store : Store, StoreInv store → (store.map (fun d => d.customAlias)).Nodup →
      runAdmitted store reqs = true →
      ((run store reqs).map (fun d => d.customAlias)).Nodup := by
  induction reqs with
  | nil => intro store _ hal _; exact hal
  | cons r rest ih =>
    intro store hinv hal hadm
    have hadm' : admitted store r = true ∧ runAdmitted (step store r) rest = true := by
      simpa only [runAdmitted, Bool.and_eq_true] using hadm
    exact ih (step store r) (step_storeInv store hinv r)
      (step_alias_nodup store r hinv.1 hal hadm'.1) hadm'.2

theorem filter_none_length_le_one :
    ∀ l : Store, (l.map (fun d => d.customAlias)).Nodup →
      (l.filter (fun d => d.customAlias == none)).length ≤ 1 := by
  intro l
  induction l with
  | nil => intro _; simp
  | cons x t ih =>
    intro hnd
    rw [List.map_cons, List.nodup_cons] at hnd
    obtain ⟨hx, ht⟩ := hnd
    by_cases hm : (x.customAlias == none) = true
    · have hxn : x.customAlias = none := by simpa using hm
      have hnone : t.filter (fun d => d.customAlias == none) = [] := by
        rw [List.filter_eq_nil_iff]
        intro d hd hdm
        have hdn : d.customAlias = none := by simpa using hdm
        apply hx
        rw [hxn, ← hdn]
        exact List.mem_map.mpr ⟨d, hd, rfl⟩
      simp only [List.filter_cons, hm, hnone, ↓reduceIte, List.length_singleton, le_refl]
    · simp only [List.filter_cons, hm, ↓reduceIte, Bool.false_eq_true]
      exact ih ht

/-- C11, as amended: in every collection reached from the empty one by a sequence of requests
handled one after the other, any two records at different places have different `urlCode`s, never
the same `customAlias` when one is set, and the `urlCode` of neither is the `customAlias` of the
other; so every lookup key is matched, by `urlCode` or `customAlias`, by at most one record. The
handler writes a missing alias as an explicit `null`, which the unique sparse index that the
schema declares on `customAlias` still holds: in a run whose accepted inserts respect the declared
unique indexes, no two records have the same `customAlias`, set or not, so at most one record has
none. -/
theorem C11_lookup_keys_unique (reqs : List Request) :
    (run [] reqs).Pairwise (fun d e =>
      d.urlCode ≠ e.urlCode ∧
      (∀ a, d.customAlias = some a → e.customAlias ≠ some a) ∧
      d.customAlias ≠ some e.urlCode ∧ e.customAlias ≠ some d.urlCode) ∧
    (∀ key, ((run [] reqs).filter
      (fun d => d.urlCode == key || d.customAlias == some key)).length ≤ 1) ∧
    (runAdmitted [] reqs = true →
      ((run [] reqs).map (fun d => d.customAlias)).Nodup ∧
      ((run [] reqs).filter (fun d => d.customAlias == none)).length ≤ 1) := by
  obtain ⟨_, hcodes, halias⟩ := run_storeInv reqs [] storeInv_nil
  refine ⟨?_, fun key => filter_key_length_le_one key _ hcodes halias, ?_⟩
  · have hpw : (run [] reqs).Pairwise (fun d e => d.urlCode ≠ e.urlCode) := by
      have := hcodes
      unfold List.Nodup at this
      rwa [List.pairwise_map] at this
    refine hpw.imp_of_mem ?_
    intro d e hd he hne
    refine ⟨hne, ?_, ?_, ?_⟩
    · intro a ha hb
      exact hne ((halias d hd a ha).trans (halias e he a hb).symm)
    · intro h
      exact hne (halias d hd _ h)
    · intro h
      exact hne (halias e he _ h).symm
  · intro hadm
    have hnd := run_alias_nodup reqs [] storeInv_nil List.nodup_nil hadm
    exact ⟨hnd, filter_none_length_le_one _ hnd⟩

theorem C11_lookup_keys_unique_witness :
    runAdmitted [] sampleSession = true ∧
    (run [] sampleSession).map (fun d => d.customAlias) = [none, some "promo"] ∧
    ((run [] sampleSession).map (fun d => d.customAlias)).Nodup ∧
    ((run [] sampleSession).filter (fun d => d.customAlias == none)).length ≤ 1 :=
  ⟨by decide, by decide, (C11_lookup_keys_unique sampleSession).2.2 (by decide)⟩

/-- C11 as stated fails in its last part: records without alias exclude one another. The first
request of `plainSession` creates `firstPlain`, stored with `customAlias` an explicit `null`;
the second builds `secondPlain`, with another `urlCode` and `shortUrl` and again `customAlias`
`null`, which the unique index on `customAlias` refuses, so the request is answered 500 and the
collection keeps its one record. The run of `plainSession` that ends with three records without
alias is one in which the store accepts inserts that the declared indexes refuse. -/
theorem C11_counterexample :
    shortenUrl 1 [] plainShorten { sampleEnv with rnd := fun _ => 0, newId := 1 }
      = some ⟨.created firstPlain, [firstPlain],
          [.findOne (.code "aaaaaa"), .insert firstPlain]⟩ ∧
    firstPlain.customAlias = none ∧ secondPlain.customAlias = none ∧
    firstPlain.urlCode ≠ secondPlain.urlCode ∧ firstPlain.shortUrl ≠ secondPlain.shortUrl ∧
    uniqueIndexesAdmit [firstPlain] secondPlain = false ∧
    shortenUrl 1 [firstPlain] plainShorten indexedEnv
      = some ⟨.json 500 "Server error creating short URL", [firstPlain],
          [.findOne (.code "bbbbbb"), .insert secondPlain]⟩ ∧
    (run [] plainSession).length = 3 ∧
    (∀ d ∈ run [] plainSession, d.customAlias = none) ∧
    runAdmitted [] plainSession = false := by
  decide

/-! ## Expired links -/

theorem storeInv_first_match (l1 l2 : Store) (url : UrlDoc) (key : String)
    (h : StoreInv (l1 ++ url :: l2))
    (hkey : url.urlCode = key ∨ url.customAlias = some key) :
    ∀ d ∈ l1, d.urlCode ≠ key ∧ d.customAlias ≠ some key := by
  obtain ⟨_, hcodes, halias⟩ := h
  have hu : url.urlCode = key := by
    rcases hkey with h1 | h1
    · exact h1
    · exact halias url (List.mem_append_right _ (List.mem_cons_self _ _)) key h1
  intro d hd
  have hne : d.urlCode ≠ key := by
    intro hd'
    rw [List.map_append, List.map_cons] at hcodes
    exact (List.nodup_append.mp hcodes).2.2 (List.mem_map.mpr ⟨d, hd, rfl⟩)
      (by rw [hd', ← hu]; exact List.mem_cons_self _ _)
  exact ⟨hne, fun h1 => hne (halias d (List.mem_append_left _ hd) key h1)⟩

/-- C4, as amended: take an active record whose `expiresAt` is set and lies before the current
time, and a key equal to its `urlCode` or `customAlias`. In a collection where no active record
stored before it has that key, and so in every collection built from the empty one by the
handlers, where a key matches one record at most, `redirectUrl` answers 410 `URL has expired`, not
the 404 of a missing link and not a redirect; the only store call is the lookup, and the
collection, hence the record's `clicks` and `clickHistory`, is unchanged. -/
theorem C4_redirect_expired (url : UrlDoc) (req : RedirectReq) (env : RedirectEnv) (e : Nat)
    (hact : url.isActive = true)
    (hkey : url.urlCode = req.code ∨ url.customAlias = some req.code)
    (hset : url.expiresAt = some e)
    (hpast : e < env.nowExpiry) :
    (∀ l1 l2 : Store,
      (∀ d ∈ l1, d.isActive = true → d.urlCode ≠ req.code ∧ d.customAlias ≠ some req.code) →
      (redirectUrl (l1 ++ url :: l2) req env).response = .json 410 "URL has expired" ∧
      (redirectUrl (l1 ++ url :: l2) req env).response.status = 410 ∧
      (redirectUrl (l1 ++ url :: l2) req env).response.status ≠ 404 ∧
      (∀ location, (redirectUrl (l1 ++ url :: l2) req env).response ≠ .redirect location) ∧
      (redirectUrl (l1 ++ url :: l2) req env).store = l1 ++ url :: l2 ∧
      (redirectUrl (l1 ++ url :: l2) req env).ops
        = [.findOne (.activeCodeOrAlias req.code)]) ∧
    (∀ reqs : List Request, url ∈ run [] reqs →
      (redirectUrl (run [] reqs) req env).response = .json 410 "URL has expired" ∧
      (redirectUrl (run [] reqs) req env).response.status = 410 ∧
      (redirectUrl (run [] reqs) req env).response.status ≠ 404 ∧
      (∀ location, (redirectUrl (run [] reqs) req env).response ≠ .redirect location) ∧
      (redirectUrl (run [] reqs) req env).store = run [] reqs ∧
      (redirectUrl (run [] reqs) req env).ops = [.findOne (.activeCodeOrAlias req.code)]) := by
  have hexp : isExpired url env.nowExpiry = true := by
    unfold isExpired
    rw [hset]
    simpa using hpast
  have hcur : (Filter.activeCodeOrAlias req.code).matches url = true := by
    rcases hkey with h | h <;> simp [Filter.matches, h, hact]
  have hgen : ∀ l1 l2 : Store,
      (∀ d ∈ l1, d.isActive = true → d.urlCode ≠ req.code ∧ d.customAlias ≠ some req.code) →
      redirectUrl (l1 ++ url :: l2) req env
        = ⟨.json 410 "URL has expired", l1 ++ url :: l2,
            [.findOne (.activeCodeOrAlias req.code)]⟩ := by
    intro l1 l2 hfirst
    apply redirectUrl_expired _ req env url _ hexp
    apply findOne_of_first l1 l2 url _ hcur
    intro d hd
    cases hda : d.isActive with
    | false => simp [Filter.matches, hda]
    | true =>
      obtain ⟨h1, h2⟩ := hfirst d hd hda
      simp [Filter.matches, h1, h2]
  refine ⟨?_, ?_⟩
  · intro l1 l2 hfirst
    rw [hgen l1 l2 hfirst]
    refine ⟨rfl, rfl, ?_, ?_, rfl, rfl⟩
    · simp [Response.status]
    · intro location h
      cases h
  · intro reqs hmem
    obtain ⟨l1, l2, hsplit⟩ := List.append_of_mem hmem
    have hinv := run_storeInv reqs [] storeInv_nil
    rw [hsplit] at hinv ⊢
    rw [hgen l1 l2 (fun d hd _ => storeInv_first_match l1 l2 url req.code hinv hkey d hd)]
    refine ⟨rfl, rfl, ?_, ?_, rfl, rfl⟩
    · simp [Response.status]
    · intro location h
      cases h

theorem C4_redirect_expired_witness :
    sampleUrl.isActive = true ∧ sampleUrl.urlCode = sampleVisit.code ∧
    sampleUrl.expiresAt = some 5000 ∧ 5000 < lateClock.nowExpiry ∧
    (redirectUrl [promoUrl, sampleUrl] sampleVisit lateClock).response
      = .json 410 "URL has expired" ∧
    (redirectUrl [promoUrl, sampleUrl] sampleVisit lateClock).store = [promoUrl, sampleUrl] ∧
    expiringUrl ∈ run [] expiringSession ∧
    (redirectUrl (run [] expiringSession) sampleVisit lateClock).response
      = .json 410 "URL has expired" :=
  ⟨rfl, rfl, rfl, by decide,
   ((C4_redirect_expired sampleUrl sampleVisit lateClock 5000
      rfl (Or.inl rfl) rfl (by decide)).1 [promoUrl] [] (by decide)).1,
   ((C4_redirect_expired sampleUrl sampleVisit lateClock 5000
      rfl (Or.inl rfl) rfl (by decide)).1 [promoUrl] [] (by decide)).2.2.2.2.1,
   by decide,
   ((C4_redirect_expired expiringUrl sampleVisit lateClock 5000
      rfl (Or.inl rfl) rfl (by decide)).2 expiringSession (by decide)).1⟩

/-- C4 as stated fails: `sampleUrl` is active, expired since instant 5000 and has the key
`abc123` as its `urlCode`, but it is stored after `squatter`, an active unexpired record with
`abc123` as `customAlias`, so the lookup returns `squatter` and the visit is redirected. -/
theorem C4_counterexample :
    sampleUrl ∈ [squatter, sampleUrl] ∧ sampleUrl.isActive = true ∧
    sampleUrl.urlCode = sampleVisit.code ∧
    sampleUrl.expiresAt = some 5000 ∧ 5000 < lateClock.nowExpiry ∧
    (redirectUrl [squatter, sampleUrl] sampleVisit lateClock).response
      = .redirect "https://other.example/" ∧
    (redirectUrl [squatter, sampleUrl] sampleVisit lateClock).response.status ≠ 410 := by
  decide

/-! ## The alias path -/

theorem generateShortUrl_ne_empty (baseUrl code : String) :
    (generateShortUrl baseUrl code != "") = true := by
  have h : generateShortUrl baseUrl code ≠ "" := by
    intro h
    have hl := congrArg String.length h
    simp only [generateShortUrl, String.length_append] at hl
    have h1 : "/".length = 1 := rfl
    have h0 : "".length = 0 := rfl
    omega
  simpa using h

theorem shortenUrl_alias_shape (fuel : Nat) (store : Store) (req : ShortenReq)
    (env : ShortenEnv) (a : String)
    (hval : req.validationErrors = []) (ha : req.customAlias = some a) (hne : a ≠ "") :
    shortenUrl fuel store req env =
      if !isValidCustomAlias a then
        some ⟨.json 400 "Custom alias must be 3-20 characters and contain only letters, numbers, hyphens, and underscores", store, []⟩
      else
        match findOne store (.codeOrAlias a) with
        | some _ =>
          some ⟨.json 400 "Custom alias already exists", store, [.findOne (.codeOrAlias a)]⟩
        | none => some (createUrl store req env a [.findOne (.codeOrAlias a)]) := by
  unfold shortenUrl
  simp [hval, ha, jsOr, hne]

theorem findOne_codeOrAlias_eq_none (store : Store) (a : String)
    (hfree : ∀ d ∈ store, d.urlCode ≠ a ∧ d.customAlias ≠ some a) :
    findOne store (.codeOrAlias a) = none := by
  unfold findOne
  rw [List.find?_eq_none]
  intro d hd hm
  simp only [Filter.matches, Bool.or_eq_true, beq_iff_eq] at hm
  rcases hm with h | h
  · exact (hfree d hd).1 h
  · exact (hfree d hd).2 h

theorem createUrl_accepted (store : Store) (req : ShortenReq) (env : ShortenEnv)
    (code : String) (ops : List StoreOp)
    (hurl : validOriginalUrl req.originalUrl = true) (hcode : code ≠ "")
    (hid : ∀ d ∈ store, d.id ≠ env.newId) (hacc : env.storeAccepts = true) :
    createUrl store req env code ops =
      ⟨.created (newUrlDoc req env code), store ++ [newUrlDoc req env code],
        ops ++ [.insert (newUrlDoc req env code)]⟩ := by
  have hschema : schemaValid (newUrlDoc req env code) = true := by
    have h2 := generateShortUrl_ne_empty env.baseUrl code
    simp only [schemaValid, newUrlDoc, hurl, h2, Bool.and_self, Bool.true_and]
    simpa using hcode
  have hfresh : store.any (fun d => d.id == (newUrlDoc req env code).id) = false := by
    rw [List.any_eq_false]
    intro d hd
    simpa [newUrlDoc] using hid d hd
  unfold createUrl
  simp [hschema, hfresh, hacc]

/-- C12, as amended: for a valid custom alias `a` that is neither `urlCode` nor `customAlias`
of a stored record, in a request that has passed validation, whose `originalUrl` satisfies the
schema validator and whose insert the store accepts, `shortenUrl` answers 201 after one lookup
and one insert and the collection gains exactly one record, with `urlCode` `a`, `customAlias`
`a` and `shortUrl` the base URL followed by `/` and `a`; the random source is not consulted,
the result being the same for every random source and every fuel. -/
theorem C12_alias_becomes_code (fuel : Nat) (store : Store) (req : ShortenReq)
    (env : ShortenEnv) (a : String)
    (hval : req.validationErrors = [])
    (ha : req.customAlias = some a)
    (hvalid : isValidCustomAlias a = true)
    (hfree : ∀ d ∈ store, d.urlCode ≠ a ∧ d.customAlias ≠ some a)
    (hurl : validOriginalUrl req.originalUrl = true)
    (hid : ∀ d ∈ store, d.id ≠ env.newId)
    (hacc : env.storeAccepts = true) :
    ∃ doc, shortenUrl fuel store req env
        = some ⟨.created doc, store ++ [doc], [.findOne (.codeOrAlias a), .insert doc]⟩ ∧
      (Response.created doc).status = 201 ∧
      doc.urlCode = a ∧ doc.customAlias = some a ∧
      doc.shortUrl = env.baseUrl ++ "/" ++ a ∧
      doc.originalUrl = req.originalUrl ∧ doc.clicks = 0 ∧
      ∀ (fuel' : Nat) (rnd' : Nat → Nat),
        shortenUrl fuel' store req { env with rnd := rnd' } = shortenUrl fuel store req env := by
  have hne := ne_empty_of_isValidCustomAlias a hvalid
  have hnone := findOne_codeOrAlias_eq_none store a hfree
  have hshape : ∀ (fuel' : Nat) (env' : ShortenEnv), env'.newId = env.newId →
      env'.storeAccepts = true →
      shortenUrl fuel' store req env' = some (createUrl store req env' a
        [.findOne (.codeOrAlias a)]) := by
    intro fuel' env' _ _
    rw [shortenUrl_alias_shape fuel' store req env' a hval ha hne]
    simp [hvalid, hnone]
  refine ⟨newUrlDoc req env a, ?_, rfl, rfl, ?_, rfl, rfl, rfl, ?_⟩
  · rw [hshape fuel env rfl hacc, createUrl_accepted store req env a _ hurl hne hid hacc]
    rfl
  · simp [newUrlDoc, ha, jsOr, hne]
  · intro fuel' rnd'
    rw [hshape fuel env rfl hacc, hshape fuel' { env with rnd := rnd' } rfl hacc]
    rfl

theorem C12_alias_becomes_code_witness :
    isValidCustomAlias "promo" = true ∧
    (∀ d ∈ [sampleUrl], d.urlCode ≠ "promo" ∧ d.customAlias ≠ some "promo") ∧
    validOriginalUrl promoShorten.originalUrl = true ∧
    ∃ doc, shortenUrl 0 [sampleUrl] promoShorten sampleEnv
        = some ⟨.created doc, [sampleUrl] ++ [doc],
            [.findOne (.codeOrAlias "promo"), .insert doc]⟩ ∧
      doc.urlCode = "promo" ∧ doc.customAlias = some "promo" ∧
      doc.shortUrl = "http://sho.rt/promo" :=
  ⟨by decide, by decide, by decide,
   (C12_alias_becomes_code 0 [sampleUrl] promoShorten sampleEnv "promo" rfl rfl (by decide)
      (by decide) (by decide) (by decide) rfl).imp
     (fun _ h => ⟨h.1, h.2.2.1, h.2.2.2.1, h.2.2.2.2.1⟩)⟩

/-- C12 as stated fails: with the valid alias `promo` and an empty collection, a request that
did not pass validation is answered 400, and a request that passed it but whose insert the store
refuses is answered 500; in both cases no record is created. -/
theorem C12_counterexample :
    isValidCustomAlias "promo" = true ∧
    (shortenUrl 0 [] rejectedPromo sampleEnv
      = some ⟨.validationFailed rejectedPromo.validationErrors, [], []⟩) ∧
    (shortenUrl 0 [] promoShorten refusingEnv
      = some ⟨.json 500 "Server error creating short URL", [],
          [.findOne (.codeOrAlias "promo"),
           .insert (newUrlDoc promoShorten refusingEnv "promo")]⟩) ∧
    (Response.json 500 "Server error creating short URL").status ≠ 201 ∧
    (Response.validationFailed rejectedPromo.validationErrors).status ≠ 201 := by
  decide

/-- C13, as amended: a record created by `shortenUrl` without alias, with every draw of the
random source in [0, 62), has a `urlCode` of exactly 6 characters of the 62-character alphabet;
a record created with a custom alias `a` has `a` itself as `urlCode`, a valid alias of 3 to 20
characters; and in a collection with distinct `_id`s no `redirectUrl` request changes the
`urlCode` of any record. -/
theorem C13_code_shape_and_stability (fuel : Nat) (store : Store) (req : ShortenReq)
    (env : ShortenEnv) (o : Outcome) (doc : UrlDoc)
    (hshort : shortenUrl fuel store req env = some o)
    (hcreated : o.response = .created doc) :
    ((req.customAlias = none ∨ req.customAlias = some "") → (∀ i, env.rnd i < 62) →
      doc.urlCode.length = 6 ∧ ∀ c ∈ doc.urlCode.data, c ∈ chars.data) ∧
    (∀ a, req.customAlias = some a → a ≠ "" →
      doc.urlCode = a ∧ 3 ≤ a.length ∧ a.length ≤ 20 ∧ ∀ c ∈ a.data, c ∈ aliasAlphabet) ∧
    (∀ (coll : Store) (visit : RedirectReq) (clock : RedirectEnv),
      (coll.map (fun d => d.id)).Nodup →
      (redirectUrl coll visit clock).store.map (fun d => (d.id, d.urlCode))
        = coll.map (fun d => (d.id, d.urlCode))) := by
  have hval := shortenUrl_created_valid fuel store req env o doc hshort hcreated
  refine ⟨?_, ?_, ?_⟩
  · intro halias hrnd
    obtain ⟨k, _, _, _, ho⟩ := shortenUrl_generated_sound store req env hval halias fuel o hshort
    subst ho
    obtain ⟨hdoc, _⟩ := createUrl_created store req env _ _ doc hcreated
    have hcode : doc.urlCode = generateShortCodeLoop env.rnd 6 (6 * k) "" := by
      rw [hdoc]; rfl
    obtain ⟨h1, h2⟩ := generateShortCodeLoop_spec env.rnd hrnd 6 (6 * k) ""
    rw [hcode]
    refine ⟨by simpa using h1, ?_⟩
    intro c hc
    rcases h2 c hc with h | h
    · simp at h
    · exact h
  · intro a ha hne
    rw [shortenUrl_alias_shape fuel store req env a hval ha hne] at hshort
    cases hvalid : isValidCustomAlias a with
    | false =>
      simp only [hvalid, Bool.not_false, ↓reduceIte, Option.some.injEq] at hshort
      rw [← hshort] at hcreated
      cases hcreated
    | true =>
      simp only [hvalid, Bool.not_true, Bool.false_eq_true, ↓reduceIte] at hshort
      cases hf : findOne store (.codeOrAlias a) with
      | some url =>
        simp only [hf, Option.some.injEq] at hshort
        rw [← hshort] at hcreated
        cases hcreated
      | none =>
        simp only [hf, Option.some.injEq] at hshort
        subst hshort
        obtain ⟨hdoc, _⟩ := createUrl_created store req env _ _ doc hcreated
        refine ⟨by rw [hdoc]; rfl, (isValidCustomAlias_eq_true_iff a).mp hvalid⟩
  · intro coll visit clock hids
    exact redirectUrl_keeps (fun d => (d.id, d.urlCode)) (fun _ _ _ _ => rfl) coll visit clock hids

theorem C13_code_shape_and_stability_witness :
    shortenUrl 1 [promoUrl] plainShorten sampleEnv
      = some ⟨.created createdUrl, [promoUrl, createdUrl],
          [.findOne (.code "abc123"), .insert createdUrl]⟩ ∧
    (∀ i, sampleEnv.rnd i < 62) ∧
    createdUrl.urlCode.length = 6 ∧
    (redirectUrl [promoUrl, createdUrl] sampleVisit sampleClock).store.map
        (fun d => (d.id, d.urlCode)) = [(2, "promo"), (3, "abc123")] :=
  ⟨by decide,
   fun i => by
    show [0, 1, 2, 53, 54, 55].getD i 7 < 62
    rcases i with _ | _ | _ | _ | _ | _ | _ <;> simp [List.getD],
   ((C13_code_shape_and_stability 1 [promoUrl] plainShorten sampleEnv
      ⟨.created createdUrl, [promoUrl, createdUrl],
        [.findOne (.code "abc123"), .insert createdUrl]⟩
      createdUrl (by decide) rfl).1 (Or.inl rfl)
      (fun i => by
        show [0, 1, 2, 53, 54, 55].getD i 7 < 62
        rcases i with _ | _ | _ | _ | _ | _ | _ <;> simp [List.getD])).1,
   by decide⟩

/-- C13 as stated fails: with the alias `promo`, and with the alias `my-link`, `shortenUrl`
creates a record whose `urlCode` is the alias itself, which has 5 characters in the first case
and holds a hyphen in the second. -/
theorem C13_counterexample :
    shortenUrl 0 [] promoShorten sampleEnv
      = some ⟨.created (newUrlDoc promoShorten sampleEnv "promo"),
          [newUrlDoc promoShorten sampleEnv "promo"],
          [.findOne (.codeOrAlias "promo"),
           .insert (newUrlDoc promoShorten sampleEnv "promo")]⟩ ∧
    (newUrlDoc promoShorten sampleEnv "promo").urlCode = "promo" ∧
    (newUrlDoc promoShorten sampleEnv "promo").urlCode.length = 5 ∧
    shortenUrl 0 [] { plainShorten with customAlias := some "my-link" } sampleEnv
      = some ⟨.created (newUrlDoc { plainShorten with customAlias := some "my-link" }
            sampleEnv "my-link"),
          [newUrlDoc { plainShorten with customAlias := some "my-link" } sampleEnv "my-link"],
          [.findOne (.codeOrAlias "my-link"),
           .insert (newUrlDoc { plainShorten with customAlias := some "my-link" }
            sampleEnv "my-link")]⟩ ∧
    (newUrlDoc { plainShorten with customAlias := some "my-link" } sampleEnv "my-link").urlCode
      = "my-link" ∧
    ¬ (∀ c ∈ "my-link".data, c ∈ chars.data) := by
  decide

/-! ## Rejected writes -/

/-- C14, as amended: when the lookup returns a record that is not expired and the store rejects
the write of `addClick`, `redirectUrl` answers 500 `Server error during redirect`; it sends no
redirect, and the collection is unchanged. -/
theorem C14_failed_click_save (store : Store) (req : RedirectReq) (env : RedirectEnv)
    (url : UrlDoc)
    (hfind : findOne store (.activeCodeOrAlias req.code) = some url)
    (hexp : isExpired url env.nowExpiry = false)
    (hsave : env.saveOk = false) :
    (redirectUrl store req env).response = .json 500 "Server error during redirect" ∧
    (redirectUrl store req env).response.status = 500 ∧
    (∀ location, (redirectUrl store req env).response ≠ .redirect location) ∧
    (redirectUrl store req env).store = store := by
  obtain ⟨hresp, hstore⟩ := redirectUrl_of_rejected store req env url hfind hexp (fun _ => hsave)
  rw [hresp, hstore]
  refine ⟨rfl, rfl, ?_, rfl⟩
  intro location h
  cases h

theorem C14_failed_click_save_witness :
    findOne [sampleUrl] (.activeCodeOrAlias sampleVisit.code) = some sampleUrl ∧
    isExpired sampleUrl downClock.nowExpiry = false ∧
    (redirectUrl [sampleUrl] sampleVisit downClock).response
      = .json 500 "Server error during redirect" ∧
    (redirectUrl [sampleUrl] sampleVisit downClock).store = [sampleUrl] :=
  ⟨by decide, by decide,
   (C14_failed_click_save [sampleUrl] sampleVisit downClock sampleUrl
      (by decide) (by decide) rfl).1,
   (C14_failed_click_save [sampleUrl] sampleVisit downClock sampleUrl
      (by decide) (by decide) rfl).2.2.2⟩

/-- C14 as stated fails: for the active, unexpired `sampleUrl`, a visit whose click write the
store rejects is not redirected to `originalUrl` but answered with status 500. -/
theorem C14_counterexample :
    sampleUrl.isActive = true ∧
    isExpired sampleUrl downClock.nowExpiry = false ∧
    downClock.saveOk = false ∧
    findOne [sampleUrl] (.activeCodeOrAlias sampleVisit.code) = some sampleUrl ∧
    (redirectUrl [sampleUrl] sampleVisit downClock).response ≠ .redirect sampleUrl.originalUrl ∧
    (redirectUrl [sampleUrl] sampleVisit downClock).response.status = 500 := by
  decide

theorem shortenUrl_cases (fuel : Nat) (store : Store) (req : ShortenReq) (env : ShortenEnv)
    (o : Outcome) (h : shortenUrl fuel store req env = some o) :
    ((∀ d, StoreOp.insert d ∉ o.ops) ∧ o.store = store ∧ o.response.status = 400) ∨
    ∃ code ops, o = createUrl store req env code ops ∧ (∀ d, StoreOp.insert d ∉ ops) := by
  unfold shortenUrl at h
  split_ifs at h with hval
  · cases h
    exact Or.inl ⟨(fun d hd => by cases hd), rfl, rfl⟩
  · cases halias : jsOr req.customAlias none with
    | some a =>
      simp only [halias] at h
      split_ifs at h with hvalid
      · cases h
        exact Or.inl ⟨(fun d hd => by cases hd), rfl, rfl⟩
      · cases hf : findOne store (.codeOrAlias a) with
        | some url =>
          simp only [hf] at h
          cases h
          exact Or.inl ⟨(fun d hd => by simp at hd), rfl, rfl⟩
        | none =>
          simp only [hf, Option.some.injEq] at h
          exact Or.inr ⟨a, _, h.symm, (fun d hd => by simp at hd)⟩
    | none =>
      simp only [halias] at h
      cases hloop : uniqueCodeLoop store env.rnd fuel 0 with
      | none => simp [hloop] at h
      | some r =>
        obtain ⟨k, _, _, _, _, h4⟩ := uniqueCodeLoop_sound store env.rnd fuel 0 r hloop
        obtain ⟨code, ops⟩ := r
        simp only [hloop, Option.some.injEq] at h
        refine Or.inr ⟨code, ops, h.symm, ?_⟩
        intro d hd
        simp only at h4
        rw [h4] at hd
        simp at hd

/-- C15, as amended: when `shortenUrl` has sent the insert of the new record and the store
rejects it (by its verdict, or because the `_id` is taken), the answer is the generic 500
`Server error creating short URL`; there is no typed alias-collision answer and no regeneration,
the rejected insert being the only insert and the last store call; the collection is unchanged. -/
theorem C15_rejected_insert (fuel : Nat) (store : Store) (req : ShortenReq) (env : ShortenEnv)
    (o : Outcome) (doc : UrlDoc)
    (hshort : shortenUrl fuel store req env = some o)
    (hsent : StoreOp.insert doc ∈ o.ops)
    (hrej : env.storeAccepts = false ∨ ∃ d ∈ store, d.id = env.newId) :
    o.response = .json 500 "Server error creating short URL" ∧
    o.response.status = 500 ∧
    o.store = store ∧
    ∃ ops, o.ops = ops ++ [.insert doc] ∧ ∀ d, StoreOp.insert d ∉ ops := by
  rcases shortenUrl_cases fuel store req env o hshort with ⟨h, _, _⟩ | ⟨code, ops, ho, hops⟩
  · exact absurd hsent (h doc)
  · have hreject : (store.any (fun d => d.id == (newUrlDoc req env code).id)
        || !env.storeAccepts) = true := by
      rcases hrej with h | ⟨d, hd, hid⟩
      · simp [h]
      · simp only [Bool.or_eq_true, List.any_eq_true, beq_iff_eq]
        exact Or.inl ⟨d, hd, hid⟩
    subst ho
    unfold createUrl at hsent ⊢
    simp only at hsent ⊢
    split_ifs at hsent ⊢ with hschema
    · exact absurd hsent (hops doc)
    · refine ⟨rfl, rfl, rfl, ops, ?_, hops⟩
      rcases List.mem_append.mp hsent with h | h
      · exact absurd h (hops doc)
      · rw [List.mem_singleton.mp h]

theorem C15_rejected_insert_witness :
    shortenUrl 0 [] promoShorten refusingEnv
      = some ⟨.json 500 "Server error creating short URL", [],
          [.findOne (.codeOrAlias "promo"),
           .insert (newUrlDoc promoShorten refusingEnv "promo")]⟩ ∧
    refusingEnv.storeAccepts = false ∧
    (Response.json 500 "Server error creating short URL").status = 500 :=
  ⟨by decide, rfl,
   (C15_rejected_insert 0 [] promoShorten refusingEnv
      ⟨.json 500 "Server error creating short URL", [],
        [.findOne (.codeOrAlias "promo"),
         .insert (newUrlDoc promoShorten refusingEnv "promo")]⟩
      (newUrlDoc promoShorten refusingEnv "promo") (by decide) (by decide) (Or.inl rfl)).2.1⟩

/-- C15 as stated fails: when the store rejects the insert, on the alias path and on the path
without alias alike, the answer is the generic 500 and not a 400, and the handler stops after
the one rejected insert without generating another code. -/
theorem C15_counterexample :
    (shortenUrl 0 [] promoShorten refusingEnv
      = some ⟨.json 500 "Server error creating short URL", [],
          [.findOne (.codeOrAlias "promo"),
           .insert (newUrlDoc promoShorten refusingEnv "promo")]⟩) ∧
    (shortenUrl 5 [] plainShorten refusingEnv
      = some ⟨.json 500 "Server error creating short URL", [],
          [.findOne (.code "abc123"),
           .insert (newUrlDoc plainShorten refusingEnv "abc123")]⟩) ∧
    (Response.json 500 "Server error creating short URL").status ≠ 400 ∧
    Response.json 500 "Server error creating short URL"
      ≠ .json 400 "Custom alias already exists" := by
  decide

/-! ## The generation loop has no bound -/

theorem uniqueCodeLoop_stuck (store : Store) (rnd : Nat → Nat) :
    ∀ (fuel pos : Nat),
      (∀ k, findOne store (.code (generateShortCode none rnd (pos + 6 * k))) ≠ none) →
      uniqueCodeLoop store rnd fuel pos = none := by
  intro fuel
  induction fuel with
  | zero => intro pos _; rfl
  | succ fuel ih =>
    intro pos hall
    have h0 := hall 0
    simp only [Nat.mul_zero, Nat.add_zero] at h0
    obtain ⟨url, hurl⟩ := Option.ne_none_iff_exists'.mp h0
    have hrec := ih (pos + 6) (fun k => by
      have := hall (k + 1)
      rwa [show pos + 6 * (k + 1) = pos + 6 + 6 * k by omega] at this)
    unfold uniqueCodeLoop
    simp only [hurl, hrec, Option.map_none']

theorem generateShortCodeLoop_const (v : Nat) : ∀ (n pos : Nat) (result : String),
    generateShortCodeLoop (fun _ => v) n pos result
      = generateShortCodeLoop (fun _ => v) n 0 result := by
  intro n
  induction n with
  | zero => intro pos result; rfl
  | succ n ih =>
    intro pos result
    unfold generateShortCodeLoop
    rw [ih (pos + 1), ih (0 + 1)]

theorem createUrl_status (store : Store) (req : ShortenReq) (env : ShortenEnv) (code : String)
    (ops : List StoreOp) :
    (createUrl store req env code ops).response.status = 201 ∨
    (createUrl store req env code ops).response = .json 500 "Server error creating short URL" := by
  unfold createUrl
  simp only
  split_ifs
  · exact Or.inr rfl
  · exact Or.inr rfl
  · exact Or.inl rfl

/-- C16, as amended: on the path without alias the loop of `shortenUrl` has no retry cap. When
candidate `k` is the first one that is no stored `urlCode`, the handler answers after exactly
`k + 1` lookups, however large `k` is; when every candidate is a stored `urlCode` the handler
never answers, whatever number of iterations it is allowed; and an answer on this path is
always the 201 or the generic 500 of the insert, never a failure for exhausted retries. -/
theorem C16_no_retry_cap (store : Store) (req : ShortenReq) (env : ShortenEnv)
    (hval : req.validationErrors = [])
    (halias : req.customAlias = none ∨ req.customAlias = some "") :
    (∀ k, (∀ d ∈ store, d.urlCode ≠ candidate env.rnd k) →
      (∀ j, j < k → ∃ d ∈ store, d.urlCode = candidate env.rnd j) →
      ∀ fuel, k < fuel →
        shortenUrl fuel store req env
          = some (createUrl store req env (candidate env.rnd k) (lookups env.rnd k)) ∧
        (lookups env.rnd k).length = k + 1) ∧
    ((∀ k, ∃ d ∈ store, d.urlCode = candidate env.rnd k) →
      ∀ fuel, shortenUrl fuel store req env = none) ∧
    (∀ fuel o, shortenUrl fuel store req env = some o →
      o.response.status = 201 ∨ o.response = .json 500 "Server error creating short URL") := by
  refine ⟨?_, ?_, ?_⟩
  · intro k hfree hprev fuel hfuel
    refine ⟨?_, by simp [lookups]⟩
    rw [shortenUrl_generated_shape store req env hval halias]
    have := uniqueCodeLoop_complete store env.rnd k 0
      (by simpa using (findOne_code_eq_none_iff store _).mpr hfree)
      (fun j hj => by simpa using (findOne_code_ne_none_iff store _).mpr (hprev j hj)) fuel hfuel
    simp only [Nat.zero_add] at this
    rw [this]
    rfl
  · intro hall fuel
    rw [shortenUrl_generated_shape store req env hval halias]
    have := uniqueCodeLoop_stuck store env.rnd fuel 0
      (fun k => by simpa using (findOne_code_ne_none_iff store _).mpr (hall k))
    rw [this]
  · intro fuel o ho
    obtain ⟨k, _, _, _, ho'⟩ := shortenUrl_generated_sound store req env hval halias fuel o ho
    rw [ho']
    exact createUrl_status store req env _ _

theorem C16_no_retry_cap_witness :
    plainShorten.validationErrors = [] ∧
    (∀ d ∈ [stuckUrl], d.urlCode ≠ candidate slowEnv.rnd 11) ∧
    (∀ j, j < 11 → ∃ d ∈ [stuckUrl], d.urlCode = candidate slowEnv.rnd j) ∧
    shortenUrl 12 [stuckUrl] plainShorten slowEnv
      = some (createUrl [stuckUrl] plainShorten slowEnv (candidate slowEnv.rnd 11)
          (lookups slowEnv.rnd 11)) ∧
    (lookups slowEnv.rnd 11).length = 12 :=
  ⟨rfl, by decide, by decide,
   ((C16_no_retry_cap [stuckUrl] plainShorten slowEnv rfl (Or.inl rfl)).1 11
      (by decide) (by decide) 12 (by decide)).1,
   by decide⟩

/-- C16 as stated fails: with `hhhhhh` stored and a random source that spells `hhhhhh` forever,
eleven iterations and any other number of iterations end without an answer, so there is no cap
and no failure answer; and with a source that spells `hhhhhh` eleven times and then `aaaaaa`, the
handler makes twelve lookups and creates the record. -/
theorem C16_counterexample :
    (∀ k, candidate stuckEnv.rnd k = "hhhhhh") ∧
    shortenUrl 11 [stuckUrl] plainShorten stuckEnv = none ∧
    (∀ fuel, shortenUrl fuel [stuckUrl] plainShorten stuckEnv = none) ∧
    (∃ o, shortenUrl 12 [stuckUrl] plainShorten slowEnv = some o ∧
      o.response.status = 201 ∧ o.ops.length = 13) := by
  have hcand : ∀ k, candidate stuckEnv.rnd k = "hhhhhh" := by
    intro k
    show generateShortCodeLoop (fun _ => 7) 6 (6 * k) "" = "hhhhhh"
    rw [generateShortCodeLoop_const]
    decide
  have hstuck : ∀ fuel, shortenUrl fuel [stuckUrl] plainShorten stuckEnv = none := by
    intro fuel
    rw [shortenUrl_generated_shape [stuckUrl] plainShorten stuckEnv rfl (Or.inl rfl)]
    have := uniqueCodeLoop_stuck [stuckUrl] stuckEnv.rnd fuel 0 (fun k => by
      have hk := hcand k
      unfold candidate at hk
      rw [Nat.zero_add, hk]
      decide)
    rw [this]
  exact ⟨hcand, hstuck 11, hstuck, ⟨_, rfl, by decide, by decide⟩⟩

/-! ## Click events -/

theorem orDefault_ne_empty (v : Option String) (d : String) (hd : d ≠ "") :
    orDefault v d ≠ "" := by
  unfold orDefault
  cases v with
  | none => exact hd
  | some s =>
    by_cases hs : s = ""
    · simp only [hs, ↓reduceIte]; exact hd
    · simp only [hs, ↓reduceIte]; exact hs

/-- C17: the entry that `addClick` appends has `ip` equal to `clickData.ip` when that is present
and non-empty and `unknown` otherwise, `userAgent` likewise with `unknown`, and `referrer`
likewise with `direct`; for the empty `clickData` it is `unknown`, `unknown`, `direct`. So all
three fields are non-empty, an accepted `addClick` on a history that the array can still extend
returns the history with that entry appended, and in every collection reached from the empty one
every stored click event has a non-empty `ip`, `userAgent` and `referrer`. -/
theorem C17_click_fields_present :
    (∀ (url : UrlDoc) (clickData : ClickData) (now : Nat),
      ∃ e : ClickEvent,
        (applyClick url clickData now).clickHistory = url.clickHistory ++ [e] ∧
        e.timestamp = now ∧
        e.ip = (match clickData.ip with
          | some s => if s = "" then "unknown" else s
          | none => "unknown") ∧
        e.userAgent = (match clickData.userAgent with
          | some s => if s = "" then "unknown" else s
          | none => "unknown") ∧
        e.referrer = (match clickData.referrer with
          | some s => if s = "" then "direct" else s
          | none => "direct") ∧
        e.ip ≠ "" ∧ e.userAgent ≠ "" ∧ e.referrer ≠ "" ∧
        ∀ (store : Store) (nowSave : Nat), url.clickHistory.length < maxArrayLength →
          (addClick store url clickData now nowSave true).map (fun r => r.1.clickHistory)
            = some (url.clickHistory ++ [e])) ∧
    (∀ (url : UrlDoc) (now : Nat),
      (applyClick url ⟨none, none, none⟩ now).clickHistory
        = url.clickHistory ++ [⟨now, "unknown", "unknown", "direct"⟩]) ∧
    (∀ (url : UrlDoc) (now : Nat),
      (applyClick url ⟨some "", some "", some ""⟩ now).clickHistory
        = url.clickHistory ++ [⟨now, "unknown", "unknown", "direct"⟩]) ∧
    (∀ (reqs : List Request), ∀ d ∈ run [] reqs, ∀ e ∈ d.clickHistory,
      e.ip ≠ "" ∧ e.userAgent ≠ "" ∧ e.referrer ≠ "") := by
  refine ⟨?_, fun _ _ => rfl, fun _ _ => rfl, ?_⟩
  · intro url clickData now
    refine ⟨⟨now, orDefault clickData.ip "unknown", orDefault clickData.userAgent "unknown",
      orDefault clickData.referrer "direct"⟩, rfl, rfl, rfl, rfl, rfl,
      orDefault_ne_empty _ _ (by decide), orDefault_ne_empty _ _ (by decide),
      orDefault_ne_empty _ _ (by decide), ?_⟩
    intro store nowSave hroom
    simp [addClick, save, hroom, applyClick, clickEvent]
  · intro reqs
    apply run_preserves (fun d => ∀ e ∈ d.clickHistory,
      e.ip ≠ "" ∧ e.userAgent ≠ "" ∧ e.referrer ≠ "")
    · intro req env code _ e he
      cases he
    · intro url clickData t1 t2 h _ e he
      simp only [savedDoc, applyClick, clickEvent, List.mem_append, List.mem_singleton] at he
      rcases he with he | he
      · exact h e he
      · rw [he]
        exact ⟨orDefault_ne_empty _ _ (by decide), orDefault_ne_empty _ _ (by decide),
          orDefault_ne_empty _ _ (by decide)⟩
    · exact storeInv_nil
    · intro d hd
      cases hd

theorem step_chronological (store : Store) (r : Request) (rest : List Request)
    (hids : (store.map (fun d => d.id)).Nodup)
    (hclock : (clickTimes (r :: rest)).Pairwise (fun a b => a ≤ b))
    (hstore : ∀ d ∈ store, (timestamps d).Pairwise (fun a b => a ≤ b) ∧
      ∀ t ∈ timestamps d, ∀ u ∈ clickTimes (r :: rest), t ≤ u) :
    (clickTimes rest).Pairwise (fun a b => a ≤ b) ∧
    ∀ d ∈ step store r, (timestamps d).Pairwise (fun a b => a ≤ b) ∧
      ∀ t ∈ timestamps d, ∀ u ∈ clickTimes rest, t ≤ u := by
  cases r with
  | shorten fuel req env =>
    refine ⟨hclock, ?_⟩
    intro d hd
    change d ∈ (match shortenUrl fuel store req env with
      | some o => o.store
      | none => store) at hd
    cases hs : shortenUrl fuel store req env with
    | none =>
      simp only [hs] at hd
      exact hstore d hd
    | some o =>
      simp only [hs] at hd
      rcases shortenUrl_store fuel store req env o hs with h | ⟨code, h, _⟩
      · rw [h] at hd; exact hstore d hd
      · rw [h] at hd
        rcases List.mem_append.mp hd with h1 | h1
        · exact hstore d h1
        · rw [List.mem_singleton.mp h1]
          exact ⟨List.Pairwise.nil, fun t ht => by cases ht⟩
  | redirect req env =>
    have hc : (env.nowClick :: clickTimes rest).Pairwise (fun a b => a ≤ b) := hclock
    rw [List.pairwise_cons] at hc
    obtain ⟨hhead, htail⟩ := hc
    have hsub : ∀ d ∈ store, (timestamps d).Pairwise (fun a b => a ≤ b) ∧
        ∀ t ∈ timestamps d, ∀ u ∈ clickTimes rest, t ≤ u := by
      intro d hd
      refine ⟨(hstore d hd).1, fun t ht u hu => (hstore d hd).2 t ht u ?_⟩
      exact List.mem_cons_of_mem _ hu
    refine ⟨htail, ?_⟩
    intro d hd
    change d ∈ (redirectUrl store req env).store at hd
    rcases redirectUrl_mem store req env hids d hd with h1 | ⟨url, hurl, _, h1⟩
    · exact hsub d h1
    · have hts : timestamps d = timestamps url ++ [env.nowClick] := by
        rw [h1]
        simp [timestamps, savedDoc, applyClick, clickEvent]
      have hurl' := hstore url hurl
      rw [hts]
      refine ⟨?_, ?_⟩
      · rw [List.pairwise_append]
        refine ⟨hurl'.1, List.pairwise_singleton _ _, ?_⟩
        intro a ha b hb
        rw [List.mem_singleton.mp hb]
        exact hurl'.2 a ha env.nowClick (List.mem_cons_self _ _)
      · intro t ht u hu
        rcases List.mem_append.mp ht with h2 | h2
        · exact hurl'.2 t h2 u (List.mem_cons_of_mem _ hu)
        · rw [List.mem_singleton.mp h2]
          exact hhead u hu
  | delete id userId =>
    refine ⟨hclock, ?_⟩
    intro d hd
    change d ∈ (deleteUrl store id userId).store at hd
    exact hstore d (deleteUrl_store store id userId d hd)

theorem run_chronological (reqs : List Request) :
    ∀ store : Store, StoreInv store → (clickTimes reqs).Pairwise (fun a b => a ≤ b) →
      (∀ d ∈ store, (timestamps d).Pairwise (fun a b => a ≤ b) ∧
        ∀ t ∈ timestamps d, ∀ u ∈ clickTimes reqs, t ≤ u) →
      ∀ d ∈ run store reqs, (timestamps d).Pairwise (fun a b => a ≤ b) := by
  induction reqs with
  | nil => intro store _ _ hstore d hd; exact (hstore d hd).1
  | cons r rest ih =>
    intro store hinv hclock hstore d hd
    obtain ⟨h1, h2⟩ := step_chronological store r rest hinv.1 hclock hstore
    exact ih (step store r) (step_storeInv store hinv r) h1 h2 d hd

/-- C18: `addClick` only appends: the `clickHistory` before the call is a prefix of the one
after it, which is longer by exactly the new entry, placed last and stamped with the clock, and
`clicks` does not decrease. When the clock values read by `addClick` do not decrease from one
request to the next, the timestamps of every record's `clickHistory`, in every collection
reached from the empty one, are in non-decreasing order. -/
theorem C18_history_append_only (reqs : List Request)
    (hclock : (clickTimes reqs).Pairwise (fun a b => a ≤ b)) :
    (∀ d ∈ run [] reqs, (timestamps d).Pairwise (fun a b => a ≤ b)) ∧
    (∀ (url : UrlDoc) (clickData : ClickData) (now : Nat),
      url.clickHistory <+: (applyClick url clickData now).clickHistory ∧
      (∃ e : ClickEvent, e.timestamp = now ∧
        (applyClick url clickData now).clickHistory = url.clickHistory ++ [e] ∧
        (applyClick url clickData now).clickHistory.getLast? = some e) ∧
      url.clicks ≤ (applyClick url clickData now).clicks) ∧
    (∀ (store : Store) (url : UrlDoc) (clickData : ClickData) (t1 t2 : Nat) (ok : Bool)
        (saved : UrlDoc) (store' : Store),
      addClick store url clickData t1 t2 ok = some (saved, store') →
      url.clickHistory <+: saved.clickHistory ∧
      saved.clickHistory.length = url.clickHistory.length + 1 ∧
      url.clicks ≤ saved.clicks) := by
  refine ⟨?_, ?_, ?_⟩
  · exact run_chronological reqs [] storeInv_nil hclock (fun d hd => by cases hd)
  · intro url clickData now
    refine ⟨⟨_, rfl⟩, ⟨_, rfl, rfl, ?_⟩, ?_⟩
    · simp [applyClick]
    · exact le_jsIncrement url.clicks
  · intro store url clickData t1 t2 ok saved store' h
    obtain ⟨hroom, hok⟩ := addClick_isSome store url clickData t1 t2 ok _ h
    subst hok
    unfold addClick save at h
    simp only [hroom, ↓reduceIte, Option.some.injEq, Prod.mk.injEq] at h
    obtain ⟨h1, _⟩ := h
    rw [← h1]
    refine ⟨⟨_, rfl⟩, ?_, ?_⟩
    · simp [applyClick]
    · exact le_jsIncrement url.clicks

theorem C18_history_append_only_witness :
    (clickTimes sampleSession).Pairwise (fun a b => a ≤ b) ∧
    visitedUrl ∈ run [] sampleSession ∧
    timestamps visitedUrl = [1001, 1001] ∧
    (timestamps visitedUrl).Pairwise (fun a b => a ≤ b) :=
  ⟨by decide, by decide, by decide,
   (C18_history_append_only sampleSession (by decide)).1 visitedUrl (by decide)⟩

/-! ## Frame of a redirect -/

/-- C19, as amended: in a collection with distinct `_id`s, a `redirectUrl` request either
leaves the collection as it is, or replaces the one record it resolved, in place, by the same
record with `clicks` set to the Number `clicks + 1` (one higher when `clicks` is below 2^53), one
entry appended to `clickHistory`, `updatedAt` set to the time of the save and the version key
`__v` one higher. So the record's `_id`, `urlCode`, `customAlias`, `shortUrl`, `originalUrl`,
`userId`, `expiresAt`, `isActive` and `createdAt` are unchanged, every other record is unchanged,
and no record is added or removed. -/
theorem C19_redirect_frame (store : Store) (req : RedirectReq) (env : RedirectEnv)
    (hids : (store.map (fun d => d.id)).Nodup) :
    ((redirectUrl store req env).store = store ∨
      ∃ (l1 : Store) (url : UrlDoc) (l2 : Store) (e : ClickEvent),
        store = l1 ++ url :: l2 ∧
        findOne store (.activeCodeOrAlias req.code) = some url ∧
        (url.clicks < 9007199254740992 → jsIncrement url.clicks = url.clicks + 1) ∧
        (redirectUrl store req env).store = l1 ++
          { url with
            clicks := jsIncrement url.clicks
            clickHistory := url.clickHistory ++ [e]
            updatedAt := env.nowSave
            version := url.version + 1 } :: l2) ∧
    (redirectUrl store req env).store.map frameFields = store.map frameFields ∧
    (redirectUrl store req env).store.length = store.length := by
  refine ⟨?_, ?_, ?_⟩
  · rcases redirectUrl_frame store req env hids with h | ⟨l1, url, l2, h1, h2, _, _, _, h3⟩
    · exact Or.inl h
    · exact Or.inr ⟨l1, url, l2, clickEvent (clickDataOf req) env.nowClick, h1, h2,
        jsIncrement_of_lt url.clicks, h3⟩
  · exact redirectUrl_keeps frameFields (fun _ _ _ _ => rfl) store req env hids
  · have := congrArg List.length
      (redirectUrl_keeps frameFields (fun _ _ _ _ => rfl) store req env hids)
    simpa using this

theorem C19_redirect_frame_witness :
    ([promoUrl, sampleUrl].map (fun d => d.id)).Nodup ∧
    (redirectUrl [promoUrl, sampleUrl] sampleVisit sampleClock).store =
      [promoUrl,
       { sampleUrl with
         clicks := 3
         clickHistory := sampleUrl.clickHistory ++
           [{ timestamp := 1001, ip := "10.0.0.1", userAgent := "unknown", referrer := "direct" }]
         updatedAt := 1002
         version := 3 }] ∧
    (redirectUrl [promoUrl, sampleUrl] sampleVisit sampleClock).store.map frameFields
      = [promoUrl, sampleUrl].map frameFields :=
  ⟨by decide, by decide,
   (C19_redirect_frame [promoUrl, sampleUrl] sampleVisit sampleClock (by decide)).2.1⟩

/-- C19 as stated fails: after a visit of `sampleUrl`, the stored record differs from the old
one with only `clicks` and `clickHistory` replaced, because its `updatedAt` went from 300 to
1002 and its version key `__v` from 2 to 3. -/
theorem C19_counterexample :
    (redirectUrl [sampleUrl] sampleVisit sampleClock).store ≠
      [{ sampleUrl with
         clicks := 3
         clickHistory := sampleUrl.clickHistory ++
           [{ timestamp := 1001, ip := "10.0.0.1", userAgent := "unknown",
              referrer := "direct" }] }] ∧
    [sampleUrl].map (fun d => d.updatedAt) = [300] ∧
    (redirectUrl [sampleUrl] sampleVisit sampleClock).store.map (fun d => d.updatedAt)
      = [1002] ∧
    [sampleUrl].map (fun d => d.version) = [2] ∧
    (redirectUrl [sampleUrl] sampleVisit sampleClock).store.map (fun d => d.version)
      = [3] := by
  decide

/-! ## Analytics -/

theorem lastClicked_eq_getLast (h : List ClickEvent) :
    lastClicked h = h.getLast?.map (fun e => e.timestamp) := by
  unfold lastClicked
  cases h with
  | nil => rfl
  | cons x t =>
    rw [if_pos (by simp), List.getLast?_eq_getElem?, List.get?_eq_getElem?]

theorem findOne_idOwner_of_mem (store : Store) (url : UrlDoc)
    (hids : (store.map (fun d => d.id)).Nodup) (hmem : url ∈ store) :
    findOne store (.idOwner url.id url.userId) = some url := by
  cases hf : findOne store (.idOwner url.id url.userId) with
  | none =>
    have := findOne_none store _ hf url hmem
    simp [Filter.matches] at this
  | some d =>
    obtain ⟨hd, hm⟩ := findOne_some store _ d hf
    simp only [Filter.matches, Bool.and_eq_true, beq_iff_eq] at hm
    have := List.inj_on_of_nodup_map hids hd hmem hm.1
    rw [this]

/-- C20, as amended: in a collection with distinct `_id`s, for a stored record asked for by its
owner, `getUrlAnalytics` answers with `totalClicks` equal to the record's `clicks`,
`clickHistory` equal to its `clickHistory`, and `lastClicked` equal to the timestamp of the last
entry of `clickHistory`, or `null` when there is none; for a well-formed id that no stored record
has together with the requester as owner, it answers 404; and for an id that is not a well-formed
`ObjectId` it answers 500 `Server error fetching analytics`. The collection is unchanged in every
case. -/
theorem C20_analytics (store : Store) (url : UrlDoc)
    (hids : (store.map (fun d => d.id)).Nodup) (hmem : url ∈ store) :
    (getUrlAnalytics store (some url.id) url.userId).response
      = .analytics
          { totalClicks := url.clicks
            clickHistory := url.clickHistory
            createdAt := url.createdAt
            lastClicked := url.clickHistory.getLast?.map (fun e => e.timestamp) } ∧
    (url.clickHistory = [] →
      (getUrlAnalytics store (some url.id) url.userId).response
        = .analytics ⟨url.clicks, [], url.createdAt, none⟩) ∧
    (∀ id userId, (∀ d ∈ store, d.id = id → d.userId ≠ userId) →
      (getUrlAnalytics store (some id) userId).response = .json 404 "URL not found" ∧
      (getUrlAnalytics store (some id) userId).response.status = 404) ∧
    (∀ userId,
      (getUrlAnalytics store none userId).response
        = .json 500 "Server error fetching analytics" ∧
      (getUrlAnalytics store none userId).response.status = 500) ∧
    (∀ id userId, (getUrlAnalytics store id userId).store = store) := by
  have hfind := findOne_idOwner_of_mem store url hids hmem
  have hresp : (getUrlAnalytics store (some url.id) url.userId).response
      = .analytics
          { totalClicks := url.clicks
            clickHistory := url.clickHistory
            createdAt := url.createdAt
            lastClicked := url.clickHistory.getLast?.map (fun e => e.timestamp) } := by
    unfold getUrlAnalytics
    simp only [hfind, lastClicked_eq_getLast]
  refine ⟨hresp, ?_, ?_, fun _ => ⟨rfl, rfl⟩, ?_⟩
  · intro hempty
    rw [hresp, hempty]
    rfl
  · intro id userId hnone
    have hf : findOne store (.idOwner id userId) = none := by
      unfold findOne
      rw [List.find?_eq_none]
      intro d hd hm
      simp only [Filter.matches, Bool.and_eq_true, beq_iff_eq] at hm
      exact hnone d hd hm.1 hm.2
    have hout : getUrlAnalytics store (some id) userId
        = ⟨.json 404 "URL not found", store, [.findOne (.idOwner id userId)]⟩ := by
      unfold getUrlAnalytics
      simp only [hf]
    rw [hout]
    exact ⟨rfl, rfl⟩
  · intro id userId
    cases id with
    | none => rfl
    | some i =>
      unfold getUrlAnalytics
      cases hf : findOne store (.idOwner i userId) <;> simp only [hf]

theorem C20_analytics_witness :
    ([promoUrl, sampleUrl].map (fun d => d.id)).Nodup ∧ sampleUrl ∈ [promoUrl, sampleUrl] ∧
    (getUrlAnalytics [promoUrl, sampleUrl] (some 1) 7).response
      = .analytics
          { totalClicks := 2
            clickHistory := sampleUrl.clickHistory
            createdAt := 100
            lastClicked := some 300 } ∧
    (getUrlAnalytics [promoUrl, sampleUrl] (some 1) 8).response = .json 404 "URL not found" ∧
    (getUrlAnalytics [promoUrl, sampleUrl] (some 2) 7).response
      = .analytics ⟨0, [], 150, none⟩ :=
  ⟨by decide, by decide,
   (C20_analytics [promoUrl, sampleUrl] sampleUrl (by decide) (by decide)).1,
   by decide, by decide⟩

/-- C20 as stated fails: asked for an id that is not a well-formed `ObjectId`, which is the id
of no stored record, `getUrlAnalytics` answers 500 `Server error fetching analytics`, not 404. -/
theorem C20_counterexample :
    (∀ d ∈ [promoUrl, sampleUrl], some d.id ≠ (none : Option Nat)) ∧
    (getUrlAnalytics [promoUrl, sampleUrl] none 7).response
      = .json 500 "Server error fetching analytics" ∧
    (getUrlAnalytics [promoUrl, sampleUrl] none 7).response.status ≠ 404 ∧
    (getUrlAnalytics [promoUrl, sampleUrl] none 7).store = [promoUrl, sampleUrl] := by
  decide

/-! ## Expiry -/

/-- C21: `isExpired` is truthy exactly when `expiresAt` is set and the current time is strictly
after it. A record without `expiresAt` is expired at no time, and a record is not expired at the
instant equal to its `expiresAt`: a visit handled at that instant, whose lookup in a collection
with distinct `_id`s returns the record and whose write succeeds (the history array can still
grow and the store accepts the save), is redirected and its click is recorded: the history is one
entry longer and `clicks`, when below 2^53, is one higher. -/
theorem C21_isExpired_strict (url : UrlDoc) (now : Nat) :
    (isExpired url now = true ↔ ∃ e, url.expiresAt = some e ∧ e < now) ∧
    (url.expiresAt = none → isExpired url now = false) ∧
    (url.expiresAt = some now → isExpired url now = false) ∧
    (∀ (store : Store) (req : RedirectReq) (env : RedirectEnv),
      (store.map (fun d => d.id)).Nodup →
      findOne store (.activeCodeOrAlias req.code) = some url →
      url.expiresAt = some env.nowExpiry →
      url.clickHistory.length < maxArrayLength → env.saveOk = true →
      (redirectUrl store req env).response = .redirect url.originalUrl ∧
      ∃ url', (redirectUrl store req env).store.find? (fun d => d.id == url.id) = some url' ∧
        url'.clicks = jsIncrement url.clicks ∧
        (url.clicks < 9007199254740992 → url'.clicks = url.clicks + 1) ∧
        url'.clickHistory.length = url.clickHistory.length + 1) := by
  refine ⟨?_, ?_, ?_, ?_⟩
  · unfold isExpired
    cases he : url.expiresAt with
    | none => simp
    | some e => simp
  · intro h
    unfold isExpired
    rw [h]
  · intro h
    unfold isExpired
    rw [h]
    simp
  · intro store req env hids hfind hexp hroom hsave
    have hnot : isExpired url env.nowExpiry = false := by
      unfold isExpired
      rw [hexp]
      simp
    obtain ⟨l1, l2, h1, h2⟩ := updateOne_split url
      (applyUpdate (applyClick url (clickDataOf req) env.nowClick)
        (clickEvent (clickDataOf req) env.nowClick) env.nowSave) store hids
      (findOne_some store _ url hfind).1
    rw [applyUpdate_self] at h2
    rw [redirectUrl_of_found store req env url hfind hnot hroom hsave]
    show Response.redirect url.originalUrl = _ ∧
      ∃ url', (updateOne store url.id _).find? (fun d => d.id == url.id) = some url' ∧ _
    rw [h2]
    have hids' : ((l1 ++ savedDoc url (clickDataOf req) env.nowClick env.nowSave :: l2).map
        (fun d => d.id)).Nodup := by
      have := hids
      rw [h1] at this
      simpa [savedDoc, applyClick] using this
    refine ⟨rfl, savedDoc url (clickDataOf req) env.nowClick env.nowSave,
      find_id_split l1 l2 _ hids', rfl, ?_, ?_⟩
    · intro hsafe
      exact jsIncrement_of_lt url.clicks hsafe
    · simp [savedDoc, applyClick]

theorem C21_isExpired_strict_witness :
    isExpired sampleUrl 5000 = false ∧ isExpired sampleUrl 5001 = true ∧
    isExpired promoUrl 999999 = false ∧
    (redirectUrl [sampleUrl] sampleVisit edgeClock).response
      = .redirect "https://example.com/page" ∧
    (redirectUrl [sampleUrl] sampleVisit edgeClock).store.map (fun d => d.clicks) = [3] :=
  ⟨by decide, by decide, by decide,
   ((C21_isExpired_strict sampleUrl 5000).2.2.2 [sampleUrl] sampleVisit edgeClock
      (by decide) (by decide) rfl (by decide) rfl).1,
   by decide⟩

/-! ## The generated code as a function of the draws -/

theorem chars_nodup : chars.data.Nodup := by decide

theorem chars_length : chars.data.length = 62 := by decide

theorem charAt_chars_data (k : Nat) (hk : k < 62) :
    (charAt chars k).data = [chars.data.getD k 'a'] := by
  have hlen : k < chars.data.length := by rw [chars_length]; exact hk
  unfold charAt
  rw [List.get?_eq_getElem?, List.getElem?_eq_getElem hlen, List.getD_eq_getElem _ _ hlen]
  rfl

theorem generateShortCodeLoop_data (rnd : Nat → Nat) (n : Nat) :
    ∀ (pos : Nat) (result : String), (∀ i, i < n → rnd (pos + i) < 62) →
      (generateShortCodeLoop rnd n pos result).data
        = result.data ++ (List.range n).map (fun i => chars.data.getD (rnd (pos + i)) 'a') := by
  induction n with
  | zero => intro pos result _; simp [generateShortCodeLoop]
  | succ n ih =>
    intro pos result h
    have h0 : rnd pos < 62 := by simpa using h 0 (Nat.succ_pos n)
    have hshift : ∀ i, pos + 1 + i = pos + (i + 1) := fun i => by omega
    unfold generateShortCodeLoop
    rw [ih (pos + 1) _ (fun i hi => by rw [hshift]; exact h (i + 1) (Nat.succ_lt_succ hi)),
      String.data_append, charAt_chars_data _ h0, List.range_succ_eq_map, List.map_cons,
      List.map_map]
    simp only [Nat.add_zero, List.append_assoc, List.singleton_append, hshift]
    rfl

theorem generateShortCode_data (n : Nat) (rnd : Nat → Nat) (pos : Nat)
    (h : ∀ i, i < n → rnd (pos + i) < 62) :
    (generateShortCode (some n) rnd pos).data
      = (List.range n).map (fun i => chars.data.getD (rnd (pos + i)) 'a') := by
  unfold generateShortCode
  rw [Option.getD_some, generateShortCodeLoop_data rnd n pos "" h]
  rfl

theorem letter_injective (a b : Nat) (ha : a < 62) (hb : b < 62)
    (h : chars.data.getD a 'a' = chars.data.getD b 'a') : a = b := by
  have hla : a < chars.data.length := by rw [chars_length]; exact ha
  have hlb : b < chars.data.length := by rw [chars_length]; exact hb
  rw [List.getD_eq_getElem _ _ hla, List.getD_eq_getElem _ _ hlb] at h
  exact (chars_nodup.getElem_inj_iff).mp h

theorem generateShortCode_injective (n : Nat) (rnd rnd' : Nat → Nat) (pos : Nat)
    (h : ∀ i, i < n → rnd (pos + i) < 62) (h' : ∀ i, i < n → rnd' (pos + i) < 62)
    (heq : generateShortCode (some n) rnd pos = generateShortCode (some n) rnd' pos) :
    ∀ i, i < n → rnd (pos + i) = rnd' (pos + i) := by
  have hdata := congrArg String.data heq
  rw [generateShortCode_data n rnd pos h, generateShortCode_data n rnd' pos h',
    List.map_inj_left] at hdata
  intro i hi
  exact letter_injective _ _ (h i hi) (h' i hi) (hdata i (List.mem_range.mpr hi))

theorem generateShortCodeLoop_congr (rnd rnd' : Nat → Nat) (n : Nat) :
    ∀ (pos : Nat) (result : String), (∀ i, i < n → rnd (pos + i) = rnd' (pos + i)) →
      generateShortCodeLoop rnd n pos result = generateShortCodeLoop rnd' n pos result := by
  induction n with
  | zero => intro pos result _; rfl
  | succ n ih =>
    intro pos result h
    have h0 : rnd pos = rnd' pos := by simpa using h 0 (Nat.succ_pos n)
    unfold generateShortCodeLoop
    rw [h0]
    apply ih
    intro i hi
    have := h (i + 1) (Nat.succ_lt_succ hi)
    rwa [show pos + (i + 1) = pos + 1 + i by omega] at this

theorem indexStream_lt (n : Nat) (idx : Fin n → Fin 62) (i : Nat) : indexStream n idx i < 62 := by
  unfold indexStream
  split
  · exact (idx _).isLt
  · decide

theorem codeOfIndices_data (n : Nat) (idx : Fin n → Fin 62) :
    (codeOfIndices n idx).data
      = (List.range n).map (fun i => chars.data.getD (indexStream n idx i) 'a') := by
  unfold codeOfIndices
  rw [generateShortCode_data n _ 0 (fun i _ => indexStream_lt n idx _)]
  simp

theorem codeOfIndices_injective (n : Nat) : Function.Injective (codeOfIndices n) := by
  intro idx idx' heq
  have h := generateShortCode_injective n (indexStream n idx) (indexStream n idx') 0
    (fun i _ => indexStream_lt n idx _) (fun i _ => indexStream_lt n idx' _) heq
  funext ⟨i, hi⟩
  have hi' := h i hi
  simp only [Nat.zero_add, indexStream, hi, ↓reduceDIte] at hi'
  exact Fin.ext hi'

theorem codeOfIndices_surjective (n : Nat) (s : String) (hlen : s.length = n)
    (hs : ∀ c ∈ s.data, c ∈ chars.data) : ∃ idx, codeOfIndices n idx = s := by
  have hidx : ∀ i : Fin n, chars.data.indexOf (s.data.getD i.val 'a') < 62 := by
    intro i
    rw [← chars_length, List.indexOf_lt_length]
    have hi : i.val < s.data.length := by
      have : s.data.length = n := hlen
      omega
    rw [List.getD_eq_getElem _ _ hi]
    exact hs _ (List.getElem_mem hi)
  refine ⟨fun i => ⟨chars.data.indexOf (s.data.getD i.val 'a'), hidx i⟩, ?_⟩
  have hdata : (codeOfIndices n
      (fun i => ⟨chars.data.indexOf (s.data.getD i.val 'a'), hidx i⟩)).data = s.data := by
    rw [codeOfIndices_data]
    apply List.ext_getElem
    · simp only [List.length_map, List.length_range]
      exact hlen.symm
    · intro i h1 h2
      have hi : i < n := by simpa using h1
      have hmem : s.data[i] ∈ chars.data := hs _ (List.getElem_mem h2)
      have hlt : chars.data.indexOf s.data[i] < chars.data.length :=
        List.indexOf_lt_length.mpr hmem
      simp only [List.getElem_map, List.getElem_range, indexStream, hi, ↓reduceDIte,
        List.getD_eq_getElem _ _ h2, List.getD_eq_getElem _ _ hlt]
      exact List.getElem_indexOf hlt
  cases s with
  | mk sd =>
    cases hc : codeOfIndices n (fun i => ⟨chars.data.indexOf (List.getD sd i.val 'a'), hidx i⟩) with
    | mk cd =>
      rw [hc] at hdata
      simp only at hdata
      rw [hdata]

/-- C22: the alphabet has exactly 62 pairwise distinct characters, and with draws in [0, 62)
the `i`-th character of `generateShortCode(n)` is the alphabet character at the `i`-th index
drawn. So, for every `n`, sending an index sequence in [0, 62)^n to its code is injective and
its image is exactly the strings of length `n` over the alphabet: each such string is the code
of exactly one of the `62 ^ n` index sequences, which is what gives every code the same
probability under uniform independent draws. The result depends only on the `n` draws made. -/
theorem C22_generateShortCode_bijection :
    chars.data.length = 62 ∧ chars.data.Nodup ∧
    (∀ (n : Nat) (rnd : Nat → Nat) (pos : Nat), (∀ i, rnd i < 62) →
      (generateShortCode (some n) rnd pos).length = n ∧
      ∀ i, i < n →
        (generateShortCode (some n) rnd pos).data.get? i = chars.data.get? (rnd (pos + i))) ∧
    (∀ n, Function.Injective (codeOfIndices n)) ∧
    (∀ (n : Nat) (s : String),
      (∃ idx, codeOfIndices n idx = s) ↔ (s.length = n ∧ ∀ c ∈ s.data, c ∈ chars.data)) ∧
    (∀ (n : Nat) (s : String), s.length = n → (∀ c ∈ s.data, c ∈ chars.data) →
      (Finset.univ.filter (fun idx : Fin n → Fin 62 => codeOfIndices n idx = s)).card = 1) ∧
    (∀ n : Nat, Fintype.card (Fin n → Fin 62) = 62 ^ n) ∧
    (∀ (n : Nat) (rnd rnd' : Nat → Nat) (pos : Nat),
      (∀ i, i < n → rnd (pos + i) = rnd' (pos + i)) →
      generateShortCode (some n) rnd pos = generateShortCode (some n) rnd' pos) := by
  refine ⟨chars_length, chars_nodup, ?_, codeOfIndices_injective, ?_, ?_, ?_, ?_⟩
  · intro n rnd pos h
    have hdata := generateShortCode_data n rnd pos (fun i _ => h _)
    refine ⟨?_, ?_⟩
    · show (generateShortCode (some n) rnd pos).data.length = n
      rw [hdata]
      simp
    · intro i hi
      have hlt : rnd (pos + i) < chars.data.length := by rw [chars_length]; exact h _
      rw [hdata, List.get?_eq_getElem?, List.get?_eq_getElem?, List.getElem?_map,
        List.getElem?_range hi, List.getElem?_eq_getElem hlt, Option.map_some',
        List.getD_eq_getElem _ _ hlt]
  · intro n s
    constructor
    · rintro ⟨idx, rfl⟩
      have hdata := codeOfIndices_data n idx
      refine ⟨?_, ?_⟩
      · show (codeOfIndices n idx).data.length = n
        rw [hdata]
        simp
      · intro c hc
        rw [hdata] at hc
        obtain ⟨i, _, rfl⟩ := List.mem_map.mp hc
        have hlt : indexStream n idx i < chars.data.length := by
          rw [chars_length]; exact indexStream_lt n idx i
        rw [List.getD_eq_getElem _ _ hlt]
        exact List.getElem_mem hlt
    · rintro ⟨hlen, hs⟩
      exact codeOfIndices_surjective n s hlen hs
  · intro n s hlen hs
    obtain ⟨idx, hidx⟩ := codeOfIndices_surjective n s hlen hs
    rw [Finset.card_eq_one]
    refine ⟨idx, ?_⟩
    ext j
    simp only [Finset.mem_filter, Finset.mem_univ, true_and, Finset.mem_singleton]
    constructor
    · intro hj
      exact codeOfIndices_injective n (hj.trans hidx.symm)
    · intro hj
      rw [hj]
      exact hidx
  · intro n
    simp
  · intro n rnd rnd' pos h
    unfold generateShortCode
    exact generateShortCodeLoop_congr rnd rnd' n pos "" h

/-! ## The short URL -/

theorem charAt_chars_no_slash (k : Nat) :
    (charAt chars k).data ≠ [] ∧ ∀ c ∈ (charAt chars k).data, c ≠ '/' := by
  unfold charAt
  cases h : chars.data.get? k with
  | none => simp only; decide
  | some c =>
    simp only
    have hmem : c ∈ chars.data := List.get?_mem h
    have hall : ∀ d ∈ chars.data, d ≠ '/' := by decide
    refine ⟨by simp [String.singleton], ?_⟩
    intro d hd
    have : d = c := by simpa [String.singleton] using hd
    rw [this]
    exact hall c hmem

theorem generateShortCodeLoop_no_slash (rnd : Nat → Nat) (n : Nat) :
    ∀ (pos : Nat) (result : String),
      result.length + n ≤ (generateShortCodeLoop rnd n pos result).length ∧
      ∀ c ∈ (generateShortCodeLoop rnd n pos result).data, c ∈ result.data ∨ c ≠ '/' := by
  induction n with
  | zero =>
    intro pos result
    exact ⟨Nat.le_refl _, fun c hc => Or.inl hc⟩
  | succ n ih =>
    intro pos result
    obtain ⟨hne, hns⟩ := charAt_chars_no_slash (rnd pos)
    obtain ⟨hlen, hmem⟩ := ih (pos + 1) (result ++ charAt chars (rnd pos))
    unfold generateShortCodeLoop
    refine ⟨?_, ?_⟩
    · have h1 : 1 ≤ (charAt chars (rnd pos)).length := by
        show 1 ≤ (charAt chars (rnd pos)).data.length
        exact List.length_pos.mpr hne
      rw [String.length_append] at hlen
      omega
    · intro c hc
      rcases hmem c hc with h | h
      · rw [String.data_append, List.mem_append] at h
        rcases h with h | h
        · exact Or.inl h
        · exact Or.inr (hns c h)
      · exact Or.inr h

theorem generateShortCode_no_slash (length : Option Nat) (rnd : Nat → Nat) (pos : Nat)
    (hpos : 0 < length.getD 6) :
    generateShortCode length rnd pos ≠ "" ∧ '/' ∉ (generateShortCode length rnd pos).data := by
  obtain ⟨hlen, hmem⟩ := generateShortCodeLoop_no_slash rnd (length.getD 6) pos ""
  unfold generateShortCode
  refine ⟨?_, ?_⟩
  · intro h
    rw [h] at hlen
    have h0 : "".length = 0 := rfl
    omega
  · intro h
    rcases hmem '/' h with h1 | h1
    · simp at h1
    · exact h1 rfl

theorem isValidCustomAlias_no_slash (a : String) (h : isValidCustomAlias a = true) :
    a ≠ "" ∧ '/' ∉ a.data := by
  refine ⟨ne_empty_of_isValidCustomAlias a h, ?_⟩
  intro hs
  have hall := ((isValidCustomAlias_eq_true_iff a).mp h).2.2 '/' hs
  revert hall
  decide

theorem afterLastSlash_generateShortUrl (baseUrl code : String) (h : '/' ∉ code.data) :
    afterLastSlash (generateShortUrl baseUrl code) = code := by
  have hdata : (generateShortUrl baseUrl code).data = baseUrl.data ++ '/' :: code.data := by
    simp [generateShortUrl, String.data_append]
  have hall : ∀ c ∈ code.data.reverse, (c != '/') = true := by
    intro c hc
    rw [List.mem_reverse] at hc
    simp only [bne_iff_ne, ne_eq]
    intro hcs
    exact h (hcs ▸ hc)
  unfold afterLastSlash
  rw [hdata, List.reverse_append, List.reverse_cons, List.append_assoc,
    List.takeWhile_append_of_pos hall]
  simp

/-- C23, as amended: for every base URL and every code that `generateShortCode` produces with
a length of at least 1 (in particular the default 6 used by `shortenUrl`) or that
`isValidCustomAlias` accepts, `generateShortUrl(baseUrl, code)` is the base URL followed by `/`
and the code, the code is non-empty and holds no `/`, and the text after the last `/` of the
short URL is exactly the code; so for the document `shortenUrl` builds with that code, the
last path segment of `shortUrl` is its `urlCode`. -/
theorem C23_short_url_last_segment (baseUrl code : String)
    (hcode : (∃ (n : Nat) (rnd : Nat → Nat) (pos : Nat),
        0 < n ∧ code = generateShortCode (some n) rnd pos) ∨
      (∃ (rnd : Nat → Nat) (pos : Nat), code = generateShortCode none rnd pos) ∨
      isValidCustomAlias code = true) :
    generateShortUrl baseUrl code = baseUrl ++ "/" ++ code ∧
    code ≠ "" ∧ '/' ∉ code.data ∧
    afterLastSlash (generateShortUrl baseUrl code) = code ∧
    (∀ (req : ShortenReq) (env : ShortenEnv),
      afterLastSlash (newUrlDoc req env code).shortUrl = (newUrlDoc req env code).urlCode) := by
  have hns : code ≠ "" ∧ '/' ∉ code.data := by
    rcases hcode with ⟨n, rnd, pos, hn, rfl⟩ | ⟨rnd, pos, rfl⟩ | h
    · exact generateShortCode_no_slash (some n) rnd pos hn
    · exact generateShortCode_no_slash none rnd pos (by decide)
    · exact isValidCustomAlias_no_slash code h
  exact ⟨rfl, hns.1, hns.2, afterLastSlash_generateShortUrl baseUrl code hns.2,
    fun _ env => afterLastSlash_generateShortUrl env.baseUrl code hns.2⟩

theorem C23_short_url_last_segment_witness :
    generateShortCode none sampleEnv.rnd 0 = "abc123" ∧
    generateShortUrl "http://sho.rt/go" "abc123" = "http://sho.rt/go/abc123" ∧
    afterLastSlash (generateShortUrl "http://sho.rt/go" "abc123") = "abc123" ∧
    afterLastSlash (generateShortUrl "http://sho.rt/go" "my-link") = "my-link" :=
  ⟨by decide, by decide,
   (C23_short_url_last_segment "http://sho.rt/go" "abc123"
      (Or.inr (Or.inl ⟨sampleEnv.rnd, 0, by decide⟩))).2.2.2.1,
   by decide⟩

/-- C23 as stated fails: `generateShortCode(0)` produces the empty string, so a code produced
by `generateShortCode` can be empty, and the short URL then ends with the `/`. -/
theorem C23_counterexample :
    generateShortCode (some 0) (fun _ => 0) 0 = "" ∧
    ¬ (generateShortCode (some 0) (fun _ => 0) 0 ≠ "") ∧
    generateShortUrl "http://sho.rt" (generateShortCode (some 0) (fun _ => 0) 0)
      = "http://sho.rt/" := by
  decide

/-! ## Two requests in flight -/

theorem find?_none_before (p : UrlDoc → Bool) (l1 l2 : Store) (url : UrlDoc)
    (hids : ((l1 ++ url :: l2).map (fun d => d.id)).Nodup)
    (h : (l1 ++ url :: l2).find? p = some url) : ∀ d ∈ l1, p d = false := by
  intro d hd
  cases hp : p d with
  | false => rfl
  | true =>
    exfalso
    cases hf : l1.find? p with
    | none =>
      have := List.find?_eq_none.mp hf d hd
      simp [hp] at this
    | some e =>
      rw [List.find?_append, hf] at h
      have he : e = url := by simpa using h
      have hmem : e ∈ l1 := List.mem_of_find?_eq_some hf
      rw [he] at hmem
      rw [List.map_append, List.map_cons] at hids
      exact (List.nodup_append.mp hids).2.2 (List.mem_map.mpr ⟨url, hmem, rfl⟩)
        (List.mem_cons_self _ _)

theorem ids_before (l1 l2 : Store) (url : UrlDoc)
    (hids : ((l1 ++ url :: l2).map (fun d => d.id)).Nodup) : ∀ d ∈ l1, d.id ≠ url.id := by
  intro d hd hid
  rw [List.map_append, List.map_cons] at hids
  exact (List.nodup_append.mp hids).2.2 (List.mem_map.mpr ⟨d, hd, rfl⟩)
    (by rw [hid]; exact List.mem_cons_self _ _)

theorem updateOne_at (l1 l2 : Store) (cur : UrlDoc) (id : Nat) (f : UrlDoc → UrlDoc)
    (hfresh : ∀ d ∈ l1, d.id ≠ id) (hid : cur.id = id) :
    updateOne (l1 ++ cur :: l2) id f = l1 ++ f cur :: l2 := by
  induction l1 with
  | nil =>
    show updateOne (cur :: l2) id f = f cur :: l2
    unfold updateOne
    rw [if_pos hid]
  | cons x rest ih =>
    have hx : x.id ≠ id := hfresh x (List.mem_cons_self x rest)
    show updateOne (x :: (rest ++ cur :: l2)) id f = x :: (rest ++ f cur :: l2)
    unfold updateOne
    rw [if_neg hx, ih (fun d hd => hfresh d (List.mem_cons_of_mem x hd))]

theorem addClick_at (l1 l2 : Store) (cur url : UrlDoc) (clickData : ClickData) (t1 t2 : Nat)
    (hfresh : ∀ d ∈ l1, d.id ≠ url.id) (hid : cur.id = url.id)
    (hroom : url.clickHistory.length < maxArrayLength) :
    addClick (l1 ++ cur :: l2) url clickData t1 t2 true
      = some (savedDoc url clickData t1 t2,
          l1 ++ applyUpdate (applyClick url clickData t1) (clickEvent clickData t1) t2 cur
            :: l2) := by
  unfold addClick save
  rw [if_pos hroom, if_pos rfl]
  show some (savedDoc url clickData t1 t2, updateOne (l1 ++ cur :: l2) url.id _) = _
  rw [updateOne_at l1 l2 cur url.id _ hfresh hid]

theorem lookupLive_at (l1 l2 : Store) (cur : UrlDoc) (req : RedirectReq) (env : RedirectEnv)
    (hfirst : ∀ d ∈ l1, (Filter.activeCodeOrAlias req.code).matches d = false)
    (hcur : (Filter.activeCodeOrAlias req.code).matches cur = true)
    (hexp : isExpired cur env.nowExpiry = false) :
    lookupLive (l1 ++ cur :: l2) req env = some cur := by
  unfold lookupLive
  rw [findOne_of_first l1 l2 cur _ hcur hfirst]
  simp [hexp]

theorem lookupLive_redirectUrl (store : Store) (req : RedirectReq) (env : RedirectEnv)
    (url : UrlDoc) (r : UrlDoc × Store)
    (hread : lookupLive store req env = some url)
    (hwrite : addClick store url (clickDataOf req) env.nowClick env.nowSave env.saveOk = some r) :
    (redirectUrl store req env).response = .redirect url.originalUrl ∧
    (redirectUrl store req env).store = r.2 := by
  unfold lookupLive at hread
  cases hfind : findOne store (.activeCodeOrAlias req.code) with
  | none => simp [hfind] at hread
  | some u =>
    simp only [hfind] at hread
    cases hexp : isExpired u env.nowExpiry with
    | true => simp [hexp] at hread
    | false =>
      simp only [hexp, Bool.false_eq_true, ↓reduceIte, Option.some.injEq] at hread
      subst hread
      have hsaved : r.1.originalUrl = u.originalUrl := by
        obtain ⟨hroom, hok⟩ := addClick_isSome store u _ _ _ _ r hwrite
        unfold addClick save at hwrite
        simp only [hroom, hok, ↓reduceIte, Option.some.injEq] at hwrite
        rw [← hwrite]
        rfl
      unfold redirectUrl
      simp only [hfind, hexp, hwrite]
      exact ⟨by simp [hsaved], rfl⟩

/-- C24, as amended: take a collection with distinct `_id`s, a stored link `url`, and two
`redirectUrl` requests A and B whose lookups both resolve to it, unexpired, with room for two
more entries in `clickHistory` and both writes accepted. Handled one after the other, in either
order, both succeed (the result is that of the handler run twice), `clickHistory` gains the two
entries, and `clicks` is raised twice: by exactly 2 when it is below 2^53 - 1. In each of the
four interleavings in which both lookups come before both writes, both requests succeed and
`clickHistory` gains the two entries in the order of the writes, but `clicks` is raised once
only, to the value both requests computed from the document they loaded: one click is lost from
the counter. -/
theorem C24_concurrent_clicks (l1 l2 : Store) (url : UrlDoc) (reqA reqB : RedirectReq)
    (envA envB : RedirectEnv)
    (hids : ((l1 ++ url :: l2).map (fun d => d.id)).Nodup)
    (hfindA : findOne (l1 ++ url :: l2) (.activeCodeOrAlias reqA.code) = some url)
    (hfindB : findOne (l1 ++ url :: l2) (.activeCodeOrAlias reqB.code) = some url)
    (hexpA : isExpired url envA.nowExpiry = false)
    (hexpB : isExpired url envB.nowExpiry = false)
    (hroom : url.clickHistory.length + 1 < maxArrayLength)
    (hsaveA : envA.saveOk = true) (hsaveB : envB.saveOk = true) :
    (runEvents reqA envA reqB envB ⟨l1 ++ url :: l2, none, none⟩
        [.readA, .writeA, .readB, .writeB]
      = some (redirectUrl (redirectUrl (l1 ++ url :: l2) reqA envA).store reqB envB).store ∧
     runEvents reqA envA reqB envB ⟨l1 ++ url :: l2, none, none⟩
        [.readA, .writeA, .readB, .writeB]
      = some (l1 ++
          { url with
            clicks := jsIncrement (jsIncrement url.clicks)
            clickHistory := url.clickHistory ++
              [clickEvent (clickDataOf reqA) envA.nowClick,
               clickEvent (clickDataOf reqB) envB.nowClick]
            updatedAt := envB.nowSave
            version := url.version + 2 } :: l2) ∧
     runEvents reqA envA reqB envB ⟨l1 ++ url :: l2, none, none⟩
        [.readB, .writeB, .readA, .writeA]
      = some (l1 ++
          { url with
            clicks := jsIncrement (jsIncrement url.clicks)
            clickHistory := url.clickHistory ++
              [clickEvent (clickDataOf reqB) envB.nowClick,
               clickEvent (clickDataOf reqA) envA.nowClick]
            updatedAt := envA.nowSave
            version := url.version + 2 } :: l2) ∧
     (url.clicks + 1 < 9007199254740992 →
        jsIncrement (jsIncrement url.clicks) = url.clicks + 2)) ∧
    ((∀ sched ∈ [[Event.readA, .readB, .writeA, .writeB], [.readB, .readA, .writeA, .writeB]],
        runEvents reqA envA reqB envB ⟨l1 ++ url :: l2, none, none⟩ sched
          = some (l1 ++
              { url with
                clicks := jsIncrement url.clicks
                clickHistory := url.clickHistory ++
                  [clickEvent (clickDataOf reqA) envA.nowClick,
                   clickEvent (clickDataOf reqB) envB.nowClick]
                updatedAt := envB.nowSave
                version := url.version + 2 } :: l2)) ∧
     (∀ sched ∈ [[Event.readA, .readB, .writeB, .writeA], [.readB, .readA, .writeB, .writeA]],
        runEvents reqA envA reqB envB ⟨l1 ++ url :: l2, none, none⟩ sched
          = some (l1 ++
              { url with
                clicks := jsIncrement url.clicks
                clickHistory := url.clickHistory ++
                  [clickEvent (clickDataOf reqB) envB.nowClick,
                   clickEvent (clickDataOf reqA) envA.nowClick]
                updatedAt := envA.nowSave
                version := url.version + 2 } :: l2)) ∧
     (url.clicks < 9007199254740992 → jsIncrement url.clicks = url.clicks + 1)) := by
  have hfresh := ids_before l1 l2 url hids
  have hnoA := find?_none_before (Filter.activeCodeOrAlias reqA.code).matches l1 l2 url hids hfindA
  have hnoB := find?_none_before (Filter.activeCodeOrAlias reqB.code).matches l1 l2 url hids hfindB
  have hmA := (findOne_some _ _ url hfindA).2
  have hmB := (findOne_some _ _ url hfindB).2
  have hroom1 : url.clickHistory.length < maxArrayLength := by omega
  have rA0 := lookupLive_at l1 l2 url reqA envA hnoA hmA hexpA
  have rB0 := lookupLive_at l1 l2 url reqB envB hnoB hmB hexpB
  have hroom2 : ∀ (cd : ClickData) (t1 t2 : Nat),
      (savedDoc url cd t1 t2).clickHistory.length < maxArrayLength := by
    intro cd t1 t2
    simp only [savedDoc, applyClick, List.length_append, List.length_singleton]
    exact hroom
  have wA0 := addClick_at l1 l2 url url (clickDataOf reqA) envA.nowClick envA.nowSave
    hfresh rfl hroom1
  have wB0 := addClick_at l1 l2 url url (clickDataOf reqB) envB.nowClick envB.nowSave
    hfresh rfl hroom1
  have rB1 : lookupLive (l1 ++ savedDoc url (clickDataOf reqA) envA.nowClick envA.nowSave :: l2)
      reqB envB = some (savedDoc url (clickDataOf reqA) envA.nowClick envA.nowSave) :=
    lookupLive_at l1 l2 _ reqB envB hnoB hmB hexpB
  have rA1 : lookupLive (l1 ++ savedDoc url (clickDataOf reqB) envB.nowClick envB.nowSave :: l2)
      reqA envA = some (savedDoc url (clickDataOf reqB) envB.nowClick envB.nowSave) :=
    lookupLive_at l1 l2 _ reqA envA hnoA hmA hexpA
  have wB1 := addClick_at l1 l2 (savedDoc url (clickDataOf reqA) envA.nowClick envA.nowSave)
    (savedDoc url (clickDataOf reqA) envA.nowClick envA.nowSave)
    (clickDataOf reqB) envB.nowClick envB.nowSave hfresh rfl (hroom2 _ _ _)
  have wA1 := addClick_at l1 l2 (savedDoc url (clickDataOf reqB) envB.nowClick envB.nowSave)
    (savedDoc url (clickDataOf reqB) envB.nowClick envB.nowSave)
    (clickDataOf reqA) envA.nowClick envA.nowSave hfresh rfl (hroom2 _ _ _)
  have wB2 := addClick_at l1 l2 (savedDoc url (clickDataOf reqA) envA.nowClick envA.nowSave)
    url (clickDataOf reqB) envB.nowClick envB.nowSave hfresh rfl hroom1
  have wA2 := addClick_at l1 l2 (savedDoc url (clickDataOf reqB) envB.nowClick envB.nowSave)
    url (clickDataOf reqA) envA.nowClick envA.nowSave hfresh rfl hroom1
  rw [applyUpdate_self] at wA0 wB0 wB1 wA1
  refine ⟨⟨?_, ?_, ?_, ?_⟩, ?_, ?_, fun h => jsIncrement_of_lt url.clicks h⟩
  · have h1 : (redirectUrl (l1 ++ url :: l2) reqA envA).store
        = l1 ++ savedDoc url (clickDataOf reqA) envA.nowClick envA.nowSave :: l2 :=
      (lookupLive_redirectUrl _ reqA envA url _ rA0 (by rw [hsaveA]; exact wA0)).2
    have h2 : (redirectUrl
          (l1 ++ savedDoc url (clickDataOf reqA) envA.nowClick envA.nowSave :: l2)
          reqB envB).store
        = l1 ++ savedDoc (savedDoc url (clickDataOf reqA) envA.nowClick envA.nowSave)
            (clickDataOf reqB) envB.nowClick envB.nowSave :: l2 :=
      (lookupLive_redirectUrl _ reqB envB _ _ rB1 (by rw [hsaveB]; exact wB1)).2
    rw [h1, h2]
    simp only [runEvents, stepEvent, rA0, hsaveA, hsaveB, wA0, rB1, wB1, Option.map_some']
  · simp only [runEvents, stepEvent, rA0, hsaveA, hsaveB, wA0, rB1, wB1, Option.map_some']
    simp [savedDoc, applyClick, applyUpdate]
  · simp only [runEvents, stepEvent, rB0, hsaveA, hsaveB, wB0, rA1, wA1, Option.map_some']
    simp [savedDoc, applyClick, applyUpdate]
  · intro h
    rw [jsIncrement_of_lt url.clicks (by omega), jsIncrement_of_lt (url.clicks + 1) h]
  · intro sched hs
    simp only [List.mem_cons, List.mem_singleton, List.not_mem_nil, or_false] at hs
    rcases hs with rfl | rfl
    · simp only [runEvents, stepEvent, rA0, rB0, hsaveA, hsaveB, wA0, wB2, Option.map_some']
      simp [savedDoc, applyClick, applyUpdate]
    · simp only [runEvents, stepEvent, rA0, rB0, hsaveA, hsaveB, wA0, wB2, Option.map_some']
      simp [savedDoc, applyClick, applyUpdate]
  · intro sched hs
    simp only [List.mem_cons, List.mem_singleton, List.not_mem_nil, or_false] at hs
    rcases hs with rfl | rfl
    · simp only [runEvents, stepEvent, rA0, rB0, hsaveA, hsaveB, wB0, wA2, Option.map_some']
      simp [savedDoc, applyClick, applyUpdate]
    · simp only [runEvents, stepEvent, rA0, rB0, hsaveA, hsaveB, wB0, wA2, Option.map_some']
      simp [savedDoc, applyClick, applyUpdate]

theorem C24_concurrent_clicks_witness :
    ((promoUrl :: sampleUrl :: []).map (fun d => d.id)).Nodup ∧
    findOne [promoUrl, sampleUrl] (.activeCodeOrAlias sampleVisit.code) = some sampleUrl ∧
    isExpired sampleUrl sampleClock.nowExpiry = false ∧
    runEvents sampleVisit sampleClock sampleVisit sampleClock ⟨[promoUrl, sampleUrl], none, none⟩
        [.readA, .writeA, .readB, .writeB]
      = some (redirectUrl (redirectUrl [promoUrl, sampleUrl] sampleVisit sampleClock).store
          sampleVisit sampleClock).store ∧
    (runEvents sampleVisit sampleClock sampleVisit sampleClock ⟨[promoUrl, sampleUrl], none, none⟩
        [.readA, .writeA, .readB, .writeB]).map
          (fun st => st.map (fun d => (d.clicks, d.clickHistory.length)))
      = some [(0, 0), (4, 4)] ∧
    (runEvents sampleVisit sampleClock sampleVisit sampleClock ⟨[promoUrl, sampleUrl], none, none⟩
        [.readA, .readB, .writeA, .writeB]).map
          (fun st => st.map (fun d => (d.clicks, d.clickHistory.length)))
      = some [(0, 0), (3, 4)] :=
  ⟨by decide, by decide, by decide,
   (C24_concurrent_clicks [promoUrl] [] sampleUrl sampleVisit sampleVisit sampleClock sampleClock
      (by decide) (by decide) (by decide) (by decide) (by decide) (by decide) rfl rfl).1.1,
   by decide, by decide⟩

/-- C24 as stated fails: two visits of `sampleUrl`, stored with `clicks` 2 and two entries, whose
lookups both come before both writes, both succeed; the record ends with four entries in
`clickHistory` but `clicks` 3, not 4, so `clicks` is no longer the length of `clickHistory`. -/
theorem C24_counterexample :
    lookupLive [sampleUrl] sampleVisit sampleClock = some sampleUrl ∧
    sampleUrl.isActive = true ∧ sampleUrl.clicks = 2 ∧ sampleUrl.clickHistory.length = 2 ∧
    (runEvents sampleVisit sampleClock sampleVisit sampleClock ⟨[sampleUrl], none, none⟩
        [.readA, .readB, .writeA, .writeB]).map
          (fun st => st.map (fun d => (d.clicks, d.clickHistory.length)))
      = some [(3, 4)] ∧
    (3 : Nat) ≠ 2 + 2 ∧ (3 : Nat) ≠ 4 := by
  decide

end UrlShortener
